import Mathlib

/-!
# WirePlumber `module-filters-api.c`: filter registry and chain resolver

A shallow embedding of `src/modules/module-filters-api.c`.

* C strings (`gchar *`) are Lean `String`s; a pointer that may be `NULL` is an
  `Option`.  `strcmp` compares bytes, which for UTF-8 text is the order of the
  code points, so string comparison is done on the characters.
* `gint` values are `Int`s kept in the range of a 32-bit signed integer by
  `to_gint`; `guint32` object ids are `Nat`s.
* A `GList` is a Lean `List`; a list node (a position a `GList *` points to) is
  the triple of the elements before it (nearest first), its data and the
  elements after it.
* The `GHashTable` of targets is an association list with unique keys.
* Passing `NULL` to `g_str_equal` crashes the program: the functions that can
  do so return an `Option`, `none` standing for the crash.
-/

namespace FiltersApi

/-! ## Data model -/

/-- The enum `WpDirection`: `WP_DIRECTION_INPUT = 0`, `WP_DIRECTION_OUTPUT = 1`. -/
inductive WpDirection where
  | INPUT
  | OUTPUT
  deriving DecidableEq, Repr

/-- A node proxy (`WpNode`, also seen as `WpProxy` and `WpPipewireObject`):
its bound id (`guint32`) and its PipeWire properties. -/
structure WpNode where
  bound_id : Nat
  props : List (String × String)
  deriving DecidableEq, Repr

/-- The key `PW_KEY_NODE_NAME` of `pipewire/keys.h`. -/
def PW_KEY_NODE_NAME : String := "node.name"

/-- The key `PW_KEY_MEDIA_CLASS` of `pipewire/keys.h`. -/
def PW_KEY_MEDIA_CLASS : String := "media.class"

/-- The key `PW_KEY_NODE_LINK_GROUP` of `pipewire/keys.h`. -/
def PW_KEY_NODE_LINK_GROUP : String := "node.link-group"

/-- The value of a property of a PipeWire object, `NULL` when it has none. -/
def wp_pipewire_object_get_property (proxy : WpNode) (key : String) : Option String :=
  match proxy.props.find? (fun kv => decide (kv.1 = key)) with
  | some kv => some kv.2
  | none => none

/-- The conversion of an integer to `gint` (32 bits, two's complement). -/
def to_gint (n : Int) : Int :=
  (n + 2147483648) % 4294967296 - 2147483648

/-- The bound id of a proxy. The function is not among the sources
(`lib/wp/proxy.c`); the id it reports for a `NULL` proxy, after its
`g_return_val_if_fail`, is the parameter `null_id`. -/
def wp_proxy_get_bound_id (null_id : Nat) : Option WpNode → Nat
  | some n => n.bound_id
  | none => null_id

/-- The struct `_Filter`. -/
structure Filter where
  link_group : String
  direction : WpDirection
  node : Option WpNode
  stream : Option WpNode
  target : Option String
  enabled : Bool
  priority : Int
  deriving DecidableEq, Repr

/-- Modelled from the spec: a JSON value as the configuration parser
(`WpSpaJson`, `lib/wp/spa-json.c`, not among the sources) presents it. An
object is its sequence of key and value pairs, an array is its sequence of
elements. -/
inductive WpSpaJson where
  | null
  | boolean (b : Bool)
  | int (n : Int)
  | string (s : String)
  | array (items : List WpSpaJson)
  | object (fields : List (String × WpSpaJson))

/-- The metadata object named "filters": the values stored for subject 0 under
the keys "filters.configured.targets" and "filters.configured.filters", already
handed to `wp_spa_json_new_from_string`; `none` when the key is not set. -/
structure WpMetadata where
  configured_targets : Option WpSpaJson
  configured_filters : Option WpSpaJson

/-- The struct `_WpFiltersApi`. Of the object managers it keeps what the
module reads from them: the metadata object of `metadata_om` (if any) and the
nodes of `nodes_om`. `filters_input` is `filters[WP_DIRECTION_INPUT]`,
`filters_output` is `filters[WP_DIRECTION_OUTPUT]`. The last two fields record
the effects of the module on the core: `pending_syncs` counts the closures
given to `wp_core_sync_closure` that have not been called yet,
`changed_emitted` counts the emissions of the signal "changed". -/
structure WpFiltersApi where
  metadata_om : Option WpMetadata
  nodes_om : List WpNode
  n_playback_stream_nodes : Nat
  n_capture_stream_nodes : Nat
  filters_input : List Filter
  filters_output : List Filter
  targets : List (String × WpNode)
  pending_syncs : Nat
  changed_emitted : Nat

/-- The list `self->filters[dir]`. -/
def filters (self : WpFiltersApi) : WpDirection → List Filter
  | WpDirection.INPUT => self.filters_input
  | WpDirection.OUTPUT => self.filters_output

/-- The assignment `self->filters[dir] = l`. -/
def set_filters (self : WpFiltersApi) (dir : WpDirection) (l : List Filter) : WpFiltersApi :=
  match dir with
  | WpDirection.INPUT => { self with filters_input := l }
  | WpDirection.OUTPUT => { self with filters_output := l }

/-! ## GLib helpers -/

/-- The comparison `filter_equal_func`: 0 when the filter has the link group. -/
def filter_equal_func (f : Filter) (link_group : String) : Int :=
  if f.link_group = link_group then 0 else 1

/-- The search of `g_list_find_custom` with `filter_equal_func`, walking the
list from its head: `before` holds the elements already passed, nearest
first. The result is the first node whose filter has the link group. -/
def g_list_find_custom_from (link_group : String) :
    List Filter → List Filter → Option (List Filter × Filter × List Filter)
  | _, [] => none
  | before, f :: rest =>
    if filter_equal_func f link_group = 0 then some (before, f, rest)
    else g_list_find_custom_from link_group (f :: before) rest

/-- The call `g_list_find_custom (list, link_group, filter_equal_func)`. -/
def g_list_find_custom (list : List Filter) (link_group : String) :
    Option (List Filter × Filter × List Filter) :=
  g_list_find_custom_from link_group [] list

/-- The lookup `g_hash_table_lookup (self->targets, key)`. -/
def g_hash_table_lookup (table : List (String × WpNode)) (key : String) : Option WpNode :=
  match table.find? (fun kv => decide (kv.1 = key)) with
  | some kv => some kv.2
  | none => none

/-- The insertion `g_hash_table_insert (table, key, node)`: the value of a key
already in the table is replaced, a new key gets a new entry. -/
def g_hash_table_insert (table : List (String × WpNode)) (key : String) (node : WpNode) :
    List (String × WpNode) :=
  match table with
  | [] => [(key, node)]
  | kv :: rest =>
    if kv.1 = key then (kv.1, node) :: rest
    else kv :: g_hash_table_insert rest key node

/-- The test `strstr (haystack, needle) != NULL`. -/
def strstr (haystack needle : String) : Bool :=
  decide (needle.data <:+: haystack.data)

/-- The sign of `strcmp` on the characters of two strings (C fixes only the
sign of the result): -1, 0 or 1. -/
def strcmp : List Char → List Char → Int
  | [], [] => 0
  | [], _ :: _ => -1
  | _ :: _, [] => 1
  | a :: as, b :: bs =>
    if a = b then strcmp as bs else if a < b then -1 else 1

/-- The comparison `g_strcmp0` of two strings that are not `NULL`. -/
def g_strcmp0 (a b : String) : Int :=
  strcmp a.data b.data

/-- The insertion `g_list_insert_sorted (list, data, func)` of GLib: `data`
goes before the first element `x` with `func (data, x) <= 0`, and to the end
when there is none. -/
def g_list_insert_sorted {α : Type} (func : α → α → Int) : List α → α → List α
  | [], data => [data]
  | x :: rest, data =>
    if func data x > 0 then x :: g_list_insert_sorted func rest data
    else data :: x :: rest

/-- The merge `g_list_sort_merge` of GLib, `fuel` bounding the number of
elements it moves: the head of `l1` is taken when `compare_func` of the two
heads is `<= 0`. -/
def g_list_sort_merge {α : Type} (compare_func : α → α → Int) :
    Nat → List α → List α → List α
  | 0, l1, l2 => l1 ++ l2
  | _ + 1, [], l2 => l2
  | _ + 1, l1, [] => l1
  | fuel + 1, a :: l1, b :: l2 =>
    if compare_func a b ≤ 0 then a :: g_list_sort_merge compare_func fuel l1 (b :: l2)
    else b :: g_list_sort_merge compare_func fuel (a :: l1) l2

/-- The merge sort `g_list_sort_real` of GLib, `fuel` bounding the depth of
the recursion: a list of two or more elements is cut after its first
`length / 2` elements, both parts are sorted and merged. -/
def g_list_sort_real {α : Type} (compare_func : α → α → Int) : Nat → List α → List α
  | 0, list => list
  | fuel + 1, list =>
    match list with
    | [] => []
    | [a] => [a]
    | a :: b :: rest =>
      let l1 := (a :: b :: rest).take ((a :: b :: rest).length / 2)
      let l2 := (a :: b :: rest).drop ((a :: b :: rest).length / 2)
      g_list_sort_merge compare_func (a :: b :: rest).length
        (g_list_sort_real compare_func fuel l1) (g_list_sort_real compare_func fuel l2)

/-- The call `g_list_sort (list, compare_func)`. -/
def g_list_sort {α : Type} (compare_func : α → α → Int) (list : List α) : List α :=
  g_list_sort_real compare_func list.length list

/-! ## Filters -/

/-- The function `get_filter_priority`. -/
def get_filter_priority (link_group : String) : Nat :=
  if strstr link_group "loopback" then 300
  else if strstr link_group "filter-chain" then 200
  else if strstr link_group "echo-cancel" then 0
  else 100

/-- The function `filter_new`. -/
def filter_new (link_group : String) (dir : WpDirection) (is_stream : Bool) (node : WpNode) :
    Filter :=
  { link_group := link_group
    direction := dir
    node := if is_stream then none else some node
    stream := if is_stream then some node else none
    target := none
    enabled := true
    priority := to_gint (get_filter_priority link_group) }

/-- The function `filter_compare_func`; the difference of the priorities is
taken in `gint`, overflow wrapping modulo 2^32. -/
def filter_compare_func (a b : Filter) : Int :=
  let diff := to_gint (a.priority - b.priority)
  if diff ≠ 0 then diff
  else g_strcmp0 a.link_group b.link_group

/-! ## JSON access

The accessors of `lib/wp/spa-json.c` are not among the sources. A format "s"
reads the value as `wp_spa_json_parse_string` does, a format "i" reads a JSON
integer into a `gint`; `wp_spa_json_object_get` reads the first field of the
given name and fails when the object has no such field or its value cannot be
read in the format. -/

/-- Modelled from the spec: the test `wp_spa_json_is_object`. -/
def wp_spa_json_is_object : WpSpaJson → Bool
  | WpSpaJson.object _ => true
  | _ => false

/-- Modelled from the spec: the test `wp_spa_json_is_array`. -/
def wp_spa_json_is_array : WpSpaJson → Bool
  | WpSpaJson.array _ => true
  | _ => false

mutual

/-- The function `wp_spa_json_to_string` of `lib/wp/spa-json.c`, which is not
among the sources: the text of a value as it is written in the configuration.
The model writes a container on one line, its elements separated by a comma
and a blank. -/
def wp_spa_json_to_string : WpSpaJson → String
  | WpSpaJson.null => "null"
  | WpSpaJson.boolean b => if b then "true" else "false"
  | WpSpaJson.int n => toString n
  | WpSpaJson.string s => "\"" ++ s ++ "\""
  | WpSpaJson.array items => "[" ++ wp_spa_json_items_to_string items ++ "]"
  | WpSpaJson.object fields => "\x7b" ++ wp_spa_json_fields_to_string fields ++ "\x7d"

/-- The text of the elements of an array. -/
def wp_spa_json_items_to_string : List WpSpaJson → String
  | [] => ""
  | [v] => wp_spa_json_to_string v
  | v :: w :: rest =>
    wp_spa_json_to_string v ++ ", " ++ wp_spa_json_items_to_string (w :: rest)

/-- The text of the fields of an object. -/
def wp_spa_json_fields_to_string : List (String × WpSpaJson) → String
  | [] => ""
  | [(k, v)] => "\"" ++ k ++ "\": " ++ wp_spa_json_to_string v
  | (k, v) :: kv :: rest =>
    "\"" ++ k ++ "\": " ++ wp_spa_json_to_string v ++ ", "
      ++ wp_spa_json_fields_to_string (kv :: rest)

end

/-- The function `wp_spa_json_parse_string` of `lib/wp/spa-json.c`, which is
not among the sources and which the spec leaves to the configuration parser.
Of a JSON string it gives the text; of a value of another kind the library
gives the text of the value as it is written (the number 5 gives "5"). It
gives `NULL` for no value. -/
def wp_spa_json_parse_string : WpSpaJson → Option String
  | WpSpaJson.string s => some s
  | v => some (wp_spa_json_to_string v)

/-- Modelled from the spec: the function `wp_spa_json_parse_int`, the integer
being stored in a `gint`. -/
def wp_spa_json_parse_int : WpSpaJson → Option Int
  | WpSpaJson.int n => some (to_gint n)
  | _ => none

/-- Modelled from the spec: the value of the first field of an object with the
given name, as `wp_spa_json_object_get` looks it up. -/
def wp_spa_json_object_find (j : WpSpaJson) (key : String) : Option WpSpaJson :=
  match j with
  | WpSpaJson.object fields =>
    match fields.find? (fun kv => decide (kv.1 = key)) with
    | some kv => some kv.2
    | none => none
  | _ => none

/-- Modelled from the spec: the call
`wp_spa_json_object_get (j, key, "s", &out, NULL)`. -/
def wp_spa_json_object_get_string (j : WpSpaJson) (key : String) : Option String :=
  match wp_spa_json_object_find j key with
  | some v => wp_spa_json_parse_string v
  | none => none

/-- Modelled from the spec: the call
`wp_spa_json_object_get (j, key, "i", &out, NULL)`. -/
def wp_spa_json_object_get_int (j : WpSpaJson) (key : String) : Option Int :=
  match wp_spa_json_object_find j key with
  | some v => wp_spa_json_parse_int v
  | none => none

/-! ## Chain resolver queries -/

/-- The direction a query names: `WP_DIRECTION_OUTPUT` for "output" and
"Output", `WP_DIRECTION_INPUT` for every other string. -/
def query_direction (direction : String) : WpDirection :=
  if direction = "output" ∨ direction = "Output" then WpDirection.OUTPUT
  else WpDirection.INPUT

/-- The test on targets both scans use:
`a == b || (a && b && g_str_equal (a, b))`. Two targets of different filters
are the same pointer only when both are `NULL`; equal pointers hold equal
strings. -/
def target_equal (a b : Option String) : Bool :=
  match a, b with
  | none, none => true
  | some x, some y => decide (x = y)
  | _, _ => false

/-- The function `wp_filters_api_is_filter_enabled`, both arguments not `NULL`. -/
def wp_filters_api_is_filter_enabled (self : WpFiltersApi) (direction link_group : String) :
    Bool :=
  match g_list_find_custom (filters self (query_direction direction)) link_group with
  | none => false
  | some (_, found, _) => found.enabled

/-- The function `wp_filters_api_get_filter_target`, both arguments not `NULL`. -/
def wp_filters_api_get_filter_target (null_id : Nat) (self : WpFiltersApi)
    (direction link_group : String) : Int :=
  match g_list_find_custom (filters self (query_direction direction)) link_group with
  | none => -1
  | some (before, found, _) =>
    if found.enabled = false then -1
    else
      match before.find? (fun prev => target_equal prev.target found.target && prev.enabled) with
      | some prev => to_gint (wp_proxy_get_bound_id null_id prev.node)
      | none =>
        match found.target with
        | some t =>
          match g_hash_table_lookup self.targets t with
          | some node => to_gint node.bound_id
          | none => -1
        | none => -1

/-- The function `wp_filters_api_get_filter_from_target`, `direction` not `NULL`. -/
def wp_filters_api_get_filter_from_target (null_id : Nat) (self : WpFiltersApi)
    (direction : String) (target_id : Int) : Int :=
  let list := filters self (query_direction direction)
  match list.find? (fun f =>
      decide (wp_filters_api_get_filter_target null_id self direction f.link_group = target_id)
        && f.enabled) with
  | none => target_id
  | some f =>
    list.foldl (fun res g =>
      if target_equal g.target f.target && g.enabled then
        to_gint (wp_proxy_get_bound_id null_id g.node)
      else res) target_id

/-! ## Configuration application -/

/-- The "Update target" block of `update_values_from_metadata` for the
matching record `j`: the new value of the change flag and the filter. -/
def update_target (f : Filter) (j : WpSpaJson) : Bool × Filter :=
  match wp_spa_json_object_get_string j "target" with
  | some target =>
    if f.target = none ∨ ¬ f.target = some target then
      (true, { f with target := some target })
    else (false, f)
  | none =>
    if f.target ≠ none then (true, { f with target := none })
    else (false, f)

/-- The "Update mode" block of `update_values_from_metadata` for the matching
record `j`. -/
def update_mode (self : WpFiltersApi) (f : Filter) (j : WpSpaJson) : Bool × Filter :=
  match wp_spa_json_object_get_string j "mode" with
  | some mode =>
    if mode = "always" then
      if f.enabled = false then (true, { f with enabled := true }) else (false, f)
    else if mode = "never" then
      if f.enabled = true then (true, { f with enabled := false }) else (false, f)
    else if mode = "playback-only" then
      if f.enabled ≠ decide (self.n_playback_stream_nodes > 0) then
        (true, { f with enabled := decide (self.n_playback_stream_nodes > 0) })
      else (false, f)
    else if mode = "capture-only" then
      if f.enabled ≠ decide (self.n_capture_stream_nodes > 0) then
        (true, { f with enabled := decide (self.n_capture_stream_nodes > 0) })
      else (false, f)
    else (false, f)
  | none => (false, f)

/-- The "Update priority" block of `update_values_from_metadata` for the
matching record `j`. -/
def update_priority (f : Filter) (j : WpSpaJson) : Bool × Filter :=
  match wp_spa_json_object_get_int j "priority" with
  | some priority =>
    if f.priority ≠ priority then (true, { f with priority := priority })
    else (false, f)
  | none => (false, f)

/-- The body of the `if` of `update_values_from_metadata` that is run for the
matching record `j`, up to its `break`: target, mode, priority. -/
def apply_record (self : WpFiltersApi) (f : Filter) (j : WpSpaJson) : Bool × Filter :=
  let r1 := update_target f j
  let r2 := update_mode self r1.2 j
  let r3 := update_priority r2.2 j
  (r1.1 || r2.1 || r3.1, r3.2)

/-- The direction a record names: "input" and "output" are themselves, any
other string only draws a warning and leaves `dir` at its initial value
`WP_DIRECTION_INPUT`. -/
def record_direction (direction : String) : WpDirection :=
  if direction = "input" then WpDirection.INPUT
  else if direction = "output" then WpDirection.OUTPUT
  else WpDirection.INPUT

/-- The `for` loop of `update_values_from_metadata` over the elements of the
array. `none` is the crash of `g_str_equal` on a `NULL` node name. -/
def update_values_loop (self : WpFiltersApi) (f : Filter)
    (f_stream_name f_node_name : Option String) : List WpSpaJson → Option (Bool × Filter)
  | [] => some (false, f)
  | j :: rest =>
    if wp_spa_json_is_object j = false then
      update_values_loop self f f_stream_name f_node_name rest
    else
      match wp_spa_json_object_get_string j "stream-name",
          wp_spa_json_object_get_string j "node-name",
          wp_spa_json_object_get_string j "direction" with
      | some stream_name, some node_name, some direction =>
        match f_stream_name with
        | none => none
        | some fsn =>
          if fsn = stream_name then
            match f_node_name with
            | none => none
            | some fnn =>
              if fnn = node_name ∧ f.direction = record_direction direction then
                some (apply_record self f j)
              else update_values_loop self f f_stream_name f_node_name rest
          else update_values_loop self f f_stream_name f_node_name rest
      | _, _, _ => update_values_loop self f f_stream_name f_node_name rest

/-- The function `update_values_from_metadata`: the returned flag and the
filter as the call leaves it. -/
def update_values_from_metadata (self : WpFiltersApi) (f : Filter) : Option (Bool × Filter) :=
  match self.metadata_om with
  | none => some (false, f)
  | some m =>
    match f.stream, f.node with
    | some stream, some node =>
      match m.configured_filters with
      | none => some (false, f)
      | some (WpSpaJson.array items) =>
        update_values_loop self f
          (wp_pipewire_object_get_property stream PW_KEY_NODE_NAME)
          (wp_pipewire_object_get_property node PW_KEY_NODE_NAME) items
      | some _ => some (false, f)
    | _, _ => some (false, f)

/-- The `while` loop of `reevaluate_filters`: the flag and the updated filters. -/
def reevaluate_filters_loop (self : WpFiltersApi) : List Filter → Option (Bool × List Filter)
  | [] => some (false, [])
  | f :: rest =>
    match update_values_from_metadata self f with
    | none => none
    | some r =>
      match reevaluate_filters_loop self rest with
      | none => none
      | some rs => some (r.1 || rs.1, r.2 :: rs.2)

/-- The function `reevaluate_filters`. -/
def reevaluate_filters (self : WpFiltersApi) (direction : WpDirection) :
    Option (Bool × WpFiltersApi) :=
  match reevaluate_filters_loop self (filters self direction) with
  | none => none
  | some r =>
    if r.1 = true then
      some (true, set_filters self direction (g_list_sort filter_compare_func r.2))
    else some (false, set_filters self direction r.2)

/-! ## Target resolution -/

/-- Modelled from the spec: the lookup `wp_object_manager_lookup_full`
(`lib/wp/object-manager.c`, not among the sources) on the nodes of `nodes_om`.
The result is the first node that has every property of the constraints with
the given value. -/
def wp_object_manager_lookup_full (nodes : List WpNode) (constraints : List (String × String)) :
    Option WpNode :=
  nodes.find? (fun n =>
    constraints.all (fun c => decide (wp_pipewire_object_get_property n c.1 = some c.2)))

/-- The `for` loop of `find_target_node`: the constraints added to the
interest; the loop stops at the first value for which
`wp_spa_json_parse_string` gives `NULL`. -/
def target_constraints : List (String × WpSpaJson) → List (String × String)
  | [] => []
  | kv :: rest =>
    match wp_spa_json_parse_string kv.2 with
    | none => []
    | some value => (kv.1, value) :: target_constraints rest

/-- The function `find_target_node`. -/
def find_target_node (self : WpFiltersApi) (props_json : WpSpaJson) : Option WpNode :=
  match props_json with
  | WpSpaJson.object fields =>
    wp_object_manager_lookup_full self.nodes_om (target_constraints fields)
  | _ => none

/-- The `for` loop of `reevaluate_targets` over the fields of the object:
the flag and the table. -/
def reevaluate_targets_loop (self : WpFiltersApi) :
    List (String × WpSpaJson) → Bool × List (String × WpNode) → Bool × List (String × WpNode)
  | [], acc => acc
  | kv :: rest, acc =>
    let curr_target := g_hash_table_lookup acc.2 kv.1
    match find_target_node self kv.2 with
    | some target =>
      let changed :=
        match curr_target with
        | some curr => if target.bound_id ≠ curr.bound_id then true else acc.1
        | none => acc.1
      reevaluate_targets_loop self rest (changed, g_hash_table_insert acc.2 kv.1 target)
    | none =>
      let changed := if curr_target ≠ none then true else acc.1
      reevaluate_targets_loop self rest (changed, acc.2)

/-- The function `reevaluate_targets`. -/
def reevaluate_targets (self : WpFiltersApi) : Bool × WpFiltersApi :=
  let cleared := { self with targets := [] }
  match self.metadata_om with
  | none => (false, cleared)
  | some m =>
    match m.configured_targets with
    | none => (false, cleared)
    | some (WpSpaJson.object fields) =>
      let r := reevaluate_targets_loop cleared fields (false, [])
      (r.1, { cleared with targets := r.2 })
    | some _ => (false, cleared)

/-! ## Event handlers -/

/-- The function `schedule_changed` (the core is there): one more closure
waits for the core sync. -/
def schedule_changed (self : WpFiltersApi) : WpFiltersApi :=
  { self with pending_syncs := self.pending_syncs + 1 }

/-- The callback `sync_changed` of one closure; `finished` is the result of
`wp_core_sync_finish`. -/
def sync_changed (self : WpFiltersApi) (finished : Bool) : WpFiltersApi :=
  if finished = false then { self with pending_syncs := self.pending_syncs - 1 }
  else
    { self with
      pending_syncs := self.pending_syncs - 1
      changed_emitted := self.changed_emitted + 1 }

/-- The function `on_stream_node_added`; the counters are `guint`. `none` is
the crash of `g_str_equal` on a `NULL` media class. -/
def on_stream_node_added (self : WpFiltersApi) (proxy : WpNode) : Option WpFiltersApi :=
  match wp_pipewire_object_get_property proxy PW_KEY_MEDIA_CLASS with
  | none => none
  | some media_class =>
    if media_class = "Stream/Output/Audio" then
      some { self with
        n_playback_stream_nodes := (self.n_playback_stream_nodes + 1) % 4294967296 }
    else if media_class = "Stream/Input/Audio" then
      some { self with
        n_capture_stream_nodes := (self.n_capture_stream_nodes + 1) % 4294967296 }
    else some self

/-- The function `on_stream_node_removed`. -/
def on_stream_node_removed (self : WpFiltersApi) (proxy : WpNode) : Option WpFiltersApi :=
  match wp_pipewire_object_get_property proxy PW_KEY_MEDIA_CLASS with
  | none => none
  | some media_class =>
    if media_class = "Stream/Output/Audio" ∧ self.n_playback_stream_nodes > 0 then
      some { self with n_playback_stream_nodes := self.n_playback_stream_nodes - 1 }
    else if media_class = "Stream/Input/Audio" ∧ self.n_capture_stream_nodes > 0 then
      some { self with n_capture_stream_nodes := self.n_capture_stream_nodes - 1 }
    else some self

/-- The "Reevaluate everything" loop over both directions that
`on_stream_nodes_changed`, `on_metadata_changed` and `on_metadata_added` share:
`reevaluate_filters` for `WP_DIRECTION_INPUT`, then for `WP_DIRECTION_OUTPUT`. -/
def reevaluate_both (self : WpFiltersApi) : Option (Bool × WpFiltersApi) :=
  match reevaluate_filters self WpDirection.INPUT with
  | none => none
  | some r0 =>
    match reevaluate_filters r0.2 WpDirection.OUTPUT with
    | none => none
    | some r1 => some (r0.1 || r1.1, r1.2)

/-- The function `on_stream_nodes_changed`. -/
def on_stream_nodes_changed (self : WpFiltersApi) : Option WpFiltersApi :=
  match reevaluate_both self with
  | none => none
  | some r => if r.1 = true then some (schedule_changed r.2) else some r.2

/-- The function `on_node_added`. -/
def on_node_added (self : WpFiltersApi) : WpFiltersApi :=
  (reevaluate_targets self).2

/-- The function `on_node_removed`. -/
def on_node_removed (self : WpFiltersApi) : WpFiltersApi :=
  (reevaluate_targets self).2

/-- The direction `on_filter_node_added` and `on_filter_node_removed` give to a
media class; `none` for a class they ignore. -/
def media_class_direction (key : String) : Option WpDirection :=
  if key = "Audio/Sink" ∨ key = "Stream/Output/Audio" then some WpDirection.INPUT
  else if key = "Audio/Source" ∨ key = "Stream/Input/Audio" then some WpDirection.OUTPUT
  else none

/-- The function `on_filter_node_added`. -/
def on_filter_node_added (self : WpFiltersApi) (proxy : WpNode) : Option WpFiltersApi :=
  match wp_pipewire_object_get_property proxy PW_KEY_MEDIA_CLASS with
  | none => some self
  | some media_class =>
    match media_class_direction media_class with
    | none => some self
    | some dir =>
      let is_stream : Bool :=
        decide (media_class = "Stream/Output/Audio" ∨ media_class = "Stream/Input/Audio")
      match wp_pipewire_object_get_property proxy PW_KEY_NODE_LINK_GROUP with
      | none => some self
      | some key =>
        match g_list_find_custom (filters self dir) key with
        | none =>
          match update_values_from_metadata self (filter_new key dir is_stream proxy) with
          | none => none
          | some r =>
            some (set_filters self dir
              (g_list_insert_sorted filter_compare_func (filters self dir) r.2))
        | some (before, found, after) =>
          let f : Filter :=
            if is_stream then { found with stream := some proxy }
            else { found with node := some proxy }
          match update_values_from_metadata self f with
          | none => none
          | some r =>
            some (set_filters self dir
              (g_list_sort filter_compare_func (before.reverse ++ r.2 :: after)))

/-- The function `on_filter_node_removed`: `g_list_remove` takes out the node
that `g_list_find_custom` found. -/
def on_filter_node_removed (self : WpFiltersApi) (proxy : WpNode) : WpFiltersApi :=
  match wp_pipewire_object_get_property proxy PW_KEY_MEDIA_CLASS with
  | none => self
  | some media_class =>
    match media_class_direction media_class with
    | none => self
    | some dir =>
      match wp_pipewire_object_get_property proxy PW_KEY_NODE_LINK_GROUP with
      | none => self
      | some key =>
        match g_list_find_custom (filters self dir) key with
        | none => self
        | some (before, _, after) => set_filters self dir (before.reverse ++ after)

/-- The function `on_metadata_changed`, which reads none of its arguments but
`self`. -/
def on_metadata_changed (self : WpFiltersApi) : Option WpFiltersApi :=
  let t := reevaluate_targets self
  match reevaluate_both t.2 with
  | none => none
  | some r => if (t.1 || r.1) = true then some (schedule_changed r.2) else some r.2

/-- The function `on_metadata_added`: after connecting `on_metadata_changed` to
the metadata it runs the same steps. -/
def on_metadata_added (self : WpFiltersApi) : Option WpFiltersApi :=
  let t := reevaluate_targets self
  match reevaluate_both t.2 with
  | none => none
  | some r => if (t.1 || r.1) = true then some (schedule_changed r.2) else some r.2

/-! ## The module as a state machine -/

/-- The state of the plugin once enabled: no filter, no target, no stream. -/
def wp_filters_api_enabled : WpFiltersApi :=
  { metadata_om := none
    nodes_om := []
    n_playback_stream_nodes := 0
    n_capture_stream_nodes := 0
    filters_input := []
    filters_output := []
    targets := []
    pending_syncs := 0
    changed_emitted := 0 }

/-- The signals the object managers, the metadata and the core deliver to the
module. An event on the metadata carries the metadata object as it is after
the event; an event on a node carries the node. -/
inductive Event where
  | metadata_added (m : WpMetadata)
  | metadata_changed (m : WpMetadata)
  | stream_node_added (proxy : WpNode)
  | stream_node_removed (proxy : WpNode)
  | stream_nodes_changed
  | node_added (proxy : WpNode)
  | node_removed (proxy : WpNode)
  | nodes_changed
  | filter_node_added (proxy : WpNode)
  | filter_node_removed (proxy : WpNode)
  | filter_nodes_changed
  | sync_done (finished : Bool)

/-- The effect of one event: the object manager concerned is brought up to
date, then the handler connected to the signal runs. -/
def handle (self : WpFiltersApi) : Event → Option WpFiltersApi
  | Event.metadata_added m => on_metadata_added { self with metadata_om := some m }
  | Event.metadata_changed m => on_metadata_changed { self with metadata_om := some m }
  | Event.stream_node_added proxy => on_stream_node_added self proxy
  | Event.stream_node_removed proxy => on_stream_node_removed self proxy
  | Event.stream_nodes_changed => on_stream_nodes_changed self
  | Event.node_added proxy =>
    some (on_node_added { self with nodes_om := self.nodes_om ++ [proxy] })
  | Event.node_removed proxy =>
    some (on_node_removed { self with nodes_om := self.nodes_om.erase proxy })
  | Event.nodes_changed => some (schedule_changed self)
  | Event.filter_node_added proxy => on_filter_node_added self proxy
  | Event.filter_node_removed proxy => some (on_filter_node_removed self proxy)
  | Event.filter_nodes_changed => some (schedule_changed self)
  | Event.sync_done finished =>
    if self.pending_syncs = 0 then some self else some (sync_changed self finished)

/-- The state after a sequence of events, `none` if a handler crashed. -/
def run (self : WpFiltersApi) : List Event → Option WpFiltersApi
  | [] => some self
  | e :: rest =>
    match handle self e with
    | none => none
    | some next => run next rest

/-- The states the module reaches from `wp_filters_api_enabled`. -/
inductive Reachable : WpFiltersApi → Prop where
  | enabled : Reachable wp_filters_api_enabled
  | handle (self next : WpFiltersApi) (e : Event) :
      Reachable self → handle self e = some next → Reachable next

/-! ## Definitions used in the statements -/

/-- The backward scan of `wp_filters_api_get_filter_target` and its fallback,
for the filter `found` standing after the filters `before` (nearest first). -/
def resolve_at (null_id : Nat) (table : List (String × WpNode)) (before : List Filter)
    (found : Filter) : Int :=
  if found.enabled = false then -1
  else
    match before.find? (fun prev => target_equal prev.target found.target && prev.enabled) with
    | some prev => to_gint (wp_proxy_get_bound_id null_id prev.node)
    | none =>
      match found.target with
      | some t =>
        match g_hash_table_lookup table t with
        | some node => to_gint node.bound_id
        | none => -1
      | none => -1

/-- The node of a concrete example: bound id, node name, media class, link group. -/
def example_node (id : Nat) (name media_class link_group : String) : WpNode :=
  { bound_id := id
    props := [(PW_KEY_NODE_NAME, name), (PW_KEY_MEDIA_CLASS, media_class),
      (PW_KEY_NODE_LINK_GROUP, link_group)] }

/-- The filter A of the chain example of the spec: priority 0, target "spk". -/
def chain_A : Filter :=
  { link_group := "A", direction := WpDirection.INPUT
    node := some (example_node 10 "nA" "Audio/Sink" "A")
    stream := some (example_node 11 "sA" "Stream/Output/Audio" "A")
    target := some "spk", enabled := true, priority := 0 }

/-- The filter B of the chain example of the spec: priority 100, target "spk". -/
def chain_B : Filter :=
  { link_group := "B", direction := WpDirection.INPUT
    node := some (example_node 20 "nB" "Audio/Sink" "B")
    stream := some (example_node 21 "sB" "Stream/Output/Audio" "B")
    target := some "spk", enabled := true, priority := 100 }

/-- The state of the chain example: A before B, the target "spk" resolved to
the node 50; `a_enabled` is the flag of A. -/
def chain_state (a_enabled : Bool) : WpFiltersApi :=
  { wp_filters_api_enabled with
    filters_input := [{ chain_A with enabled := a_enabled }, chain_B]
    targets := [("spk", example_node 50 "speaker" "Audio/Sink" "")] }

/-- The second loop of `wp_filters_api_get_filter_from_target` over a list. -/
def last_of_target (null_id : Nat) (target : Option String) (list : List Filter) (res : Int) :
    Int :=
  list.foldl (fun res g =>
    if target_equal g.target target && g.enabled then
      to_gint (wp_proxy_get_bound_id null_id g.node)
    else res) res

/-- The bound id of the device node of a filter, as a `gint`. -/
def device_node_id (null_id : Nat) (f : Filter) : Int :=
  to_gint (wp_proxy_get_bound_id null_id f.node)

/-- The order the registry is kept in: priority first, link group second. -/
def filter_le (a b : Filter) : Prop :=
  a.priority < b.priority ∨ (a.priority = b.priority ∧ a.link_group ≤ b.link_group)

instance (a b : Filter) : Decidable (filter_le a b) := by
  unfold filter_le
  infer_instance

/-- A list of filters sorted ascending by (priority, link group). -/
def registry_sorted (l : List Filter) : Prop :=
  List.Pairwise filter_le l

instance (l : List Filter) : Decidable (registry_sorted l) := by
  unfold registry_sorted
  infer_instance

/-- A configuration record of the array "filters.configured.filters". -/
def example_record (stream_name node_name direction : String) (priority : Int) : WpSpaJson :=
  WpSpaJson.object
    [("stream-name", WpSpaJson.string stream_name), ("node-name", WpSpaJson.string node_name),
      ("direction", WpSpaJson.string direction), ("priority", WpSpaJson.int priority)]

/-- A configuration giving the filter A the priority 2000000000 and the filter
B the priority -2000000000. -/
def overflow_metadata : WpMetadata :=
  { configured_targets := none
    configured_filters := some (WpSpaJson.array
      [example_record "sA" "nA" "input" 2000000000,
        example_record "sB" "nB" "input" (-2000000000)]) }

/-- The metadata appears, then the device node and the stream node of the
filter A, then those of the filter B. -/
def overflow_events : List Event :=
  [Event.metadata_added overflow_metadata,
    Event.filter_node_added (example_node 10 "nA" "Audio/Sink" "A"),
    Event.filter_node_added (example_node 11 "sA" "Stream/Output/Audio" "A"),
    Event.filter_node_added (example_node 20 "nB" "Audio/Sink" "B"),
    Event.filter_node_added (example_node 21 "sB" "Stream/Output/Audio" "B")]

/-- The invariant of one list of the registry: the link groups are pairwise
distinct and each filter carries the direction of the list it is in. -/
def list_inv (dir : WpDirection) (l : List Filter) : Prop :=
  (l.map Filter.link_group).Nodup ∧ ∀ f ∈ l, f.direction = dir

/-- The invariant of the registry: `list_inv` for both directions. -/
def registry_inv (self : WpFiltersApi) : Prop :=
  ∀ dir, list_inv dir (filters self dir)

/-- The test of `update_values_from_metadata` on one element of the array, for
a filter whose stream node and device node have the names `f_stream_name` and
`f_node_name`: the element is an object, it has the three mandatory fields, and
stream name, node name and direction are those of the filter. -/
def record_matches (f : Filter) (f_stream_name f_node_name : String) (j : WpSpaJson) : Bool :=
  wp_spa_json_is_object j &&
    match wp_spa_json_object_get_string j "stream-name",
        wp_spa_json_object_get_string j "node-name",
        wp_spa_json_object_get_string j "direction" with
    | some stream_name, some node_name, some direction =>
      decide (f_stream_name = stream_name ∧ f_node_name = node_name ∧
        f.direction = record_direction direction)
    | _, _, _ => false

/-- A configuration record with a mode. -/
def mode_record (stream_name node_name direction mode : String) : WpSpaJson :=
  WpSpaJson.object
    [("stream-name", WpSpaJson.string stream_name), ("node-name", WpSpaJson.string node_name),
      ("direction", WpSpaJson.string direction), ("mode", WpSpaJson.string mode)]

/-- The state of the mode example: a configuration whose second record names
the filter A with the given mode, and the given stream counters. -/
def mode_state (mode : String) (n_playback n_capture : Nat) : WpFiltersApi :=
  { wp_filters_api_enabled with
    metadata_om := some
      { configured_targets := none
        configured_filters := some (WpSpaJson.array
          [WpSpaJson.string "not a record", mode_record "sB" "nB" "input" "never",
            mode_record "sA" "nA" "input" mode, mode_record "sA" "nA" "input" "never"]) }
    n_playback_stream_nodes := n_playback
    n_capture_stream_nodes := n_capture }

/-- A configuration that gives the filters A and B the target "spk" and the
priorities 0 and 100. -/
def chain_metadata : WpMetadata :=
  { configured_targets := none
    configured_filters := some (WpSpaJson.array
      [WpSpaJson.object
          [("stream-name", WpSpaJson.string "sA"), ("node-name", WpSpaJson.string "nA"),
            ("direction", WpSpaJson.string "input"), ("target", WpSpaJson.string "spk"),
            ("priority", WpSpaJson.int 0)],
        WpSpaJson.object
          [("stream-name", WpSpaJson.string "sB"), ("node-name", WpSpaJson.string "nB"),
            ("direction", WpSpaJson.string "input"), ("target", WpSpaJson.string "spk"),
            ("priority", WpSpaJson.int 100)]]) }

/-- The metadata appears, then the nodes of B, then the nodes of A. -/
def chain_events : List Event :=
  [Event.metadata_added chain_metadata,
    Event.filter_node_added (example_node 21 "sB" "Stream/Output/Audio" "B"),
    Event.filter_node_added (example_node 20 "nB" "Audio/Sink" "B"),
    Event.filter_node_added (example_node 10 "nA" "Audio/Sink" "A"),
    Event.filter_node_added (example_node 11 "sA" "Stream/Output/Audio" "A")]

/-- A priority far enough from the ends of `gint` for the difference of two
such priorities not to overflow: between -2^30 and 2^30. -/
def bounded_priority (p : Int) : Prop :=
  -1073741824 ≤ p ∧ p < 1073741824

/-- A configuration all of whose records give a bounded priority. -/
def metadata_bounded (m : WpMetadata) : Prop :=
  ∀ items, m.configured_filters = some (WpSpaJson.array items) →
    ∀ j ∈ items, ∀ p, wp_spa_json_object_get_int j "priority" = some p → bounded_priority p

/-- An event that brings no priority out of bounds. -/
def event_bounded : Event → Prop
  | Event.metadata_added m => metadata_bounded m
  | Event.metadata_changed m => metadata_bounded m
  | _ => True

/-- The registry is sorted, with bounded priorities in the filters and in the
configuration. -/
def sorted_inv (self : WpFiltersApi) : Prop :=
  (∀ m, self.metadata_om = some m → metadata_bounded m) ∧
  ∀ dir, registry_sorted (filters self dir) ∧
    ∀ f ∈ filters self dir, bounded_priority f.priority

/-- The state of the target and priority example: the configuration
`chain_metadata`, no filter yet. -/
def chain_config_state : WpFiltersApi :=
  { wp_filters_api_enabled with metadata_om := some chain_metadata }

/-- The filter A before any configuration is applied to it: both nodes
bound, no target, the default priority 100. -/
def fresh_A : Filter :=
  { chain_A with target := none, priority := 100 }

/-- The first record of `chain_metadata`. -/
def chain_record_A : WpSpaJson :=
  WpSpaJson.object
    [("stream-name", WpSpaJson.string "sA"), ("node-name", WpSpaJson.string "nA"),
      ("direction", WpSpaJson.string "input"), ("target", WpSpaJson.string "spk"),
      ("priority", WpSpaJson.int 0)]

/-- The second record of `chain_metadata`. -/
def chain_record_B : WpSpaJson :=
  WpSpaJson.object
    [("stream-name", WpSpaJson.string "sB"), ("node-name", WpSpaJson.string "nB"),
      ("direction", WpSpaJson.string "input"), ("target", WpSpaJson.string "spk"),
      ("priority", WpSpaJson.int 100)]

/-- A filter with only its device node bound. -/
def half_bound_A : Filter :=
  { fresh_A with stream := none }

/-- The configuration `chain_metadata` with the value of
"filters.configured.filters" replaced. -/
def config_state_with (filters_value : Option WpSpaJson) : WpFiltersApi :=
  { wp_filters_api_enabled with
    metadata_om := some { configured_targets := none, configured_filters := filters_value } }

/-- The node the last field of the name `name` whose predicate resolves gives,
`none` when no field of that name resolves. -/
def last_resolved (self : WpFiltersApi) (name : String) :
    List (String × WpSpaJson) → Option WpNode
  | [] => none
  | kv :: rest =>
    match last_resolved self name rest with
    | some n => some n
    | none => if kv.1 = name then find_target_node self kv.2 else none

/-- A device node that is no member of a filter: bound id, node name and media
class. -/
def device_node (id : Nat) (name media_class : String) : WpNode :=
  { bound_id := id, props := [(PW_KEY_NODE_NAME, name), (PW_KEY_MEDIA_CLASS, media_class)] }

/-- A value of "filters.configured.targets" with the single target "spk", to
be resolved to the node of the given name. -/
def spk_targets (node_name : String) : WpSpaJson :=
  WpSpaJson.object [("spk", WpSpaJson.object [("node.name", WpSpaJson.string node_name)])]

/-- The metadata with the targets `spk_targets node_name` and no filters. -/
def spk_metadata (node_name : String) : WpMetadata :=
  { configured_targets := some (spk_targets node_name), configured_filters := none }

/-- The state of the target example: the target "spk" is configured to be the
node named "speaker-b", the live nodes are `nodes`, and the table holds
`table` from the pass before. -/
def spk_state (nodes : List WpNode) (table : List (String × WpNode)) : WpFiltersApi :=
  { wp_filters_api_enabled with
    metadata_om := some (spk_metadata "speaker-b")
    nodes_om := nodes
    targets := table }

/-- Two nodes named "speaker-a" and "speaker-b" appear, then the metadata
that configures the target "spk" as the node named "speaker-a". -/
def target_change_events : List Event :=
  [Event.node_added (device_node 50 "speaker-a" "Audio/Sink"),
    Event.node_added (device_node 51 "speaker-b" "Audio/Sink"),
    Event.metadata_added (spk_metadata "speaker-a")]

/-- A configuration giving the filter X the smallest priority a `gint` holds. -/
def lowest_metadata : WpMetadata :=
  { configured_targets := none
    configured_filters := some (WpSpaJson.array
      [example_record "sX" "nX" "input" (-2147483648)]) }

/-- The metadata appears, then the device node and the stream node of the
filter X. -/
def lowest_events : List Event :=
  [Event.metadata_added lowest_metadata,
    Event.filter_node_added (example_node 30 "nX" "Audio/Sink" "X"),
    Event.filter_node_added (example_node 31 "sX" "Stream/Output/Audio" "X")]

/-- The registry has a filter for the direction and the link group. -/
def has_filter (self : WpFiltersApi) (dir : WpDirection) (g : String) : Prop :=
  g ∈ (filters self dir).map Filter.link_group

/-- The node is a member of the group `g` of the direction `dir`: its media
class is one of the four that `on_filter_node_added` recognises, with the
direction `dir`, and its link group is `g`. -/
def filter_member (proxy : WpNode) (dir : WpDirection) (g : String) : Bool :=
  match wp_pipewire_object_get_property proxy PW_KEY_MEDIA_CLASS with
  | some mc =>
    decide (media_class_direction mc = some dir) &&
      decide (wp_pipewire_object_get_property proxy PW_KEY_NODE_LINK_GROUP = some g)
  | none => false

/-- What an event tells about the node `n`: `some true` when it is the
appearance of `n` as a filter node, `some false` when it is its removal. -/
def node_event (n : WpNode) : Event → Option Bool
  | Event.filter_node_added p => if p = n then some true else none
  | Event.filter_node_removed p => if p = n then some false else none
  | _ => none

/-- The last appearance or removal of the node `n` in a sequence of events:
`some true` when `n` has appeared and has not been removed since. -/
def last_node_event (n : WpNode) : List Event → Option Bool
  | [] => none
  | e :: rest =>
    match last_node_event n rest with
    | some b => some b
    | none => node_event n e

/-- What an event tells about the group `g` of the direction `dir`:
`some true` when a member node appears, `some false` when one is removed. -/
def group_event (dir : WpDirection) (g : String) : Event → Option Bool
  | Event.filter_node_added p => if filter_member p dir g = true then some true else none
  | Event.filter_node_removed p => if filter_member p dir g = true then some false else none
  | _ => none

/-- The last appearance or removal of a member node of the group in a sequence
of events. -/
def last_group_event (dir : WpDirection) (g : String) : List Event → Option Bool
  | [] => none
  | e :: rest =>
    match last_group_event dir g rest with
    | some b => some b
    | none => group_event dir g e

/-- The device node and the stream node of the filter A appear, then the
stream node is removed. -/
def half_removed_events : List Event :=
  [Event.filter_node_added (example_node 10 "nA" "Audio/Sink" "A"),
    Event.filter_node_added (example_node 11 "sA" "Stream/Output/Audio" "A"),
    Event.filter_node_removed (example_node 11 "sA" "Stream/Output/Audio" "A")]

/-- Two states with the same metadata, live nodes, stream counters and table
of targets: they differ in the registry and the pending notifications only. -/
def same_env (a b : WpFiltersApi) : Prop :=
  a.metadata_om = b.metadata_om ∧ a.nodes_om = b.nodes_om ∧
  a.n_playback_stream_nodes = b.n_playback_stream_nodes ∧
  a.n_capture_stream_nodes = b.n_capture_stream_nodes ∧ a.targets = b.targets

/-- Every filter of the registry is left unchanged by
`update_values_from_metadata` in the state `env`. -/
def settled (env self : WpFiltersApi) : Prop :=
  ∀ dir, ∀ f ∈ filters self dir, update_values_from_metadata env f = some (false, f)

/-- The target names of the value "filters.configured.targets" are pairwise
distinct. -/
def distinct_target_names (self : WpFiltersApi) : Prop :=
  ∀ m fields, self.metadata_om = some m →
    m.configured_targets = some (WpSpaJson.object fields) → (fields.map Prod.fst).Nodup

/-- A value "filters.configured.targets" that names the target "spk" twice,
once for the node named "speaker-a" and once for the node named "speaker-b". -/
def repeated_name_metadata : WpMetadata :=
  { configured_targets := some (WpSpaJson.object
      [("spk", WpSpaJson.object [("node.name", WpSpaJson.string "speaker-a")]),
        ("spk", WpSpaJson.object [("node.name", WpSpaJson.string "speaker-b")])])
    configured_filters := none }

/-- Two nodes appear, then the metadata `repeated_name_metadata`. -/
def repeated_name_events : List Event :=
  [Event.node_added (device_node 50 "speaker-a" "Audio/Sink"),
    Event.node_added (device_node 51 "speaker-b" "Audio/Sink"),
    Event.metadata_added repeated_name_metadata]

/-- A metadata whose value "filters.configured.targets" is a JSON array, not
an object. -/
def wrong_shape_metadata : WpMetadata :=
  { configured_targets := some (WpSpaJson.array [WpSpaJson.string "spk"])
    configured_filters := none }

/-- A filter of the input direction with the given link group and priority
and no node. -/
def priority_filter (link_group : String) (priority : Int) : Filter :=
  { link_group := link_group, direction := WpDirection.INPUT, node := none, stream := none
    target := none, enabled := true, priority := priority }

/-- The sign of the comparison of the pairs (priority, link group) of two
filters, priority first: -1, 0 or 1. -/
def lex_sign (a b : Filter) : Int :=
  if a.priority < b.priority then -1
  else if b.priority < a.priority then 1
  else if a.link_group < b.link_group then -1
  else if b.link_group < a.link_group then 1
  else 0

/-- The state of the chain example with an empty table of targets: the target
"spk" of the filters A and B resolves to no node. -/
def unresolved_chain_state : WpFiltersApi :=
  { chain_state true with targets := [] }

/-- A configuration record for the nodes of the filter A whose direction is
the string "sideways", with a target, a mode and a priority. -/
def sideways_record : WpSpaJson :=
  WpSpaJson.object
    [("stream-name", WpSpaJson.string "sA"), ("node-name", WpSpaJson.string "nA"),
      ("direction", WpSpaJson.string "sideways"), ("target", WpSpaJson.string "hp"),
      ("mode", WpSpaJson.string "never"), ("priority", WpSpaJson.int 7)]

/-- The event is the appearance or the removal of a generic stream that has a
media class, the only events the stream counters depend on. -/
def stream_event : Event → Bool
  | Event.stream_node_added p => (wp_pipewire_object_get_property p PW_KEY_MEDIA_CLASS).isSome
  | Event.stream_node_removed p => (wp_pipewire_object_get_property p PW_KEY_MEDIA_CLASS).isSome
  | _ => false

/-- The number of streams of a media class after a sequence of events, counted
from `n` as the spec describes the stream counters: one more for each stream
of the class that appears, one less for each that is removed, never below 0. -/
def counted_streams (media_class : String) : Nat → List Event → Nat
  | n, [] => n
  | n, Event.stream_node_added p :: rest =>
    if wp_pipewire_object_get_property p PW_KEY_MEDIA_CLASS = some media_class then
      counted_streams media_class (n + 1) rest
    else counted_streams media_class n rest
  | n, Event.stream_node_removed p :: rest =>
    if wp_pipewire_object_get_property p PW_KEY_MEDIA_CLASS = some media_class then
      counted_streams media_class (if n = 0 then 0 else n - 1) rest
    else counted_streams media_class n rest
  | n, _ :: rest => counted_streams media_class n rest

/-- A generic stream: bound id and media class, no link group. -/
def stream_node (id : Nat) (media_class : String) : WpNode :=
  { bound_id := id, props := [(PW_KEY_MEDIA_CLASS, media_class)] }

/-- A capture stream is removed that never appeared, a playback stream
appears, two capture streams appear, one is removed, and three playback
streams are removed. -/
def counter_events : List Event :=
  [Event.stream_node_removed (stream_node 60 "Stream/Input/Audio"),
    Event.stream_node_added (stream_node 61 "Stream/Output/Audio"),
    Event.stream_node_added (stream_node 62 "Stream/Input/Audio"),
    Event.stream_node_added (stream_node 63 "Stream/Input/Audio"),
    Event.stream_node_removed (stream_node 62 "Stream/Input/Audio"),
    Event.stream_node_removed (stream_node 61 "Stream/Output/Audio"),
    Event.stream_node_removed (stream_node 64 "Stream/Output/Audio"),
    Event.stream_node_removed (stream_node 65 "Stream/Output/Audio")]

/-- One of target, enabled and priority of the filter `g` is not that of the
filter `f`. -/
def fields_changed (f g : Filter) : Prop :=
  g.target ≠ f.target ∨ g.enabled ≠ f.enabled ∨ g.priority ≠ f.priority

instance (f g : Filter) : Decidable (fields_changed f g) := by
  unfold fields_changed
  infer_instance

/-- The nodes of the filter have a node name when both are bound, so that
`update_values_from_metadata` hands no `NULL` to `g_str_equal`. -/
def filter_named (f : Filter) : Bool :=
  match f.stream, f.node with
  | some stream, some node =>
    (wp_pipewire_object_get_property stream PW_KEY_NODE_NAME).isSome &&
      (wp_pipewire_object_get_property node PW_KEY_NODE_NAME).isSome
  | _, _ => true

/-- The state of the mode transition example: the configuration of
`mode_state` with the mode "capture-only" for the filter A, no stream, and the
filter A in the registry, disabled. -/
def capture_only_state : WpFiltersApi :=
  { mode_state "capture-only" 0 0 with filters_input := [{ chain_A with enabled := false }] }

/-- A configuration giving the filter A the priority 2000000000, the filter B
the priority 0 and the filter C the priority -2000000000. -/
def cycle_metadata : WpMetadata :=
  { configured_targets := none
    configured_filters := some (WpSpaJson.array
      [example_record "sA" "nA" "input" 2000000000, example_record "sB" "nB" "input" 0,
        example_record "sC" "nC" "input" (-2000000000)]) }

/-- The device nodes and the stream nodes of the filters A, B and C, those of A
first. -/
def cycle_nodes : List WpNode :=
  [example_node 10 "nA" "Audio/Sink" "A", example_node 11 "sA" "Stream/Output/Audio" "A",
    example_node 20 "nB" "Audio/Sink" "B", example_node 21 "sB" "Stream/Output/Audio" "B",
    example_node 30 "nC" "Audio/Sink" "C", example_node 31 "sC" "Stream/Output/Audio" "C"]

/-- The nodes of `cycle_nodes` in another order, those of C first. -/
def cycle_nodes_reordered : List WpNode :=
  [example_node 30 "nC" "Audio/Sink" "C", example_node 31 "sC" "Stream/Output/Audio" "C",
    example_node 20 "nB" "Audio/Sink" "B", example_node 21 "sB" "Stream/Output/Audio" "B",
    example_node 10 "nA" "Audio/Sink" "A", example_node 11 "sA" "Stream/Output/Audio" "A"]

/-- The state with the configuration `cycle_metadata`, no stream and an empty
registry. -/
def cycle_state : WpFiltersApi :=
  { wp_filters_api_enabled with metadata_om := some cycle_metadata }

/-- What `on_filter_node_added` reads off a node: the direction of its media
class, its link group and whether it is a stream; `none` for a node the
function ignores. -/
def node_role (proxy : WpNode) : Option (WpDirection × String × Bool) :=
  match wp_pipewire_object_get_property proxy PW_KEY_MEDIA_CLASS with
  | none => none
  | some media_class =>
    match media_class_direction media_class with
    | none => none
    | some dir =>
      match wp_pipewire_object_get_property proxy PW_KEY_NODE_LINK_GROUP with
      | none => none
      | some key =>
        some (dir, key,
          decide (media_class = "Stream/Output/Audio" ∨ media_class = "Stream/Input/Audio"))

/-- The filter of a link group with the given device node and stream node, as
`filter_new` and the binding of the second node leave it, before any
configuration is applied. -/
def bound_filter (key : String) (dir : WpDirection) (node stream : Option WpNode) : Filter :=
  { link_group := key, direction := dir, node := node, stream := stream, target := none
    enabled := true, priority := to_gint (get_filter_priority key) }

/-- The filter `found` with the node `proxy` bound as its stream node or as its
device node, as `on_filter_node_added` does for a filter that exists. -/
def bind_node (found : Filter) (is_stream : Bool) (proxy : WpNode) : Filter :=
  if is_stream then { found with stream := some proxy } else { found with node := some proxy }

/-- The device node (`slot false`) and the stream node (`slot true`) of the link
group `key` of the direction `dir` among the nodes `done`: the node of `done`
with that role, `none` when there is none. -/
def slots_of (done : List WpNode) (dir : WpDirection) (key : String)
    (slot : Bool → Option WpNode) : Prop :=
  ∀ st p, slot st = some p ↔ (p ∈ done ∧ node_role p = some (dir, key, st))

/-- The registry of the state `s` is the one the nodes of `done` give in the
configuration of `env`: a filter is in the list of a direction exactly when it
is what `update_values_from_metadata` makes of the filter of a link group
bound to the device node and the stream node of that group among `done`. -/
def registry_of (env : WpFiltersApi) (done : List WpNode) (s : WpFiltersApi) : Prop :=
  ∀ dir f, f ∈ filters s dir ↔
    ∃ key slot b, (∃ st, slot st ≠ none) ∧ slots_of done dir key slot ∧
      update_values_from_metadata env (bound_filter key dir (slot false) (slot true))
        = some (b, f)

/-- Every node of `done` that has a role has a filter of its link group in the
list of its direction. -/
def roles_present (done : List WpNode) (s : WpFiltersApi) : Prop :=
  ∀ q ∈ done, ∀ dir key st, node_role q = some (dir, key, st) → has_filter s dir key

/-- The state `a` is the state `b` but for the two lists of the registry. -/
def same_but_registry (a b : WpFiltersApi) : Prop :=
  a = { b with filters_input := a.filters_input, filters_output := a.filters_output }

/-- The node has a node name. -/
def node_named (p : WpNode) : Bool :=
  (wp_pipewire_object_get_property p PW_KEY_NODE_NAME).isSome

/-! ## Lemmas on the helpers -/

theorem target_equal_iff (a b : Option String) : target_equal a b = true ↔ a = b := by
  cases a <;> cases b <;> simp [target_equal]

theorem find_custom_from_append (key : String) (pre : List Filter) (f : Filter)
    (post acc : List Filter) (hf : f.link_group = key)
    (hpre : ∀ g ∈ pre, g.link_group ≠ key) :
    g_list_find_custom_from key acc (pre ++ f :: post) = some (pre.reverse ++ acc, f, post) := by
  induction pre generalizing acc with
  | nil => simp [g_list_find_custom_from, filter_equal_func, hf]
  | cons g pre ih =>
    have hg : g.link_group ≠ key := hpre g (List.mem_cons_self _ _)
    have hrest : ∀ x ∈ pre, x.link_group ≠ key := fun x hx => hpre x (List.mem_cons_of_mem _ hx)
    simp [g_list_find_custom_from, filter_equal_func, hg, ih (g :: acc) hrest]

theorem find_custom_append (key : String) (pre : List Filter) (f : Filter)
    (post : List Filter) (hf : f.link_group = key)
    (hpre : ∀ g ∈ pre, g.link_group ≠ key) :
    g_list_find_custom (pre ++ f :: post) key = some (pre.reverse, f, post) := by
  have h := find_custom_from_append key pre f post [] hf hpre
  simpa [g_list_find_custom] using h

theorem find_custom_from_none (key : String) (l acc : List Filter)
    (h : ∀ g ∈ l, g.link_group ≠ key) : g_list_find_custom_from key acc l = none := by
  induction l generalizing acc with
  | nil => rfl
  | cons g l ih =>
    have hg : g.link_group ≠ key := h g (List.mem_cons_self _ _)
    have hrest : ∀ x ∈ l, x.link_group ≠ key := fun x hx => h x (List.mem_cons_of_mem _ hx)
    simp [g_list_find_custom_from, filter_equal_func, hg, ih (g :: acc) hrest]

theorem find_custom_none (key : String) (l : List Filter)
    (h : ∀ g ∈ l, g.link_group ≠ key) : g_list_find_custom l key = none :=
  find_custom_from_none key l [] h

/-- Every list either has no filter of the link group, or splits at the first one. -/
theorem split_at_key (key : String) (l : List Filter) :
    (∀ g ∈ l, g.link_group ≠ key) ∨
    ∃ pre f post, l = pre ++ f :: post ∧ f.link_group = key ∧ ∀ g ∈ pre, g.link_group ≠ key := by
  induction l with
  | nil => left; simp
  | cons g l ih =>
    by_cases hg : g.link_group = key
    · right; exact ⟨[], g, l, rfl, hg, by simp⟩
    · rcases ih with h | ⟨pre, f, post, hl, hf, hpre⟩
      · left
        intro x hx
        rcases List.mem_cons.1 hx with rfl | hx
        · exact hg
        · exact h x hx
      · right
        refine ⟨g :: pre, f, post, by simp [hl], hf, ?_⟩
        intro x hx
        rcases List.mem_cons.1 hx with rfl | hx
        · exact hg
        · exact hpre x hx

theorem find_custom_some (key : String) (l before after : List Filter) (f : Filter)
    (h : g_list_find_custom l key = some (before, f, after)) :
    l = before.reverse ++ f :: after ∧ f.link_group = key ∧
      ∀ g ∈ before, g.link_group ≠ key := by
  rcases split_at_key key l with hn | ⟨pre, f', post, hl, hf, hpre⟩
  · rw [find_custom_none key l hn] at h; cases h
  · rw [hl, find_custom_append key pre f' post hf hpre] at h
    injection h with h
    injection h with h1 h
    injection h with h2 h3
    subst h1 h2 h3
    refine ⟨by simpa using hl, hf, ?_⟩
    intro g hg
    exact hpre g (List.mem_reverse.1 hg)

theorem get_filter_target_split (null_id : Nat) (self : WpFiltersApi) (direction key : String)
    (pre : List Filter) (found : Filter) (post : List Filter)
    (hl : filters self (query_direction direction) = pre ++ found :: post)
    (hkey : found.link_group = key) (hfirst : ∀ g ∈ pre, g.link_group ≠ key) :
    wp_filters_api_get_filter_target null_id self direction key
      = resolve_at null_id self.targets pre.reverse found := by
  unfold wp_filters_api_get_filter_target resolve_at
  rw [hl, find_custom_append key pre found post hkey hfirst]

theorem target_of_missing_key (null_id : Nat) (self : WpFiltersApi)
    (direction key : String)
    (h : ∀ g ∈ filters self (query_direction direction), g.link_group ≠ key) :
    wp_filters_api_get_filter_target null_id self direction key = -1 := by
  unfold wp_filters_api_get_filter_target
  rw [find_custom_none key _ h]

theorem find_backward_nearest (found p : Filter) (pre1 pre2 : List Filter)
    (hp : p.enabled = true ∧ p.target = found.target)
    (hnear : ∀ g ∈ pre2, ¬ (g.enabled = true ∧ g.target = found.target)) :
    (pre1 ++ p :: pre2).reverse.find?
      (fun prev => target_equal prev.target found.target && prev.enabled) = some p := by
  have hnone : pre2.reverse.find?
      (fun prev => target_equal prev.target found.target && prev.enabled) = none := by
    rw [List.find?_eq_none]
    intro g hg
    have := hnear g (List.mem_reverse.1 hg)
    simp only [Bool.and_eq_true, target_equal_iff]
    tauto
  have hpt : (target_equal p.target found.target && p.enabled) = true := by
    simp [target_equal_iff, hp.1, hp.2]
  simp [List.find?_append, hnone, List.find?_cons, hpt]

theorem find_backward_none (found : Filter) (pre : List Filter)
    (hno : ∀ g ∈ pre, ¬ (g.enabled = true ∧ g.target = found.target)) :
    pre.reverse.find?
      (fun prev => target_equal prev.target found.target && prev.enabled) = none := by
  rw [List.find?_eq_none]
  intro g hg
  have := hno g (List.mem_reverse.1 hg)
  simp only [Bool.and_eq_true, target_equal_iff]
  tauto

/-- C1. Backward-scan rule of `wp_filters_api_get_filter_target`: when the
filter of the link group exists and is enabled, and an enabled filter with an
equal target stands before it in the list of the direction, the result is the
bound id of the device node of the nearest such filter. -/
theorem get_filter_target_backward_scan (null_id : Nat) (self : WpFiltersApi)
    (direction key : String) (pre1 pre2 post : List Filter) (p found : Filter)
    (hl : filters self (query_direction direction) = (pre1 ++ p :: pre2) ++ found :: post)
    (hkey : found.link_group = key)
    (hfirst : ∀ g ∈ pre1 ++ p :: pre2, g.link_group ≠ key)
    (hen : found.enabled = true)
    (hp : p.enabled = true ∧ p.target = found.target)
    (hnear : ∀ g ∈ pre2, ¬ (g.enabled = true ∧ g.target = found.target)) :
    wp_filters_api_get_filter_target null_id self direction key
      = to_gint (wp_proxy_get_bound_id null_id p.node) := by
  rw [get_filter_target_split null_id self direction key _ found post hl hkey hfirst]
  unfold resolve_at
  rw [find_backward_nearest found p pre1 pre2 hp hnear]
  simp [hen]

theorem get_filter_target_backward_scan_witness :
    wp_filters_api_get_filter_target 0 (chain_state true) "input" "B" = 10 ∧
    wp_filters_api_get_filter_target 0 (chain_state true) "input" "A" = 50 :=
  ⟨get_filter_target_backward_scan 0 (chain_state true) "input" "B" [] [] [] chain_A chain_B
      (by decide) (by decide) (by decide) (by decide) (by decide) (by decide),
    by decide⟩

/-- C2. Fallback rule of `wp_filters_api_get_filter_target`: for an enabled
filter with no enabled filter of equal target before it, the result is the
bound id of the node the target table holds for the target of the filter, and
-1 when the target is not set or the table has no such name. -/
theorem get_filter_target_fallback (null_id : Nat) (self : WpFiltersApi)
    (direction key : String) (pre post : List Filter) (found : Filter)
    (hl : filters self (query_direction direction) = pre ++ found :: post)
    (hkey : found.link_group = key)
    (hfirst : ∀ g ∈ pre, g.link_group ≠ key)
    (hen : found.enabled = true)
    (hno : ∀ g ∈ pre, ¬ (g.enabled = true ∧ g.target = found.target)) :
    (∀ t node, found.target = some t → g_hash_table_lookup self.targets t = some node →
      wp_filters_api_get_filter_target null_id self direction key = to_gint node.bound_id) ∧
    (∀ t, found.target = some t → g_hash_table_lookup self.targets t = none →
      wp_filters_api_get_filter_target null_id self direction key = -1) ∧
    (found.target = none →
      wp_filters_api_get_filter_target null_id self direction key = -1) := by
  rw [get_filter_target_split null_id self direction key pre found post hl hkey hfirst]
  unfold resolve_at
  rw [find_backward_none found pre hno]
  refine ⟨?_, ?_, ?_⟩
  · intro t node ht hn
    simp [hen, ht, hn]
  · intro t ht hn
    simp [hen, ht, hn]
  · intro ht
    simp [hen, ht]

theorem get_filter_target_fallback_witness :
    wp_filters_api_get_filter_target 0 (chain_state false) "input" "B" = 50 :=
  (get_filter_target_fallback 0 (chain_state false) "input" "B"
      [{ chain_A with enabled := false }] [] chain_B
      (by decide) (by decide) (by decide) (by decide) (by decide)).1
    "spk" (example_node 50 "speaker" "Audio/Sink" "") (by decide) (by decide)

/-- C3. `wp_filters_api_get_filter_target` returns -1 when the list of the
direction has no filter of the link group, and when the filter of the link
group is not enabled, whatever its target, the other filters and the target
table are. -/
theorem get_filter_target_missing_or_disabled (null_id : Nat) (self : WpFiltersApi)
    (direction key : String)
    (h : (∀ g ∈ filters self (query_direction direction), g.link_group ≠ key) ∨
      ∃ pre found post, filters self (query_direction direction) = pre ++ found :: post ∧
        found.link_group = key ∧ (∀ g ∈ pre, g.link_group ≠ key) ∧ found.enabled = false) :
    wp_filters_api_get_filter_target null_id self direction key = -1 := by
  rcases h with h | ⟨pre, found, post, hl, hkey, hfirst, hen⟩
  · exact target_of_missing_key null_id self direction key h
  · rw [get_filter_target_split null_id self direction key pre found post hl hkey hfirst]
    simp [resolve_at, hen]

theorem get_filter_target_missing_or_disabled_witness :
    wp_filters_api_get_filter_target 0 (chain_state false) "input" "A" = -1 ∧
    wp_filters_api_get_filter_target 0 (chain_state false) "input" "C" = -1 :=
  ⟨get_filter_target_missing_or_disabled 0 (chain_state false) "input" "A"
      (Or.inr ⟨[], { chain_A with enabled := false }, [chain_B],
        by decide, by decide, by decide, by decide⟩),
    get_filter_target_missing_or_disabled 0 (chain_state false) "input" "C"
      (Or.inl (by decide))⟩

/-- C4. `wp_filters_api_is_filter_enabled` is true exactly when the list of the
direction has a filter of the link group and the flag `enabled` of that filter
(the first of the link group) is true; it is false for a link group no filter
has. -/
theorem is_filter_enabled_iff (self : WpFiltersApi) (direction key : String) :
    (wp_filters_api_is_filter_enabled self direction key = true ↔
      ∃ pre found post, filters self (query_direction direction) = pre ++ found :: post ∧
        found.link_group = key ∧ (∀ g ∈ pre, g.link_group ≠ key) ∧ found.enabled = true) ∧
    ((∀ g ∈ filters self (query_direction direction), g.link_group ≠ key) →
      wp_filters_api_is_filter_enabled self direction key = false) := by
  constructor
  · constructor
    · intro h
      unfold wp_filters_api_is_filter_enabled at h
      cases hfind : g_list_find_custom (filters self (query_direction direction)) key with
      | none => rw [hfind] at h; cases h
      | some r =>
        obtain ⟨before, found, after⟩ := r
        rw [hfind] at h
        obtain ⟨hl, hkey, hfirst⟩ := find_custom_some key _ before after found hfind
        refine ⟨before.reverse, found, after, hl, hkey, ?_, h⟩
        intro g hg
        exact hfirst g (List.mem_reverse.1 hg)
    · rintro ⟨pre, found, post, hl, hkey, hfirst, hen⟩
      unfold wp_filters_api_is_filter_enabled
      rw [hl, find_custom_append key pre found post hkey hfirst]
      exact hen
  · intro h
    unfold wp_filters_api_is_filter_enabled
    rw [find_custom_none key _ h]

theorem is_filter_enabled_iff_witness :
    wp_filters_api_is_filter_enabled (chain_state false) "input" "B" = true ∧
    wp_filters_api_is_filter_enabled (chain_state false) "input" "C" = false :=
  ⟨((is_filter_enabled_iff (chain_state false) "input" "B").1).2
      ⟨[{ chain_A with enabled := false }], chain_B, [], by decide, by decide, by decide,
        by decide⟩,
    (is_filter_enabled_iff (chain_state false) "input" "C").2 (by decide)⟩

theorem last_of_target_none (null_id : Nat) (target : Option String) (list : List Filter)
    (res : Int) (h : ∀ g ∈ list, ¬ (g.enabled = true ∧ g.target = target)) :
    last_of_target null_id target list res = res := by
  induction list generalizing res with
  | nil => rfl
  | cons g list ih =>
    have hg : (target_equal g.target target && g.enabled) = false := by
      have := h g (List.mem_cons_self _ _)
      rw [Bool.eq_false_iff]
      simp only [ne_eq, Bool.and_eq_true, target_equal_iff]
      tauto
    have hrest : ∀ x ∈ list, ¬ (x.enabled = true ∧ x.target = target) :=
      fun x hx => h x (List.mem_cons_of_mem _ hx)
    have := ih res hrest
    simp only [last_of_target] at this ⊢
    rw [List.foldl_cons]
    simp only [hg, Bool.false_eq_true, if_false]
    exact this

theorem last_of_target_split (null_id : Nat) (target : Option String)
    (pre post : List Filter) (g : Filter) (res : Int)
    (hg : g.enabled = true ∧ g.target = target)
    (hlast : ∀ x ∈ post, ¬ (x.enabled = true ∧ x.target = target)) :
    last_of_target null_id target (pre ++ g :: post) res
      = to_gint (wp_proxy_get_bound_id null_id g.node) := by
  have hgt : (target_equal g.target target && g.enabled) = true := by
    simp [target_equal_iff, hg.1, hg.2]
  have h := last_of_target_none null_id target post
    (to_gint (wp_proxy_get_bound_id null_id g.node)) hlast
  simp only [last_of_target] at h ⊢
  rw [List.foldl_append, List.foldl_cons]
  simp only [hgt, if_true]
  exact h

/-- Every list with an element satisfying `p` splits at the last such element. -/
theorem split_at_last {α : Type} (p : α → Prop) (l : List α) (h : ∃ x ∈ l, p x) :
    ∃ pre g post, l = pre ++ g :: post ∧ p g ∧ ∀ x ∈ post, ¬ p x := by
  induction l with
  | nil => obtain ⟨x, hx, _⟩ := h; cases hx
  | cons a l ih =>
    by_cases hl : ∃ x ∈ l, p x
    · obtain ⟨pre, g, post, hs, hg, hpost⟩ := ih hl
      exact ⟨a :: pre, g, post, by simp [hs], hg, hpost⟩
    · obtain ⟨x, hx, hpx⟩ := h
      rcases List.mem_cons.1 hx with rfl | hx
      · refine ⟨[], x, l, rfl, hpx, ?_⟩
        intro y hy hpy
        exact hl ⟨y, hy, hpy⟩
      · exact absurd ⟨x, hx, hpx⟩ hl

theorem get_filter_from_target_found (null_id : Nat) (self : WpFiltersApi)
    (direction : String) (target_id : Int) (f : Filter)
    (h : (filters self (query_direction direction)).find? (fun f =>
      decide (wp_filters_api_get_filter_target null_id self direction f.link_group = target_id)
        && f.enabled) = some f) :
    wp_filters_api_get_filter_from_target null_id self direction target_id
      = last_of_target null_id f.target (filters self (query_direction direction)) target_id := by
  unfold wp_filters_api_get_filter_from_target last_of_target
  simp only [h]

theorem find_first_split {α : Type} (q : α → Bool) (pre post : List α) (f : α)
    (hf : q f = true) (hpre : ∀ g ∈ pre, ¬ q g = true) :
    (pre ++ f :: post).find? q = some f := by
  have hnone : pre.find? q = none := by
    rw [List.find?_eq_none]
    exact hpre
  simp [List.find?_append, hnone, List.find?_cons, hf]

/-- C5. `wp_filters_api_get_filter_from_target` returns `target_id` itself when
no enabled filter of the direction has `target_id` as its
`wp_filters_api_get_filter_target` result. -/
theorem get_filter_from_target_no_match (null_id : Nat) (self : WpFiltersApi)
    (direction : String) (target_id : Int)
    (h : ∀ f ∈ filters self (query_direction direction), f.enabled = true →
      wp_filters_api_get_filter_target null_id self direction f.link_group ≠ target_id) :
    wp_filters_api_get_filter_from_target null_id self direction target_id = target_id := by
  have hnone : (filters self (query_direction direction)).find? (fun f =>
      decide (wp_filters_api_get_filter_target null_id self direction f.link_group = target_id)
        && f.enabled) = none := by
    rw [List.find?_eq_none]
    intro f hf
    have := h f hf
    simp only [Bool.and_eq_true, decide_eq_true_eq]
    tauto
  unfold wp_filters_api_get_filter_from_target
  simp only [hnone]

theorem get_filter_from_target_no_match_witness :
    wp_filters_api_get_filter_from_target 0 wp_filters_api_enabled "input" 50 = 50 ∧
    wp_filters_api_get_filter_from_target 0
      { chain_state false with filters_input := [{ chain_A with enabled := false }] }
      "input" 50 = 50 :=
  ⟨get_filter_from_target_no_match 0 wp_filters_api_enabled "input" 50 (by decide),
    get_filter_from_target_no_match 0
      { chain_state false with filters_input := [{ chain_A with enabled := false }] }
      "input" 50 (by decide)⟩

/-- C6. Match case of `wp_filters_api_get_filter_from_target`: when `f` is the
first filter of the list that is enabled and whose
`wp_filters_api_get_filter_target` result is `target_id`, the list has a last
enabled filter whose target equals the target of `f`, and the result is the
bound id of the device node of that filter. -/
theorem get_filter_from_target_match (null_id : Nat) (self : WpFiltersApi)
    (direction : String) (target_id : Int) (pre post : List Filter) (f : Filter)
    (hl : filters self (query_direction direction) = pre ++ f :: post)
    (hf : f.enabled = true ∧
      wp_filters_api_get_filter_target null_id self direction f.link_group = target_id)
    (hfirst : ∀ g ∈ pre, ¬ (g.enabled = true ∧
      wp_filters_api_get_filter_target null_id self direction g.link_group = target_id)) :
    ∃ pre2 g post2, filters self (query_direction direction) = pre2 ++ g :: post2 ∧
      (g.enabled = true ∧ g.target = f.target) ∧
      (∀ x ∈ post2, ¬ (x.enabled = true ∧ x.target = f.target)) ∧
      wp_filters_api_get_filter_from_target null_id self direction target_id
        = to_gint (wp_proxy_get_bound_id null_id g.node) := by
  have hfind : (filters self (query_direction direction)).find? (fun f =>
      decide (wp_filters_api_get_filter_target null_id self direction f.link_group = target_id)
        && f.enabled) = some f := by
    rw [hl]
    apply find_first_split
    · simp [hf.1, hf.2]
    · intro g hg
      have := hfirst g hg
      simp only [Bool.and_eq_true, decide_eq_true_eq]
      tauto
  have hex : ∃ x ∈ filters self (query_direction direction),
      (x.enabled = true ∧ x.target = f.target) :=
    ⟨f, by rw [hl]; simp, hf.1, rfl⟩
  obtain ⟨pre2, g, post2, hs, hg, hlast⟩ :=
    split_at_last (fun x : Filter => x.enabled = true ∧ x.target = f.target) _ hex
  refine ⟨pre2, g, post2, hs, hg, hlast, ?_⟩
  rw [get_filter_from_target_found null_id self direction target_id f hfind, hs]
  exact last_of_target_split null_id f.target pre2 post2 g target_id hg hlast

theorem get_filter_from_target_match_witness :
    ∃ pre2 g post2, filters (chain_state true) (query_direction "input") = pre2 ++ g :: post2 ∧
      (g.enabled = true ∧ g.target = chain_A.target) ∧
      (∀ x ∈ post2, ¬ (x.enabled = true ∧ x.target = chain_A.target)) ∧
      wp_filters_api_get_filter_from_target 0 (chain_state true) "input" 50
        = to_gint (wp_proxy_get_bound_id 0 g.node) :=
  get_filter_from_target_match 0 (chain_state true) "input" 50 [] [chain_B] chain_A
    (by decide) (by decide) (by decide)

theorem resolve_at_cases (null_id : Nat) (table : List (String × WpNode)) (pre : List Filter)
    (x : Filter) (t : Int) (h : resolve_at null_id table pre.reverse x = t) (ht : t ≠ -1) :
    x.enabled = true ∧
    ((∃ p ∈ pre, p.enabled = true ∧ p.target = x.target ∧ t = device_node_id null_id p) ∨
     (∃ name node, x.target = some name ∧ g_hash_table_lookup table name = some node ∧
        t = to_gint node.bound_id)) := by
  unfold resolve_at at h
  by_cases hen : x.enabled = false
  · rw [if_pos hen] at h
    exact absurd h.symm ht
  · have hen2 : x.enabled = true := by simpa using hen
    refine ⟨hen2, ?_⟩
    rw [if_neg hen] at h
    cases hfind : pre.reverse.find?
        (fun prev => target_equal prev.target x.target && prev.enabled) with
    | some p =>
      rw [hfind] at h
      left
      have hp := List.find?_some hfind
      have hmem := List.mem_of_find?_eq_some hfind
      simp only [Bool.and_eq_true, target_equal_iff] at hp
      have hid : t = device_node_id null_id p := by
        unfold device_node_id
        rw [← h]
      exact ⟨p, List.mem_reverse.1 hmem, hp.2, hp.1, hid⟩
    | none =>
      rw [hfind] at h
      right
      cases htg : x.target with
      | none =>
        rw [htg] at h
        simp only at h
        exact absurd h.symm ht
      | some name =>
        rw [htg] at h
        cases hlook : g_hash_table_lookup table name with
        | none =>
          simp only [hlook] at h
          exact absurd h.symm ht
        | some node =>
          simp only [hlook] at h
          exact ⟨name, node, rfl, hlook, h.symm⟩

/-- The filter the first loop of `wp_filters_api_get_filter_from_target` stops
at is the first filter of its link group, when `target_id` is not -1. -/
theorem first_match_first_of_key (null_id : Nat) (self : WpFiltersApi)
    (direction : String) (t : Int) (ht : t ≠ -1) (f : Filter)
    (h : (filters self (query_direction direction)).find? (fun f =>
      decide (wp_filters_api_get_filter_target null_id self direction f.link_group = t)
        && f.enabled) = some f) :
    ∃ pre post, filters self (query_direction direction) = pre ++ f :: post ∧
      ∀ g ∈ pre, g.link_group ≠ f.link_group := by
  obtain ⟨hpf, pre, post, hl, hpre⟩ := List.find?_eq_some.1 h
  simp only [Bool.and_eq_true, decide_eq_true_eq] at hpf
  refine ⟨pre, post, hl, ?_⟩
  rcases split_at_key f.link_group pre with hn | ⟨a1, x, a2, hs, hx, ha1⟩
  · exact hn
  · exfalso
    have hl2 : filters self (query_direction direction) = a1 ++ x :: (a2 ++ f :: post) := by
      rw [hl, hs]; simp
    have hres := get_filter_target_split null_id self direction f.link_group a1 x
      (a2 ++ f :: post) hl2 hx ha1
    rw [hpf.1] at hres
    have hxen := (resolve_at_cases null_id self.targets a1 x t hres.symm ht).1
    have hxpre : x ∈ pre := by rw [hs]; simp
    have hnot := hpre x hxpre
    rw [hx] at hnot
    simp [hpf.1, hxen] at hnot

/-- C7. Inverse resolution: for an enabled filter `k` whose
`wp_filters_api_get_filter_target` result `t` is not -1,
`wp_filters_api_get_filter_from_target` of `t` is the bound id of the device
node of an enabled filter `g` of the direction such that an enabled filter with
the target of `g` has the result `t`; and when the names of the target table
map to distinct ids, the device nodes of the filters have pairwise distinct
ids and none of them is the id of a node of the table, `g` is the last enabled
filter whose target equals the target of `k`. -/
theorem inverse_resolution (null_id : Nat) (self : WpFiltersApi) (direction key : String)
    (t : Int) (pre post : List Filter) (k : Filter)
    (hl : filters self (query_direction direction) = pre ++ k :: post)
    (hkey : k.link_group = key) (hfirst : ∀ g ∈ pre, g.link_group ≠ key)
    (hen : k.enabled = true)
    (hres : wp_filters_api_get_filter_target null_id self direction key = t)
    (ht : t ≠ -1) :
    (∃ g ∈ filters self (query_direction direction), g.enabled = true ∧
      wp_filters_api_get_filter_from_target null_id self direction t
        = device_node_id null_id g ∧
      ∃ f ∈ filters self (query_direction direction), f.enabled = true ∧
        f.target = g.target ∧
        wp_filters_api_get_filter_target null_id self direction f.link_group = t) ∧
    ((∀ a b na nb, g_hash_table_lookup self.targets a = some na →
        g_hash_table_lookup self.targets b = some nb →
        to_gint na.bound_id = to_gint nb.bound_id → a = b) →
      ((filters self (query_direction direction)).map (device_node_id null_id)).Nodup →
      (∀ f ∈ filters self (query_direction direction), ∀ a na,
        g_hash_table_lookup self.targets a = some na →
        device_node_id null_id f ≠ to_gint na.bound_id) →
      ∃ pre2 g post2, filters self (query_direction direction) = pre2 ++ g :: post2 ∧
        (g.enabled = true ∧ g.target = k.target) ∧
        (∀ x ∈ post2, ¬ (x.enabled = true ∧ x.target = k.target)) ∧
        wp_filters_api_get_filter_from_target null_id self direction t
          = device_node_id null_id g) := by
  have hkmem : k ∈ filters self (query_direction direction) := by rw [hl]; simp
  have hsome : ((filters self (query_direction direction)).find? (fun f =>
      decide (wp_filters_api_get_filter_target null_id self direction f.link_group = t)
        && f.enabled)).isSome = true := by
    rw [List.find?_isSome]
    exact ⟨k, hkmem, by simp [hkey, hres, hen]⟩
  obtain ⟨f, hfind⟩ := Option.isSome_iff_exists.1 hsome
  have hpf := List.find?_some hfind
  have hfmem := List.mem_of_find?_eq_some hfind
  simp only [Bool.and_eq_true, decide_eq_true_eq] at hpf
  have hex : ∃ x ∈ filters self (query_direction direction),
      (x.enabled = true ∧ x.target = f.target) := ⟨f, hfmem, hpf.2, rfl⟩
  obtain ⟨pre2, g, post2, hs, hg, hlast⟩ :=
    split_at_last (fun x : Filter => x.enabled = true ∧ x.target = f.target) _ hex
  have hval : wp_filters_api_get_filter_from_target null_id self direction t
      = device_node_id null_id g := by
    rw [get_filter_from_target_found null_id self direction t f hfind, hs]
    exact last_of_target_split null_id f.target pre2 post2 g t hg hlast
  constructor
  · refine ⟨g, by rw [hs]; simp, hg.1, hval, f, hfmem, hpf.2, hg.2.symm, hpf.1⟩
  · intro hnames hdev hcache
    have hinj := List.inj_on_of_nodup_map hdev
    obtain ⟨fpre, fpost, hfl, hffirst⟩ :=
      first_match_first_of_key null_id self direction t ht f hfind
    have hfres := get_filter_target_split null_id self direction f.link_group fpre f fpost
      hfl rfl hffirst
    rw [hpf.1] at hfres
    have hkres := get_filter_target_split null_id self direction key pre k post hl hkey hfirst
    rw [hres] at hkres
    obtain ⟨_, hfc⟩ := resolve_at_cases null_id self.targets fpre f t hfres.symm ht
    obtain ⟨_, hkc⟩ := resolve_at_cases null_id self.targets pre k t hkres.symm ht
    have hmemf : ∀ x ∈ fpre, x ∈ filters self (query_direction direction) := by
      intro x hx; rw [hfl]; simp [hx]
    have hmemk : ∀ x ∈ pre, x ∈ filters self (query_direction direction) := by
      intro x hx; rw [hl]; simp [hx]
    have htarget : f.target = k.target := by
      rcases hfc with ⟨p, hp, _, hpt, hpid⟩ | ⟨a, na, hfa, hla, hfid⟩
      · rcases hkc with ⟨q, hq, _, hqt, hqid⟩ | ⟨b, nb, _, hlb, hkid⟩
        · have hpq : p = q := hinj (hmemf p hp) (hmemk q hq) (by rw [← hpid, ← hqid])
          rw [← hpt, ← hqt, hpq]
        · exact absurd (by rw [← hpid, ← hkid]) (hcache p (hmemf p hp) b nb hlb)
      · rcases hkc with ⟨q, hq, _, _, hqid⟩ | ⟨b, nb, hkb, hlb, hkid⟩
        · exact absurd (by rw [← hqid, ← hfid]) (hcache q (hmemk q hq) a na hla)
        · have hab : a = b := hnames a b na nb hla hlb (by rw [← hfid, ← hkid])
          rw [hfa, hkb, hab]
    rw [htarget] at hg hlast
    exact ⟨pre2, g, post2, hs, hg, hlast, hval⟩

theorem chain_state_lookup (b : Bool) (a : String) (na : WpNode)
    (h : g_hash_table_lookup (chain_state b).targets a = some na) :
    a = "spk" ∧ na = example_node 50 "speaker" "Audio/Sink" "" := by
  unfold g_hash_table_lookup chain_state at h
  simp only [List.find?_cons, List.find?_nil] at h
  by_cases ha : "spk" = a
  · simp only [ha, decide_True] at h
    injection h with h
    exact ⟨ha.symm, h.symm⟩
  · simp only [ha, decide_False] at h
    cases h

theorem inverse_resolution_witness :
    (∃ g ∈ filters (chain_state true) (query_direction "input"), g.enabled = true ∧
      wp_filters_api_get_filter_from_target 0 (chain_state true) "input" 10
        = device_node_id 0 g ∧
      ∃ f ∈ filters (chain_state true) (query_direction "input"), f.enabled = true ∧
        f.target = g.target ∧
        wp_filters_api_get_filter_target 0 (chain_state true) "input" f.link_group = 10) ∧
    (∃ pre2 g post2,
      filters (chain_state true) (query_direction "input") = pre2 ++ g :: post2 ∧
        (g.enabled = true ∧ g.target = chain_B.target) ∧
        (∀ x ∈ post2, ¬ (x.enabled = true ∧ x.target = chain_B.target)) ∧
        wp_filters_api_get_filter_from_target 0 (chain_state true) "input" 10
          = device_node_id 0 g) :=
  ⟨(inverse_resolution 0 (chain_state true) "input" "B" 10 [chain_A] [] chain_B
      (by decide) (by decide) (by decide) (by decide) (by decide) (by decide)).1,
    (inverse_resolution 0 (chain_state true) "input" "B" 10 [chain_A] [] chain_B
      (by decide) (by decide) (by decide) (by decide) (by decide) (by decide)).2
      (fun a b na nb ha hb _ =>
        (chain_state_lookup true a na ha).1.trans (chain_state_lookup true b nb hb).1.symm)
      (by decide)
      (fun f hf a na ha => by
        rw [(chain_state_lookup true a na ha).2]
        revert f
        decide)⟩

theorem reachable_run (self : WpFiltersApi) (events : List Event) (next : WpFiltersApi)
    (hs : Reachable self) (h : run self events = some next) : Reachable next := by
  induction events generalizing self with
  | nil =>
    simp only [run] at h
    injection h with h
    rw [← h]; exact hs
  | cons e rest ih =>
    simp only [run] at h
    cases hh : handle self e with
    | none => rw [hh] at h; cases h
    | some mid =>
      rw [hh] at h
      exact ih mid (Reachable.handle self mid e hs hh) h

/-- C8. The ordering invariant fails on the code: after the events
`overflow_events` the list of the input direction holds A (priority
2000000000) before B (priority -2000000000), because `filter_compare_func`
subtracts the priorities in `gint` and the difference wraps around. -/
theorem ordering_invariant_overflow :
    ∃ s, run wp_filters_api_enabled overflow_events = some s ∧ Reachable s ∧
      (filters s WpDirection.INPUT).map (fun f => (f.link_group, f.priority))
        = [("A", 2000000000), ("B", -2000000000)] ∧
      ¬ registry_sorted (filters s WpDirection.INPUT) := by
  have hrun : (run wp_filters_api_enabled overflow_events).isSome = true := by decide
  obtain ⟨s, hs⟩ := Option.isSome_iff_exists.1 hrun
  have h1 : (run wp_filters_api_enabled overflow_events).map
      (fun s => (filters s WpDirection.INPUT).map (fun f => (f.link_group, f.priority)))
      = some [("A", 2000000000), ("B", -2000000000)] := by decide
  have h2 : (run wp_filters_api_enabled overflow_events).map
      (fun s => decide (registry_sorted (filters s WpDirection.INPUT))) = some false := by
    decide
  rw [hs] at h1 h2
  simp only [Option.map_some', Option.some.injEq] at h1 h2
  refine ⟨s, hs, reachable_run _ _ s Reachable.enabled hs, h1, ?_⟩
  simpa using h2

/-! ## Sorting keeps the elements -/

theorem sort_merge_perm {α : Type} (cmp : α → α → Int) (fuel : Nat) (l1 l2 : List α) :
    (g_list_sort_merge cmp fuel l1 l2).Perm (l1 ++ l2) := by
  induction fuel generalizing l1 l2 with
  | zero => simp [g_list_sort_merge]
  | succ n ih =>
    cases l1 with
    | nil => simp [g_list_sort_merge]
    | cons a l1 =>
      cases l2 with
      | nil => simp [g_list_sort_merge]
      | cons b l2 =>
        simp only [g_list_sort_merge]
        split
        · exact (ih l1 (b :: l2)).cons a
        · have h := (ih (a :: l1) l2).cons b
          exact h.trans (List.perm_middle.symm)

theorem sort_real_perm {α : Type} (cmp : α → α → Int) (fuel : Nat) (l : List α) :
    (g_list_sort_real cmp fuel l).Perm l := by
  induction fuel generalizing l with
  | zero => simp [g_list_sort_real]
  | succ n ih =>
    match l with
    | [] => simp [g_list_sort_real]
    | [a] => simp [g_list_sort_real]
    | a :: b :: rest =>
      simp only [g_list_sort_real]
      refine (sort_merge_perm cmp _ _ _).trans ?_
      have h1 := ih ((a :: b :: rest).take ((a :: b :: rest).length / 2))
      have h2 := ih ((a :: b :: rest).drop ((a :: b :: rest).length / 2))
      have h3 := h1.append h2
      rw [List.take_append_drop] at h3
      exact h3

theorem sort_perm {α : Type} (cmp : α → α → Int) (l : List α) :
    (g_list_sort cmp l).Perm l :=
  sort_real_perm cmp l.length l

theorem insert_sorted_perm {α : Type} (cmp : α → α → Int) (l : List α) (x : α) :
    (g_list_insert_sorted cmp l x).Perm (x :: l) := by
  induction l with
  | nil => simp [g_list_insert_sorted]
  | cons a l ih =>
    simp only [g_list_insert_sorted]
    split
    · exact (ih.cons a).trans (List.Perm.swap x a l)
    · exact List.Perm.refl _

/-! ## Configuration application keeps the identity of a filter -/

theorem update_target_ident (f : Filter) (j : WpSpaJson) :
    (update_target f j).2.link_group = f.link_group ∧
    (update_target f j).2.direction = f.direction ∧
    (update_target f j).2.node = f.node ∧ (update_target f j).2.stream = f.stream ∧
    (update_target f j).2.enabled = f.enabled ∧
    (update_target f j).2.priority = f.priority := by
  unfold update_target
  split <;> split <;> simp

theorem update_mode_ident (self : WpFiltersApi) (f : Filter) (j : WpSpaJson) :
    (update_mode self f j).2.link_group = f.link_group ∧
    (update_mode self f j).2.direction = f.direction ∧
    (update_mode self f j).2.node = f.node ∧ (update_mode self f j).2.stream = f.stream ∧
    (update_mode self f j).2.target = f.target ∧
    (update_mode self f j).2.priority = f.priority := by
  unfold update_mode
  split
  · split_ifs <;> simp
  · simp

theorem update_priority_ident (f : Filter) (j : WpSpaJson) :
    (update_priority f j).2.link_group = f.link_group ∧
    (update_priority f j).2.direction = f.direction ∧
    (update_priority f j).2.node = f.node ∧ (update_priority f j).2.stream = f.stream ∧
    (update_priority f j).2.target = f.target ∧
    (update_priority f j).2.enabled = f.enabled := by
  unfold update_priority
  split
  · split_ifs <;> simp
  · simp

theorem apply_record_ident (self : WpFiltersApi) (f : Filter) (j : WpSpaJson) :
    (apply_record self f j).2.link_group = f.link_group ∧
    (apply_record self f j).2.direction = f.direction ∧
    (apply_record self f j).2.node = f.node ∧ (apply_record self f j).2.stream = f.stream := by
  have h1 := update_target_ident f j
  have h2 := update_mode_ident self (update_target f j).2 j
  have h3 := update_priority_ident (update_mode self (update_target f j).2 j).2 j
  simp only [apply_record]
  refine ⟨?_, ?_, ?_, ?_⟩
  · rw [h3.1, h2.1, h1.1]
  · rw [h3.2.1, h2.2.1, h1.2.1]
  · rw [h3.2.2.1, h2.2.2.1, h1.2.2.1]
  · rw [h3.2.2.2.1, h2.2.2.2.1, h1.2.2.2.1]

theorem update_values_loop_ident (self : WpFiltersApi) (f : Filter)
    (fsn fnn : Option String) (items : List WpSpaJson) (r : Bool × Filter)
    (h : update_values_loop self f fsn fnn items = some r) :
    r.2.link_group = f.link_group ∧ r.2.direction = f.direction ∧
    r.2.node = f.node ∧ r.2.stream = f.stream := by
  induction items with
  | nil =>
    simp only [update_values_loop] at h
    injection h with h
    rw [← h]
    simp
  | cons j rest ih =>
    simp only [update_values_loop] at h
    split at h
    · exact ih h
    · split at h
      · split at h
        · cases h
        · split at h
          · split at h
            · cases h
            · split at h
              · injection h with h
                rw [← h]
                exact apply_record_ident self f j
              · exact ih h
          · exact ih h
      · exact ih h

theorem update_values_ident (self : WpFiltersApi) (f : Filter) (r : Bool × Filter)
    (h : update_values_from_metadata self f = some r) :
    r.2.link_group = f.link_group ∧ r.2.direction = f.direction ∧
    r.2.node = f.node ∧ r.2.stream = f.stream := by
  unfold update_values_from_metadata at h
  split at h
  · injection h with h; rw [← h]; simp
  · split at h
    · split at h
      · injection h with h; rw [← h]; simp
      · exact update_values_loop_ident self f _ _ _ r h
      · injection h with h; rw [← h]; simp
    · injection h with h; rw [← h]; simp

theorem reevaluate_filters_loop_map (self : WpFiltersApi) (l : List Filter)
    (r : Bool × List Filter) (h : reevaluate_filters_loop self l = some r) :
    r.2.map (fun f => (f.link_group, f.direction)) = l.map (fun f => (f.link_group, f.direction)) := by
  induction l generalizing r with
  | nil =>
    simp only [reevaluate_filters_loop, Option.some.injEq] at h
    subst h
    rfl
  | cons f rest ih =>
    simp only [reevaluate_filters_loop] at h
    cases hu : update_values_from_metadata self f with
    | none => rw [hu] at h; cases h
    | some u =>
      rw [hu] at h
      cases hr : reevaluate_filters_loop self rest with
      | none => rw [hr] at h; cases h
      | some rs =>
        rw [hr] at h
        simp only at h
        injection h with h
        rw [← h]
        have hi := update_values_ident self f u hu
        simp only [List.map_cons, ih rs hr, hi.1, hi.2.1]

/-! ## The registry invariant -/

theorem list_inv_of_perm (dir : WpDirection) (l l2 : List Filter)
    (hp : (l2.map (fun f => (f.link_group, f.direction))).Perm
      (l.map (fun f => (f.link_group, f.direction))))
    (h : list_inv dir l) : list_inv dir l2 := by
  constructor
  · have h1 : (l2.map Filter.link_group)
        = (l2.map (fun f => (f.link_group, f.direction))).map Prod.fst := by
      simp [List.map_map, Function.comp]
    have h2 : (l.map Filter.link_group)
        = (l.map (fun f => (f.link_group, f.direction))).map Prod.fst := by
      simp [List.map_map, Function.comp]
    rw [h1]
    have h3 := h.1
    rw [h2] at h3
    exact (hp.map Prod.fst).nodup_iff.2 h3
  · intro f hf
    have hm : (f.link_group, f.direction) ∈ l2.map (fun f => (f.link_group, f.direction)) :=
      List.mem_map.2 ⟨f, hf, rfl⟩
    have hm2 := hp.subset hm
    obtain ⟨g, hg, hgf⟩ := List.mem_map.1 hm2
    have := h.2 g hg
    simp only [Prod.mk.injEq] at hgf
    rw [← hgf.2, this]

theorem filters_set_filters_same (self : WpFiltersApi) (dir : WpDirection) (l : List Filter) :
    filters (set_filters self dir l) dir = l := by
  cases dir <;> rfl

theorem filters_set_filters_other (self : WpFiltersApi) (dir d2 : WpDirection) (l : List Filter)
    (h : d2 ≠ dir) : filters (set_filters self dir l) d2 = filters self d2 := by
  cases dir <;> cases d2 <;> first | rfl | exact absurd rfl h

theorem registry_inv_set_filters (self : WpFiltersApi) (dir : WpDirection) (l : List Filter)
    (h : registry_inv self) (hl : list_inv dir l) : registry_inv (set_filters self dir l) := by
  intro d2
  by_cases hd : d2 = dir
  · subst hd
    rw [filters_set_filters_same]
    exact hl
  · rw [filters_set_filters_other self dir d2 l hd]
    exact h d2

theorem reevaluate_filters_inv (self : WpFiltersApi) (dir : WpDirection)
    (r : Bool × WpFiltersApi) (h : reevaluate_filters self dir = some r)
    (hinv : registry_inv self) : registry_inv r.2 := by
  unfold reevaluate_filters at h
  cases hl : reevaluate_filters_loop self (filters self dir) with
  | none => rw [hl] at h; cases h
  | some rl =>
    rw [hl] at h
    have hmap := reevaluate_filters_loop_map self _ rl hl
    simp only at h
    split at h
    · injection h with h
      rw [← h]
      apply registry_inv_set_filters self dir _ hinv
      apply list_inv_of_perm dir (filters self dir)
      · rw [← hmap]
        exact (sort_perm filter_compare_func rl.2).map _
      · exact hinv dir
    · injection h with h
      rw [← h]
      apply registry_inv_set_filters self dir _ hinv
      apply list_inv_of_perm dir (filters self dir)
      · rw [hmap]
      · exact hinv dir

theorem reevaluate_both_inv (self : WpFiltersApi) (r : Bool × WpFiltersApi)
    (h : reevaluate_both self = some r) (hinv : registry_inv self) : registry_inv r.2 := by
  unfold reevaluate_both at h
  cases h0 : reevaluate_filters self WpDirection.INPUT with
  | none => rw [h0] at h; cases h
  | some r0 =>
    simp only [h0] at h
    cases h1 : reevaluate_filters r0.2 WpDirection.OUTPUT with
    | none => simp only [h1] at h; cases h
    | some r1 =>
      simp only [h1] at h
      cases h
      exact reevaluate_filters_inv r0.2 _ r1 h1 (reevaluate_filters_inv self _ r0 h0 hinv)

theorem filters_reevaluate_targets (self : WpFiltersApi) (dir : WpDirection) :
    filters (reevaluate_targets self).2 dir = filters self dir := by
  unfold reevaluate_targets
  cases dir <;>
  · simp only []
    split
    · rfl
    · split <;> rfl

theorem registry_inv_congr (self next : WpFiltersApi)
    (h : ∀ dir, filters next dir = filters self dir) (hinv : registry_inv self) :
    registry_inv next := by
  intro dir
  rw [h dir]
  exact hinv dir

theorem on_metadata_changed_inv (self next : WpFiltersApi)
    (h : on_metadata_changed self = some next) (hinv : registry_inv self) :
    registry_inv next := by
  unfold on_metadata_changed at h
  simp only at h
  cases hb : reevaluate_both (reevaluate_targets self).2 with
  | none => rw [hb] at h; cases h
  | some r =>
    rw [hb] at h
    have hr := reevaluate_both_inv _ r hb
      (registry_inv_congr self _ (filters_reevaluate_targets self) hinv)
    simp only at h
    split at h
    · injection h with h
      rw [← h]
      exact registry_inv_congr r.2 _ (fun dir => by cases dir <;> rfl) hr
    · injection h with h
      rw [← h]
      exact hr

theorem on_stream_nodes_changed_inv (self next : WpFiltersApi)
    (h : on_stream_nodes_changed self = some next) (hinv : registry_inv self) :
    registry_inv next := by
  unfold on_stream_nodes_changed at h
  cases hb : reevaluate_both self with
  | none => rw [hb] at h; cases h
  | some r =>
    rw [hb] at h
    have hr := reevaluate_both_inv _ r hb hinv
    simp only at h
    split at h
    · injection h with h
      rw [← h]
      exact registry_inv_congr r.2 _ (fun dir => by cases dir <;> rfl) hr
    · injection h with h
      rw [← h]
      exact hr

theorem find_custom_none_imp (key : String) (l : List Filter)
    (h : g_list_find_custom l key = none) : ∀ g ∈ l, g.link_group ≠ key := by
  rcases split_at_key key l with hn | ⟨pre, f, post, hl, hf, hpre⟩
  · exact hn
  · rw [hl, find_custom_append key pre f post hf hpre] at h
    cases h

theorem list_inv_of_sublist (dir : WpDirection) (l l2 : List Filter)
    (hs : l2.Sublist l) (h : list_inv dir l) : list_inv dir l2 :=
  ⟨(h.1).sublist (hs.map _), fun f hf => h.2 f (hs.subset hf)⟩

theorem list_inv_cons (dir : WpDirection) (l : List Filter) (f : Filter)
    (hkey : ∀ g ∈ l, g.link_group ≠ f.link_group) (hdir : f.direction = dir)
    (h : list_inv dir l) : list_inv dir (f :: l) := by
  constructor
  · rw [List.map_cons, List.nodup_cons]
    refine ⟨?_, h.1⟩
    intro hm
    obtain ⟨g, hg, hgf⟩ := List.mem_map.1 hm
    exact hkey g hg hgf
  · intro g hg
    rcases List.mem_cons.1 hg with rfl | hg
    · exact hdir
    · exact h.2 g hg

theorem on_filter_node_added_inv (self next : WpFiltersApi) (proxy : WpNode)
    (h : on_filter_node_added self proxy = some next) (hinv : registry_inv self) :
    registry_inv next := by
  unfold on_filter_node_added at h
  split at h
  · cases h; exact hinv
  · split at h
    · cases h; exact hinv
    · rename_i media_class _ dir _
      simp only at h
      split at h
      · cases h; exact hinv
      · rename_i key _
        split at h
        · rename_i hfind
          split at h
          · cases h
          · rename_i r hu
            cases h
            have hi := update_values_ident self _ r hu
            apply registry_inv_set_filters self dir _ hinv
            apply list_inv_of_perm dir (r.2 :: filters self dir)
            · exact (insert_sorted_perm filter_compare_func _ r.2).map _
            · apply list_inv_cons dir _ r.2 _ _ (hinv dir)
              · rw [hi.1]
                exact find_custom_none_imp key _ hfind
              · rw [hi.2.1]
                rfl
        · rename_i before found after hfind
          obtain ⟨hl, hkey, _⟩ := find_custom_some key _ before after found hfind
          split at h
          · cases h
          · rename_i r hu
            cases h
            have hi := update_values_ident self _ r hu
            apply registry_inv_set_filters self dir _ hinv
            apply list_inv_of_perm dir (filters self dir) _ _ (hinv dir)
            refine ((sort_perm filter_compare_func _).map _).trans ?_
            have hid : (r.2.link_group, r.2.direction) = (found.link_group, found.direction) := by
              rw [hi.1, hi.2.1]
              split <;> rfl
            rw [hl]
            simp only [List.map_append, List.map_cons, hid]
            exact List.Perm.refl _

theorem on_filter_node_removed_inv (self : WpFiltersApi) (proxy : WpNode)
    (hinv : registry_inv self) : registry_inv (on_filter_node_removed self proxy) := by
  unfold on_filter_node_removed
  split
  · exact hinv
  · split
    · exact hinv
    · rename_i dir _
      split
      · exact hinv
      · rename_i key _
        split
        · exact hinv
        · rename_i before found after hfind
          obtain ⟨hl, _, _⟩ := find_custom_some key _ before after found hfind
          apply registry_inv_set_filters self dir _ hinv
          apply list_inv_of_sublist dir (filters self dir) _ _ (hinv dir)
          rw [hl]
          exact List.Sublist.append (List.Sublist.refl _) (List.sublist_cons_self _ _)

theorem handle_inv (self next : WpFiltersApi) (e : Event)
    (h : handle self e = some next) (hinv : registry_inv self) : registry_inv next := by
  cases e with
  | metadata_added m =>
    exact on_metadata_changed_inv _ next h
      (registry_inv_congr self _ (fun dir => by cases dir <;> rfl) hinv)
  | metadata_changed m =>
    exact on_metadata_changed_inv _ next h
      (registry_inv_congr self _ (fun dir => by cases dir <;> rfl) hinv)
  | stream_node_added proxy =>
    simp only [handle, on_stream_node_added] at h
    split at h
    · cases h
    · split at h
      · cases h
        exact registry_inv_congr self _ (fun dir => by cases dir <;> rfl) hinv
      · split at h
        · cases h
          exact registry_inv_congr self _ (fun dir => by cases dir <;> rfl) hinv
        · cases h; exact hinv
  | stream_node_removed proxy =>
    simp only [handle, on_stream_node_removed] at h
    split at h
    · cases h
    · split at h
      · cases h
        exact registry_inv_congr self _ (fun dir => by cases dir <;> rfl) hinv
      · split at h
        · cases h
          exact registry_inv_congr self _ (fun dir => by cases dir <;> rfl) hinv
        · cases h; exact hinv
  | stream_nodes_changed => exact on_stream_nodes_changed_inv self next h hinv
  | node_added proxy =>
    simp only [handle, on_node_added] at h
    cases h
    exact registry_inv_congr self _
      (fun dir => (filters_reevaluate_targets _ dir).trans (by cases dir <;> rfl)) hinv
  | node_removed proxy =>
    simp only [handle, on_node_removed] at h
    cases h
    exact registry_inv_congr self _
      (fun dir => (filters_reevaluate_targets _ dir).trans (by cases dir <;> rfl)) hinv
  | nodes_changed =>
    simp only [handle] at h
    cases h
    exact registry_inv_congr self _ (fun dir => by cases dir <;> rfl) hinv
  | filter_node_added proxy => exact on_filter_node_added_inv self next proxy h hinv
  | filter_node_removed proxy =>
    simp only [handle] at h
    cases h
    exact on_filter_node_removed_inv self proxy hinv
  | filter_nodes_changed =>
    simp only [handle] at h
    cases h
    exact registry_inv_congr self _ (fun dir => by cases dir <;> rfl) hinv
  | sync_done finished =>
    simp only [handle] at h
    split at h
    · cases h; exact hinv
    · cases h
      unfold sync_changed
      split <;> exact registry_inv_congr self _ (fun dir => by cases dir <;> rfl) hinv

theorem reachable_inv (self : WpFiltersApi) (h : Reachable self) : registry_inv self := by
  induction h with
  | enabled =>
    intro dir
    cases dir <;> exact ⟨List.nodup_nil, fun f hf => absurd hf (List.not_mem_nil f)⟩
  | handle s next e _ hstep ih => exact handle_inv s next e hstep ih

/-! ## The matching record -/

theorem update_values_loop_skip (self : WpFiltersApi) (f : Filter) (fsn fnn : String)
    (x : WpSpaJson) (rest : List WpSpaJson) (h : record_matches f fsn fnn x = false) :
    update_values_loop self f (some fsn) (some fnn) (x :: rest)
      = update_values_loop self f (some fsn) (some fnn) rest := by
  unfold record_matches at h
  rw [update_values_loop]
  by_cases hobj : wp_spa_json_is_object x = false
  · rw [if_pos hobj]
  · rw [if_neg hobj]
    have hobj2 : wp_spa_json_is_object x = true := by simpa using hobj
    rw [hobj2, Bool.true_and] at h
    split
    · rename_i sn nn d h1 h2 h3
      rw [h1, h2, h3] at h
      simp only [decide_eq_false_iff_not, not_and] at h
      simp only
      by_cases hs : fsn = sn
      · rw [if_pos hs]
        by_cases hn : fnn = nn ∧ f.direction = record_direction d
        · exact absurd hn.2 (h hs hn.1)
        · rw [if_neg hn]
      · rw [if_neg hs]
    · rfl

theorem update_values_loop_hit (self : WpFiltersApi) (f : Filter) (fsn fnn : String)
    (j : WpSpaJson) (rest : List WpSpaJson) (h : record_matches f fsn fnn j = true) :
    update_values_loop self f (some fsn) (some fnn) (j :: rest)
      = some (apply_record self f j) := by
  unfold record_matches at h
  rw [Bool.and_eq_true] at h
  obtain ⟨hobj, h⟩ := h
  rw [update_values_loop]
  have hobj2 : ¬ wp_spa_json_is_object j = false := by simp [hobj]
  rw [if_neg hobj2]
  split
  · rename_i sn nn d h1 h2 h3
    rw [h1, h2, h3] at h
    simp only [decide_eq_true_eq] at h
    simp only
    rw [if_pos h.1, if_pos h.2]
  · rename_i hno
    split at h
    · rename_i sn nn d h1 h2 h3
      exact absurd h3 (hno sn nn d h1 h2)
    · cases h

theorem update_values_loop_found (self : WpFiltersApi) (f : Filter) (fsn fnn : String)
    (pre post : List WpSpaJson) (j : WpSpaJson)
    (hpre : ∀ x ∈ pre, record_matches f fsn fnn x = false)
    (hj : record_matches f fsn fnn j = true) :
    update_values_loop self f (some fsn) (some fnn) (pre ++ j :: post)
      = some (apply_record self f j) := by
  induction pre with
  | nil => exact update_values_loop_hit self f fsn fnn j post hj
  | cons x pre ih =>
    rw [List.cons_append,
      update_values_loop_skip self f fsn fnn x _ (hpre x (List.mem_cons_self _ _))]
    exact ih (fun y hy => hpre y (List.mem_cons_of_mem _ hy))

/-- The call of `update_values_from_metadata` on a fully bound filter whose
matching record is `j`: the result is that of the three update blocks on `j`. -/
theorem update_values_found (self : WpFiltersApi) (f : Filter) (m : WpMetadata)
    (stream node : WpNode) (fsn fnn : String) (pre post : List WpSpaJson) (j : WpSpaJson)
    (hm : self.metadata_om = some m) (hs : f.stream = some stream) (hn : f.node = some node)
    (hfsn : wp_pipewire_object_get_property stream PW_KEY_NODE_NAME = some fsn)
    (hfnn : wp_pipewire_object_get_property node PW_KEY_NODE_NAME = some fnn)
    (hcfg : m.configured_filters = some (WpSpaJson.array (pre ++ j :: post)))
    (hpre : ∀ x ∈ pre, record_matches f fsn fnn x = false)
    (hj : record_matches f fsn fnn j = true) :
    update_values_from_metadata self f = some (apply_record self f j) := by
  unfold update_values_from_metadata
  simp only [hm, hs, hn, hcfg, hfsn, hfnn]
  exact update_values_loop_found self f fsn fnn pre post j hpre hj

/-- C9. Key uniqueness: in every state the module reaches, the link groups of
the filters of one direction are pairwise distinct and every filter has the
direction of the list it is in; an event leaves the direction of the filter of
a link group as it was, and `update_values_from_metadata` changes neither the
link group nor the direction of the filter it is given. -/
theorem key_uniqueness (self : WpFiltersApi) (h : Reachable self) :
    (∀ dir, ((filters self dir).map Filter.link_group).Nodup ∧
      ∀ f ∈ filters self dir, f.direction = dir) ∧
    (∀ e next, handle self e = some next → ∀ dir, ∀ f ∈ filters self dir,
      ∀ g ∈ filters next dir, g.link_group = f.link_group → g.direction = f.direction) ∧
    (∀ f r, update_values_from_metadata self f = some r →
      r.2.link_group = f.link_group ∧ r.2.direction = f.direction) := by
  have hinv := reachable_inv self h
  refine ⟨hinv, ?_, ?_⟩
  · intro e next hstep dir f hf g hg _
    have hnext := handle_inv self next e hstep hinv
    rw [(hnext dir).2 g hg, (hinv dir).2 f hf]
  · intro f r hr
    have hi := update_values_ident self f r hr
    exact ⟨hi.1, hi.2.1⟩

theorem key_uniqueness_witness :
    ∃ s, run wp_filters_api_enabled chain_events = some s ∧
      filters s WpDirection.INPUT = [chain_A, chain_B] ∧
      ∀ dir, ((filters s dir).map Filter.link_group).Nodup ∧
        ∀ f ∈ filters s dir, f.direction = dir := by
  have hrun : (run wp_filters_api_enabled chain_events).isSome = true := by decide
  obtain ⟨s, hs⟩ := Option.isSome_iff_exists.1 hrun
  have h1 : (run wp_filters_api_enabled chain_events).map
      (fun s => filters s WpDirection.INPUT) = some [chain_A, chain_B] := by decide
  rw [hs] at h1
  simp only [Option.map_some', Option.some.injEq] at h1
  exact ⟨s, hs, h1, (key_uniqueness s (reachable_run _ _ s Reachable.enabled hs)).1⟩

theorem update_mode_enabled (self : WpFiltersApi) (f : Filter) (j : WpSpaJson) :
    (wp_spa_json_object_get_string j "mode" = some "always" →
      (update_mode self f j).2.enabled = true) ∧
    (wp_spa_json_object_get_string j "mode" = some "never" →
      (update_mode self f j).2.enabled = false) ∧
    (wp_spa_json_object_get_string j "mode" = some "playback-only" →
      (update_mode self f j).2.enabled = decide (self.n_playback_stream_nodes > 0)) ∧
    (wp_spa_json_object_get_string j "mode" = some "capture-only" →
      (update_mode self f j).2.enabled = decide (self.n_capture_stream_nodes > 0)) ∧
    (wp_spa_json_object_get_string j "mode" = none →
      (update_mode self f j).2.enabled = f.enabled) ∧
    (∀ mode, wp_spa_json_object_get_string j "mode" = some mode →
      mode ≠ "always" → mode ≠ "never" → mode ≠ "playback-only" → mode ≠ "capture-only" →
      (update_mode self f j).2.enabled = f.enabled) := by
  unfold update_mode
  refine ⟨?_, ?_, ?_, ?_, ?_, ?_⟩
  · intro hmode
    rw [hmode]
    simp only [if_true]
    split_ifs with h1 <;> simp_all
  · intro hmode
    rw [hmode]
    simp only [if_true, show ¬ ("never" = "always") by decide, if_false]
    split_ifs with h1 <;> simp_all
  · intro hmode
    rw [hmode]
    simp only [if_true, show ¬ ("playback-only" = "always") by decide,
      show ¬ ("playback-only" = "never") by decide, if_false]
    split_ifs with h1
    · rfl
    · simpa using h1
  · intro hmode
    rw [hmode]
    simp only [if_true, show ¬ ("capture-only" = "always") by decide,
      show ¬ ("capture-only" = "never") by decide,
      show ¬ ("capture-only" = "playback-only") by decide, if_false]
    split_ifs with h1
    · rfl
    · simpa using h1
  · intro hmode
    rw [hmode]
  · intro mode hmode h1 h2 h3 h4
    rw [hmode]
    simp only [if_neg h1, if_neg h2, if_neg h3, if_neg h4]

/-- C10. Mode application: when `update_values_from_metadata` is called on a
fully bound filter and `j` is the first record of the array that matches it,
the call returns and the flag `enabled` of the filter is then true for the
mode "always", false for "never", (playback stream count > 0) for
"playback-only", (capture stream count > 0) for "capture-only", and what it was
when the record has no mode string or another mode string. -/
theorem mode_application (self : WpFiltersApi) (f : Filter) (m : WpMetadata)
    (stream node : WpNode) (fsn fnn : String) (pre post : List WpSpaJson) (j : WpSpaJson)
    (hm : self.metadata_om = some m) (hs : f.stream = some stream) (hn : f.node = some node)
    (hfsn : wp_pipewire_object_get_property stream PW_KEY_NODE_NAME = some fsn)
    (hfnn : wp_pipewire_object_get_property node PW_KEY_NODE_NAME = some fnn)
    (hcfg : m.configured_filters = some (WpSpaJson.array (pre ++ j :: post)))
    (hpre : ∀ x ∈ pre, record_matches f fsn fnn x = false)
    (hj : record_matches f fsn fnn j = true) :
    ∃ r, update_values_from_metadata self f = some r ∧
      (wp_spa_json_object_get_string j "mode" = some "always" → r.2.enabled = true) ∧
      (wp_spa_json_object_get_string j "mode" = some "never" → r.2.enabled = false) ∧
      (wp_spa_json_object_get_string j "mode" = some "playback-only" →
        r.2.enabled = decide (self.n_playback_stream_nodes > 0)) ∧
      (wp_spa_json_object_get_string j "mode" = some "capture-only" →
        r.2.enabled = decide (self.n_capture_stream_nodes > 0)) ∧
      (wp_spa_json_object_get_string j "mode" = none → r.2.enabled = f.enabled) ∧
      (∀ mode, wp_spa_json_object_get_string j "mode" = some mode →
        mode ≠ "always" → mode ≠ "never" → mode ≠ "playback-only" →
        mode ≠ "capture-only" → r.2.enabled = f.enabled) := by
  refine ⟨apply_record self f j,
    update_values_found self f m stream node fsn fnn pre post j hm hs hn hfsn hfnn hcfg hpre hj,
    ?_⟩
  have ht := update_target_ident f j
  have hp := update_priority_ident (update_mode self (update_target f j).2 j).2 j
  have hmode := update_mode_enabled self (update_target f j).2 j
  have he : (apply_record self f j).2.enabled
      = (update_mode self (update_target f j).2 j).2.enabled := by
    simp only [apply_record]
    exact hp.2.2.2.2.2
  rw [he, ← ht.2.2.2.2.1]
  exact hmode

theorem mode_application_witness :
    ∃ r, update_values_from_metadata (mode_state "capture-only" 0 1)
        { chain_A with enabled := false } = some r ∧
      r.2.enabled = decide ((mode_state "capture-only" 0 1).n_capture_stream_nodes > 0) := by
  obtain ⟨r, hr, _, _, _, hc, _, _⟩ :=
    mode_application (mode_state "capture-only" 0 1) { chain_A with enabled := false }
      { configured_targets := none
        configured_filters := some (WpSpaJson.array
          [WpSpaJson.string "not a record", mode_record "sB" "nB" "input" "never",
            mode_record "sA" "nA" "input" "capture-only",
            mode_record "sA" "nA" "input" "never"]) }
      (example_node 11 "sA" "Stream/Output/Audio" "A") (example_node 10 "nA" "Audio/Sink" "A")
      "sA" "nA" [WpSpaJson.string "not a record", mode_record "sB" "nB" "input" "never"]
      [mode_record "sA" "nA" "input" "never"] (mode_record "sA" "nA" "input" "capture-only")
      rfl rfl rfl (by decide) (by decide) rfl (by decide) (by decide)
  exact ⟨r, hr, hc (by decide)⟩

/-! ## The comparison of filters when the subtraction does not overflow -/

theorem to_gint_of_range (n : Int) (h1 : -2147483648 ≤ n) (h2 : n < 2147483648) :
    to_gint n = n := by
  unfold to_gint
  omega

theorem strcmp_range (a b : List Char) : strcmp a b = -1 ∨ strcmp a b = 0 ∨ strcmp a b = 1 := by
  induction a generalizing b with
  | nil => cases b <;> simp [strcmp]
  | cons x a ih =>
    cases b with
    | nil => simp [strcmp]
    | cons y b =>
      simp only [strcmp]
      split_ifs
      · exact ih b
      · simp
      · simp

theorem strcmp_neg_iff (a b : List Char) : strcmp a b < 0 ↔ List.Lex (· < ·) a b := by
  induction a generalizing b with
  | nil =>
    cases b with
    | nil => simp [strcmp, List.Lex.not_nil_right]
    | cons y b => simp [strcmp, List.Lex.nil]
  | cons x a ih =>
    cases b with
    | nil => simp [strcmp, List.Lex.not_nil_right]
    | cons y b =>
      simp only [strcmp]
      split_ifs with h1 h2
      · subst h1
        rw [ih b, List.Lex.cons_iff]
      · constructor
        · intro _; exact List.Lex.rel h2
        · intro _; decide
      · constructor
        · intro h; exact absurd h (by decide)
        · intro h
          cases h with
          | cons h => exact absurd rfl h1
          | rel h => exact absurd h h2

theorem strcmp_pos_iff (a b : List Char) : 0 < strcmp a b ↔ List.Lex (· < ·) b a := by
  induction a generalizing b with
  | nil =>
    cases b with
    | nil => simp [strcmp, List.Lex.not_nil_right]
    | cons y b => simp [strcmp, List.Lex.not_nil_right]
  | cons x a ih =>
    cases b with
    | nil => simp [strcmp, List.Lex.nil]
    | cons y b =>
      simp only [strcmp]
      split_ifs with h1 h2
      · subst h1
        rw [ih b, List.Lex.cons_iff]
      · constructor
        · intro h; exact absurd h (by decide)
        · intro h
          cases h with
          | cons h => exact absurd rfl h1
          | rel h => exact absurd h (lt_asymm h2)
      · constructor
        · intro _
          have : y < x := lt_of_le_of_ne (not_lt.1 h2) (fun e => h1 e.symm)
          exact List.Lex.rel this
        · intro _; decide

theorem g_strcmp0_le_iff (a b : String) : g_strcmp0 a b ≤ 0 ↔ a ≤ b := by
  have h := strcmp_pos_iff a.data b.data
  have hle : a ≤ b ↔ ¬ b < a := not_lt.symm
  rw [hle, String.lt_iff_toList_lt]
  unfold g_strcmp0
  constructor
  · intro h1 h2
    have := h.2 h2
    omega
  · intro h1
    by_contra h2
    exact h1 (h.1 (by omega))

theorem compare_le_iff (a b : Filter) (ha : bounded_priority a.priority)
    (hb : bounded_priority b.priority) : filter_compare_func a b ≤ 0 ↔ filter_le a b := by
  unfold bounded_priority at ha hb
  have hg : to_gint (a.priority - b.priority) = a.priority - b.priority :=
    to_gint_of_range _ (by omega) (by omega)
  unfold filter_compare_func filter_le
  simp only [hg]
  by_cases hd : a.priority - b.priority = 0
  · have he : a.priority = b.priority := by omega
    simp only [hd, ne_eq, not_true_eq_false, if_false, g_strcmp0_le_iff]
    constructor
    · intro h; exact Or.inr ⟨he, h⟩
    · rintro (h | h)
      · omega
      · exact h.2
  · simp only [ne_eq, hd, not_false_eq_true, if_true]
    constructor
    · intro h; left; omega
    · rintro (h | h)
      · omega
      · omega

theorem filter_le_total (a b : Filter) : filter_le a b ∨ filter_le b a := by
  unfold filter_le
  rcases lt_trichotomy a.priority b.priority with h | h | h
  · exact Or.inl (Or.inl h)
  · rcases le_total a.link_group b.link_group with h2 | h2
    · exact Or.inl (Or.inr ⟨h, h2⟩)
    · exact Or.inr (Or.inr ⟨h.symm, h2⟩)
  · exact Or.inr (Or.inl h)

theorem filter_le_trans (a b c : Filter) (h1 : filter_le a b) (h2 : filter_le b c) :
    filter_le a c := by
  unfold filter_le at *
  rcases h1 with h1 | ⟨h1, h1s⟩
  · rcases h2 with h2 | ⟨h2, _⟩
    · exact Or.inl (lt_trans h1 h2)
    · exact Or.inl (h2 ▸ h1)
  · rcases h2 with h2 | ⟨h2, h2s⟩
    · exact Or.inl (h1 ▸ h2)
    · exact Or.inr ⟨h1.trans h2, le_trans h1s h2s⟩

/-! ## Sorting with a comparison that decides a total preorder -/

theorem sort_merge_sorted {α : Type} (cmp : α → α → Int) (le : α → α → Prop) (P : α → Prop)
    (hcmp : ∀ x y, P x → P y → (cmp x y ≤ 0 ↔ le x y))
    (htot : ∀ x y, le x y ∨ le y x) (htrans : ∀ x y z, le x y → le y z → le x z)
    (fuel : Nat) (l1 l2 : List α) (hfuel : l1.length + l2.length ≤ fuel)
    (hP1 : ∀ x ∈ l1, P x) (hP2 : ∀ x ∈ l2, P x)
    (h1 : l1.Pairwise le) (h2 : l2.Pairwise le) :
    (g_list_sort_merge cmp fuel l1 l2).Pairwise le := by
  induction fuel generalizing l1 l2 with
  | zero =>
    have e1 : l1 = [] := List.length_eq_zero.1 (by omega)
    have e2 : l2 = [] := List.length_eq_zero.1 (by omega)
    subst e1 e2
    simp [g_list_sort_merge]
  | succ n ih =>
    cases l1 with
    | nil => simpa [g_list_sort_merge] using h2
    | cons a l1 =>
      cases l2 with
      | nil => simpa [g_list_sort_merge] using h1
      | cons b l2 =>
        have hPa : P a := hP1 a (List.mem_cons_self _ _)
        have hPb : P b := hP2 b (List.mem_cons_self _ _)
        have h1c := List.pairwise_cons.1 h1
        have h2c := List.pairwise_cons.1 h2
        simp only [List.length_cons] at hfuel
        simp only [g_list_sort_merge]
        split
        · rename_i hc
          have hab : le a b := (hcmp a b hPa hPb).1 hc
          rw [List.pairwise_cons]
          constructor
          · intro x hx
            have hx2 := (sort_merge_perm cmp n l1 (b :: l2)).subset hx
            rcases List.mem_append.1 hx2 with hx3 | hx3
            · exact h1c.1 x hx3
            · rcases List.mem_cons.1 hx3 with rfl | hx4
              · exact hab
              · exact htrans a b x hab (h2c.1 x hx4)
          · exact ih l1 (b :: l2) (by simp only [List.length_cons]; omega)
              (fun x hx => hP1 x (List.mem_cons_of_mem _ hx)) hP2 h1c.2 h2
        · rename_i hc
          have hba : le b a := by
            rcases htot a b with h | h
            · exact absurd ((hcmp a b hPa hPb).2 h) hc
            · exact h
          rw [List.pairwise_cons]
          constructor
          · intro x hx
            have hx2 := (sort_merge_perm cmp n (a :: l1) l2).subset hx
            rcases List.mem_append.1 hx2 with hx3 | hx3
            · rcases List.mem_cons.1 hx3 with rfl | hx4
              · exact hba
              · exact htrans b a x hba (h1c.1 x hx4)
            · exact h2c.1 x hx3
          · exact ih (a :: l1) l2 (by simp only [List.length_cons]; omega)
              hP1 (fun x hx => hP2 x (List.mem_cons_of_mem _ hx)) h1 h2c.2

theorem sort_real_sorted {α : Type} (cmp : α → α → Int) (le : α → α → Prop) (P : α → Prop)
    (hcmp : ∀ x y, P x → P y → (cmp x y ≤ 0 ↔ le x y))
    (htot : ∀ x y, le x y ∨ le y x) (htrans : ∀ x y z, le x y → le y z → le x z)
    (fuel : Nat) (l : List α) (hfuel : l.length ≤ fuel) (hP : ∀ x ∈ l, P x) :
    (g_list_sort_real cmp fuel l).Pairwise le := by
  induction fuel generalizing l with
  | zero =>
    have e : l = [] := List.length_eq_zero.1 (by omega)
    subst e
    simp [g_list_sort_real]
  | succ n ih =>
    match l, hfuel, hP with
    | [], _, _ => simp [g_list_sort_real]
    | [a], _, _ => simp [g_list_sort_real]
    | a :: b :: rest, hfuel, hP =>
      simp only [g_list_sort_real]
      have hlen : (a :: b :: rest).length = rest.length + 2 := by simp
      have hk1 : 1 ≤ (a :: b :: rest).length / 2 := by rw [hlen]; omega
      have hk2 : (a :: b :: rest).length / 2 < (a :: b :: rest).length := by rw [hlen]; omega
      have ht : ((a :: b :: rest).take ((a :: b :: rest).length / 2)).length ≤ n := by
        rw [List.length_take]; omega
      have hd : ((a :: b :: rest).drop ((a :: b :: rest).length / 2)).length ≤ n := by
        rw [List.length_drop]; omega
      have hPt : ∀ x ∈ (a :: b :: rest).take ((a :: b :: rest).length / 2), P x :=
        fun x hx => hP x (List.mem_of_mem_take hx)
      have hPd : ∀ x ∈ (a :: b :: rest).drop ((a :: b :: rest).length / 2), P x :=
        fun x hx => hP x (List.mem_of_mem_drop hx)
      apply sort_merge_sorted cmp le P hcmp htot htrans
      · rw [(sort_real_perm cmp n _).length_eq, (sort_real_perm cmp n _).length_eq,
          List.length_take, List.length_drop]
        omega
      · intro x hx
        exact hPt x ((sort_real_perm cmp n _).subset hx)
      · intro x hx
        exact hPd x ((sort_real_perm cmp n _).subset hx)
      · exact ih _ ht hPt
      · exact ih _ hd hPd

theorem sort_sorted {α : Type} (cmp : α → α → Int) (le : α → α → Prop) (P : α → Prop)
    (hcmp : ∀ x y, P x → P y → (cmp x y ≤ 0 ↔ le x y))
    (htot : ∀ x y, le x y ∨ le y x) (htrans : ∀ x y z, le x y → le y z → le x z)
    (l : List α) (hP : ∀ x ∈ l, P x) : (g_list_sort cmp l).Pairwise le :=
  sort_real_sorted cmp le P hcmp htot htrans l.length l (Nat.le_refl _) hP

theorem insert_sorted_sorted {α : Type} (cmp : α → α → Int) (le : α → α → Prop) (P : α → Prop)
    (hcmp : ∀ x y, P x → P y → (cmp x y ≤ 0 ↔ le x y))
    (htot : ∀ x y, le x y ∨ le y x) (htrans : ∀ x y z, le x y → le y z → le x z)
    (l : List α) (x : α) (hP : ∀ y ∈ l, P y) (hx : P x) (hl : l.Pairwise le) :
    (g_list_insert_sorted cmp l x).Pairwise le := by
  induction l with
  | nil => simp [g_list_insert_sorted]
  | cons a l ih =>
    have hPa : P a := hP a (List.mem_cons_self _ _)
    have hlc := List.pairwise_cons.1 hl
    simp only [g_list_insert_sorted]
    split
    · rename_i hc
      have hax : le a x := by
        rcases htot x a with h | h
        · have := (hcmp x a hx hPa).2 h
          omega
        · exact h
      rw [List.pairwise_cons]
      constructor
      · intro y hy
        have hy2 := (insert_sorted_perm cmp l x).subset hy
        rcases List.mem_cons.1 hy2 with rfl | hy3
        · exact hax
        · exact hlc.1 y hy3
      · exact ih (fun y hy => hP y (List.mem_cons_of_mem _ hy)) hlc.2
    · rename_i hc
      have hxa : le x a := (hcmp x a hx hPa).1 (by omega)
      rw [List.pairwise_cons]
      refine ⟨?_, hl⟩
      intro y hy
      rcases List.mem_cons.1 hy with rfl | hy2
      · exact hxa
      · exact htrans x a y hxa (hlc.1 y hy2)

/-! ## The change flag and the bounds of the priorities -/

theorem update_target_unchanged (f : Filter) (j : WpSpaJson)
    (h : (update_target f j).1 = false) : (update_target f j).2 = f := by
  unfold update_target at h ⊢
  split <;> split <;> simp_all

theorem update_mode_unchanged (self : WpFiltersApi) (f : Filter) (j : WpSpaJson)
    (h : (update_mode self f j).1 = false) : (update_mode self f j).2 = f := by
  unfold update_mode at h ⊢
  split
  · split_ifs <;> simp_all
  · rfl

theorem update_priority_unchanged (f : Filter) (j : WpSpaJson)
    (h : (update_priority f j).1 = false) : (update_priority f j).2 = f := by
  unfold update_priority at h ⊢
  split
  · split_ifs <;> simp_all
  · rfl

theorem apply_record_unchanged (self : WpFiltersApi) (f : Filter) (j : WpSpaJson)
    (h : (apply_record self f j).1 = false) : (apply_record self f j).2 = f := by
  simp only [apply_record, Bool.or_eq_false_iff] at h ⊢
  obtain ⟨⟨h1, h2⟩, h3⟩ := h
  rw [update_priority_unchanged _ j h3, update_mode_unchanged self _ j h2,
    update_target_unchanged f j h1]

theorem update_priority_bounded (f : Filter) (j : WpSpaJson)
    (hf : bounded_priority f.priority)
    (hj : ∀ p, wp_spa_json_object_get_int j "priority" = some p → bounded_priority p) :
    bounded_priority (update_priority f j).2.priority := by
  unfold update_priority
  split
  · rename_i p hp
    split_ifs
    · exact hj p hp
    · exact hf
  · exact hf

theorem apply_record_bounded (self : WpFiltersApi) (f : Filter) (j : WpSpaJson)
    (hf : bounded_priority f.priority)
    (hj : ∀ p, wp_spa_json_object_get_int j "priority" = some p → bounded_priority p) :
    bounded_priority (apply_record self f j).2.priority := by
  simp only [apply_record]
  apply update_priority_bounded _ j _ hj
  rw [(update_mode_ident self _ j).2.2.2.2.2, (update_target_ident f j).2.2.2.2.2]
  exact hf

theorem update_values_loop_props (self : WpFiltersApi) (f : Filter)
    (fsn fnn : Option String) (items : List WpSpaJson) (r : Bool × Filter)
    (h : update_values_loop self f fsn fnn items = some r) :
    (r.1 = false → r.2 = f) ∧
    (bounded_priority f.priority →
      (∀ j ∈ items, ∀ p, wp_spa_json_object_get_int j "priority" = some p →
        bounded_priority p) →
      bounded_priority r.2.priority) := by
  induction items with
  | nil =>
    simp only [update_values_loop] at h
    cases h
    exact ⟨fun _ => rfl, fun hf _ => hf⟩
  | cons j rest ih =>
    have hnext : update_values_loop self f fsn fnn rest = some r →
        (r.1 = false → r.2 = f) ∧
        (bounded_priority f.priority →
          (∀ x ∈ j :: rest, ∀ p, wp_spa_json_object_get_int x "priority" = some p →
            bounded_priority p) →
          bounded_priority r.2.priority) := by
      intro hr
      obtain ⟨i1, i2⟩ := ih hr
      exact ⟨i1, fun hf hall => i2 hf (fun x hx => hall x (List.mem_cons_of_mem _ hx))⟩
    simp only [update_values_loop] at h
    split at h
    · exact hnext h
    · split at h
      · split at h
        · cases h
        · split at h
          · split at h
            · cases h
            · split at h
              · cases h
                exact ⟨apply_record_unchanged self f j,
                  fun hf hall => apply_record_bounded self f j hf
                    (hall j (List.mem_cons_self _ _))⟩
              · exact hnext h
          · exact hnext h
      · exact hnext h

theorem update_values_props (self : WpFiltersApi) (f : Filter) (r : Bool × Filter)
    (h : update_values_from_metadata self f = some r) :
    (r.1 = false → r.2 = f) ∧
    (bounded_priority f.priority →
      (∀ m, self.metadata_om = some m → metadata_bounded m) →
      bounded_priority r.2.priority) := by
  unfold update_values_from_metadata at h
  split at h
  · cases h; exact ⟨fun _ => rfl, fun hf _ => hf⟩
  · rename_i m hm
    split at h
    · split at h
      · cases h; exact ⟨fun _ => rfl, fun hf _ => hf⟩
      · rename_i items hitems
        obtain ⟨i1, i2⟩ := update_values_loop_props self f _ _ _ r h
        exact ⟨i1, fun hf hmb => i2 hf (hmb m hm items hitems)⟩
      · cases h; exact ⟨fun _ => rfl, fun hf _ => hf⟩
    · cases h; exact ⟨fun _ => rfl, fun hf _ => hf⟩

theorem reevaluate_filters_loop_props (self : WpFiltersApi) (l : List Filter)
    (r : Bool × List Filter) (h : reevaluate_filters_loop self l = some r) :
    (r.1 = false → r.2 = l) ∧
    ((∀ f ∈ l, bounded_priority f.priority) →
      (∀ m, self.metadata_om = some m → metadata_bounded m) →
      ∀ f ∈ r.2, bounded_priority f.priority) := by
  induction l generalizing r with
  | nil =>
    simp only [reevaluate_filters_loop, Option.some.injEq] at h
    subst h
    exact ⟨fun _ => rfl, fun _ _ f hf => absurd hf (List.not_mem_nil f)⟩
  | cons f rest ih =>
    simp only [reevaluate_filters_loop] at h
    cases hu : update_values_from_metadata self f with
    | none => simp only [hu] at h; cases h
    | some u =>
      simp only [hu] at h
      cases hr : reevaluate_filters_loop self rest with
      | none => simp only [hr] at h; cases h
      | some rs =>
        simp only [hr] at h
        cases h
        obtain ⟨u1, u2⟩ := update_values_props self f u hu
        obtain ⟨r1, r2⟩ := ih rs hr
        constructor
        · intro hflag
          simp only [Bool.or_eq_false_iff] at hflag
          simp only [u1 hflag.1, r1 hflag.2]
        · intro hb hmb g hg
          rcases List.mem_cons.1 hg with rfl | hg2
          · exact u2 (hb f (List.mem_cons_self _ _)) hmb
          · exact r2 (fun x hx => hb x (List.mem_cons_of_mem _ hx)) hmb g hg2

/-! ## The registry stays sorted while the priorities are bounded -/

theorem sort_filters_sorted (l : List Filter) (hb : ∀ f ∈ l, bounded_priority f.priority) :
    registry_sorted (g_list_sort filter_compare_func l) :=
  sort_sorted filter_compare_func filter_le (fun f => bounded_priority f.priority)
    compare_le_iff filter_le_total filter_le_trans l hb

theorem sorted_inv_set_filters (self : WpFiltersApi) (dir : WpDirection) (l : List Filter)
    (h : sorted_inv self) (hs : registry_sorted l)
    (hb : ∀ f ∈ l, bounded_priority f.priority) : sorted_inv (set_filters self dir l) := by
  constructor
  · intro m hm
    apply h.1 m
    cases dir <;> exact hm
  · intro d2
    by_cases hd : d2 = dir
    · subst hd
      rw [filters_set_filters_same]
      exact ⟨hs, hb⟩
    · rw [filters_set_filters_other self dir d2 l hd]
      exact h.2 d2

theorem sorted_inv_congr (self next : WpFiltersApi)
    (hm : next.metadata_om = self.metadata_om)
    (h : ∀ dir, filters next dir = filters self dir) (hinv : sorted_inv self) :
    sorted_inv next := by
  constructor
  · intro m hm2
    rw [hm] at hm2
    exact hinv.1 m hm2
  · intro dir
    rw [h dir]
    exact hinv.2 dir

theorem reevaluate_filters_metadata (self : WpFiltersApi) (dir : WpDirection)
    (r : Bool × WpFiltersApi) (h : reevaluate_filters self dir = some r) :
    r.2.metadata_om = self.metadata_om := by
  unfold reevaluate_filters at h
  split at h
  · cases h
  · split at h <;> cases h <;> cases dir <;> rfl

theorem reevaluate_filters_sorted (self : WpFiltersApi) (dir : WpDirection)
    (r : Bool × WpFiltersApi) (h : reevaluate_filters self dir = some r)
    (hinv : sorted_inv self) : sorted_inv r.2 := by
  unfold reevaluate_filters at h
  cases hl : reevaluate_filters_loop self (filters self dir) with
  | none => simp only [hl] at h; cases h
  | some rl =>
    simp only [hl] at h
    obtain ⟨p1, p2⟩ := reevaluate_filters_loop_props self _ rl hl
    have hb := p2 (hinv.2 dir).2 hinv.1
    split at h
    · cases h
      exact sorted_inv_set_filters self dir _ hinv (sort_filters_sorted rl.2 hb)
        (fun f hf => hb f ((sort_perm filter_compare_func rl.2).subset hf))
    · rename_i hflag
      cases h
      have hsame : rl.2 = filters self dir := p1 (by simpa using hflag)
      refine sorted_inv_set_filters self dir _ hinv ?_ hb
      rw [hsame]
      exact (hinv.2 dir).1

theorem reevaluate_both_sorted (self : WpFiltersApi) (r : Bool × WpFiltersApi)
    (h : reevaluate_both self = some r) (hinv : sorted_inv self) : sorted_inv r.2 := by
  unfold reevaluate_both at h
  cases h0 : reevaluate_filters self WpDirection.INPUT with
  | none => simp only [h0] at h; cases h
  | some r0 =>
    simp only [h0] at h
    cases h1 : reevaluate_filters r0.2 WpDirection.OUTPUT with
    | none => simp only [h1] at h; cases h
    | some r1 =>
      simp only [h1] at h
      cases h
      exact reevaluate_filters_sorted r0.2 _ r1 h1 (reevaluate_filters_sorted self _ r0 h0 hinv)

theorem metadata_reevaluate_targets (self : WpFiltersApi) :
    (reevaluate_targets self).2.metadata_om = self.metadata_om := by
  unfold reevaluate_targets
  simp only []
  split
  · rfl
  · split <;> rfl

theorem on_metadata_changed_sorted (self next : WpFiltersApi)
    (h : on_metadata_changed self = some next) (hinv : sorted_inv self) :
    sorted_inv next := by
  unfold on_metadata_changed at h
  simp only at h
  cases hb : reevaluate_both (reevaluate_targets self).2 with
  | none => simp only [hb] at h; cases h
  | some r =>
    simp only [hb] at h
    have hr := reevaluate_both_sorted _ r hb
      (sorted_inv_congr self _ (metadata_reevaluate_targets self)
        (filters_reevaluate_targets self) hinv)
    split at h
    · cases h
      exact sorted_inv_congr r.2 _ rfl (fun dir => by cases dir <;> rfl) hr
    · cases h
      exact hr

theorem on_stream_nodes_changed_sorted (self next : WpFiltersApi)
    (h : on_stream_nodes_changed self = some next) (hinv : sorted_inv self) :
    sorted_inv next := by
  unfold on_stream_nodes_changed at h
  cases hb : reevaluate_both self with
  | none => simp only [hb] at h; cases h
  | some r =>
    simp only [hb] at h
    have hr := reevaluate_both_sorted _ r hb hinv
    split at h
    · cases h
      exact sorted_inv_congr r.2 _ rfl (fun dir => by cases dir <;> rfl) hr
    · cases h
      exact hr

theorem get_filter_priority_bounded (key : String) :
    bounded_priority (to_gint (get_filter_priority key)) := by
  unfold get_filter_priority bounded_priority to_gint
  split_ifs <;> simp

theorem on_filter_node_added_sorted (self next : WpFiltersApi) (proxy : WpNode)
    (h : on_filter_node_added self proxy = some next) (hinv : sorted_inv self) :
    sorted_inv next := by
  unfold on_filter_node_added at h
  split at h
  · cases h; exact hinv
  · split at h
    · cases h; exact hinv
    · rename_i media_class _ dir _
      simp only at h
      split at h
      · cases h; exact hinv
      · rename_i key _
        split at h
        · split at h
          · cases h
          · rename_i r hu
            cases h
            have hp := (update_values_props self _ r hu).2
              (get_filter_priority_bounded key) hinv.1
            apply sorted_inv_set_filters self dir _ hinv
            · exact insert_sorted_sorted filter_compare_func filter_le
                (fun f => bounded_priority f.priority) compare_le_iff filter_le_total
                filter_le_trans _ r.2 (hinv.2 dir).2 hp (hinv.2 dir).1
            · intro f hf
              rcases List.mem_cons.1
                ((insert_sorted_perm filter_compare_func _ r.2).subset hf) with rfl | hf2
              · exact hp
              · exact (hinv.2 dir).2 f hf2
        · rename_i before found after hfind
          obtain ⟨hl, _, _⟩ := find_custom_some key _ before after found hfind
          have hfound : bounded_priority found.priority :=
            (hinv.2 dir).2 found (by rw [hl]; simp)
          split at h
          · cases h
          · rename_i r hu
            cases h
            have hp := (update_values_props self _ r hu).2
              (by split <;> exact hfound) hinv.1
            have hb : ∀ f ∈ before.reverse ++ r.2 :: after, bounded_priority f.priority := by
              intro f hf
              rcases List.mem_append.1 hf with hf1 | hf1
              · exact (hinv.2 dir).2 f (by rw [hl]; simp [List.mem_reverse.1 hf1])
              · rcases List.mem_cons.1 hf1 with rfl | hf2
                · exact hp
                · exact (hinv.2 dir).2 f (by rw [hl]; simp [hf2])
            apply sorted_inv_set_filters self dir _ hinv (sort_filters_sorted _ hb)
            intro f hf
            exact hb f ((sort_perm filter_compare_func _).subset hf)

theorem on_filter_node_removed_sorted (self : WpFiltersApi) (proxy : WpNode)
    (hinv : sorted_inv self) : sorted_inv (on_filter_node_removed self proxy) := by
  unfold on_filter_node_removed
  split
  · exact hinv
  · split
    · exact hinv
    · rename_i dir _
      split
      · exact hinv
      · rename_i key _
        split
        · exact hinv
        · rename_i before found after hfind
          obtain ⟨hl, _, _⟩ := find_custom_some key _ before after found hfind
          have hsub : (before.reverse ++ after).Sublist (filters self dir) := by
            rw [hl]
            exact List.Sublist.append (List.Sublist.refl _) (List.sublist_cons_self _ _)
          apply sorted_inv_set_filters self dir _ hinv
          · exact List.Pairwise.sublist hsub (hinv.2 dir).1
          · intro f hf
            exact (hinv.2 dir).2 f (hsub.subset hf)

theorem handle_sorted (self next : WpFiltersApi) (e : Event)
    (h : handle self e = some next) (he : event_bounded e) (hinv : sorted_inv self) :
    sorted_inv next := by
  cases e with
  | metadata_added m =>
    refine on_metadata_changed_sorted _ next h ⟨?_, fun dir => ?_⟩
    · intro m2 hm2
      cases hm2
      exact he
    · have : filters { self with metadata_om := some m } dir = filters self dir := by
        cases dir <;> rfl
      rw [this]
      exact hinv.2 dir
  | metadata_changed m =>
    refine on_metadata_changed_sorted _ next h ⟨?_, fun dir => ?_⟩
    · intro m2 hm2
      cases hm2
      exact he
    · have : filters { self with metadata_om := some m } dir = filters self dir := by
        cases dir <;> rfl
      rw [this]
      exact hinv.2 dir
  | stream_node_added proxy =>
    simp only [handle, on_stream_node_added] at h
    split at h
    · cases h
    · split at h
      · cases h
        exact sorted_inv_congr self _ rfl (fun dir => by cases dir <;> rfl) hinv
      · split at h
        · cases h
          exact sorted_inv_congr self _ rfl (fun dir => by cases dir <;> rfl) hinv
        · cases h; exact hinv
  | stream_node_removed proxy =>
    simp only [handle, on_stream_node_removed] at h
    split at h
    · cases h
    · split at h
      · cases h
        exact sorted_inv_congr self _ rfl (fun dir => by cases dir <;> rfl) hinv
      · split at h
        · cases h
          exact sorted_inv_congr self _ rfl (fun dir => by cases dir <;> rfl) hinv
        · cases h; exact hinv
  | stream_nodes_changed => exact on_stream_nodes_changed_sorted self next h hinv
  | node_added proxy =>
    simp only [handle, on_node_added] at h
    cases h
    exact sorted_inv_congr self _ (metadata_reevaluate_targets _)
      (fun dir => (filters_reevaluate_targets _ dir).trans (by cases dir <;> rfl)) hinv
  | node_removed proxy =>
    simp only [handle, on_node_removed] at h
    cases h
    exact sorted_inv_congr self _ (metadata_reevaluate_targets _)
      (fun dir => (filters_reevaluate_targets _ dir).trans (by cases dir <;> rfl)) hinv
  | nodes_changed =>
    simp only [handle] at h
    cases h
    exact sorted_inv_congr self _ rfl (fun dir => by cases dir <;> rfl) hinv
  | filter_node_added proxy => exact on_filter_node_added_sorted self next proxy h hinv
  | filter_node_removed proxy =>
    simp only [handle] at h
    cases h
    exact on_filter_node_removed_sorted self proxy hinv
  | filter_nodes_changed =>
    simp only [handle] at h
    cases h
    exact sorted_inv_congr self _ rfl (fun dir => by cases dir <;> rfl) hinv
  | sync_done finished =>
    simp only [handle] at h
    split at h
    · cases h; exact hinv
    · cases h
      unfold sync_changed
      split <;> exact sorted_inv_congr self _ rfl (fun dir => by cases dir <;> rfl) hinv

theorem run_sorted (events : List Event) (self next : WpFiltersApi)
    (hb : ∀ e ∈ events, event_bounded e) (hinv : sorted_inv self)
    (h : run self events = some next) : sorted_inv next := by
  induction events generalizing self with
  | nil =>
    simp only [run] at h
    cases h
    exact hinv
  | cons e rest ih =>
    simp only [run] at h
    cases hh : handle self e with
    | none => simp only [hh] at h; cases h
    | some mid =>
      simp only [hh] at h
      exact ih mid (fun x hx => hb x (List.mem_cons_of_mem _ hx))
        (handle_sorted self mid e hh (hb e (List.mem_cons_self _ _)) hinv) h

/-- The ordering invariant where the subtraction of `filter_compare_func` does
not overflow: after any events whose configurations keep the priorities
between -2^30 and 2^30, both lists of the registry are sorted ascending by
(priority, link group). -/
theorem registry_sorted_of_bounded (events : List Event) (s : WpFiltersApi)
    (hb : ∀ e ∈ events, event_bounded e)
    (h : run wp_filters_api_enabled events = some s) :
    ∀ dir, registry_sorted (filters s dir) := by
  have hinit : sorted_inv wp_filters_api_enabled := by
    constructor
    · intro m hm
      cases hm
    · intro dir
      cases dir <;>
        exact ⟨List.Pairwise.nil, fun f hf => absurd hf (List.not_mem_nil f)⟩
  exact fun dir => ((run_sorted events _ s hb hinit h).2 dir).1

theorem chain_metadata_bounded : metadata_bounded chain_metadata := by
  intro items hitems j hj p hp
  simp only [chain_metadata, Option.some.injEq, WpSpaJson.array.injEq] at hitems
  subst hitems
  simp only [List.mem_cons, List.mem_singleton, List.not_mem_nil, or_false] at hj
  rcases hj with rfl | rfl
  · have : wp_spa_json_object_get_int (WpSpaJson.object
        [("stream-name", WpSpaJson.string "sA"), ("node-name", WpSpaJson.string "nA"),
          ("direction", WpSpaJson.string "input"), ("target", WpSpaJson.string "spk"),
          ("priority", WpSpaJson.int 0)]) "priority" = some 0 := by decide
    rw [this] at hp
    cases hp
    unfold bounded_priority
    decide
  · have : wp_spa_json_object_get_int (WpSpaJson.object
        [("stream-name", WpSpaJson.string "sB"), ("node-name", WpSpaJson.string "nB"),
          ("direction", WpSpaJson.string "input"), ("target", WpSpaJson.string "spk"),
          ("priority", WpSpaJson.int 100)]) "priority" = some 100 := by decide
    rw [this] at hp
    cases hp
    unfold bounded_priority
    decide

/-- The events of the chain example keep the priorities bounded, and the
registry they lead to is sorted. -/
theorem registry_sorted_chain_example :
    ∃ s, run wp_filters_api_enabled chain_events = some s ∧
      ∀ dir, registry_sorted (filters s dir) := by
  have hrun : (run wp_filters_api_enabled chain_events).isSome = true := by decide
  obtain ⟨s, hs⟩ := Option.isSome_iff_exists.1 hrun
  refine ⟨s, hs, registry_sorted_of_bounded chain_events s ?_ hs⟩
  intro e he
  simp only [chain_events, List.mem_cons, List.mem_singleton, List.not_mem_nil, or_false] at he
  rcases he with rfl | rfl | rfl | rfl | rfl
  · exact chain_metadata_bounded
  all_goals trivial

/-! ## Target and priority of the matching record -/

theorem update_target_target (f : Filter) (j : WpSpaJson) :
    (∀ t, wp_spa_json_object_get_string j "target" = some t →
      (update_target f j).2.target = some t) ∧
    (wp_spa_json_object_get_string j "target" = none → (update_target f j).2.target = none) := by
  unfold update_target
  constructor
  · intro t ht
    rw [ht]
    simp only
    split_ifs with h
    · rfl
    · simp only [not_or, not_not] at h
      exact h.2
  · intro ht
    rw [ht]
    simp only
    split_ifs with h
    · rfl
    · simpa using h

theorem update_priority_priority (f : Filter) (j : WpSpaJson) :
    (∀ p, wp_spa_json_object_get_int j "priority" = some p →
      (update_priority f j).2.priority = p) ∧
    (wp_spa_json_object_get_int j "priority" = none →
      (update_priority f j).2.priority = f.priority) := by
  unfold update_priority
  constructor
  · intro p hp
    rw [hp]
    simp only
    split_ifs with h
    · rfl
    · simpa using h
  · intro hp
    rw [hp]

/-- C11. Target and priority application: when `update_values_from_metadata`
is called on a fully bound filter and `j` is the first record of the array that
matches it, the call returns and afterwards the target of the filter is the
target string of the record, or absent when the record has no target string,
and the priority of the filter is the integer priority of the record, or what
it was when the record has no integer priority. -/
theorem target_priority_application (self : WpFiltersApi) (f : Filter) (m : WpMetadata)
    (stream node : WpNode) (fsn fnn : String) (pre post : List WpSpaJson) (j : WpSpaJson)
    (hm : self.metadata_om = some m) (hs : f.stream = some stream) (hn : f.node = some node)
    (hfsn : wp_pipewire_object_get_property stream PW_KEY_NODE_NAME = some fsn)
    (hfnn : wp_pipewire_object_get_property node PW_KEY_NODE_NAME = some fnn)
    (hcfg : m.configured_filters = some (WpSpaJson.array (pre ++ j :: post)))
    (hpre : ∀ x ∈ pre, record_matches f fsn fnn x = false)
    (hj : record_matches f fsn fnn j = true) :
    ∃ r, update_values_from_metadata self f = some r ∧
      (∀ t, wp_spa_json_object_get_string j "target" = some t → r.2.target = some t) ∧
      (wp_spa_json_object_get_string j "target" = none → r.2.target = none) ∧
      (∀ p, wp_spa_json_object_get_int j "priority" = some p → r.2.priority = p) ∧
      (wp_spa_json_object_get_int j "priority" = none → r.2.priority = f.priority) := by
  refine ⟨apply_record self f j,
    update_values_found self f m stream node fsn fnn pre post j hm hs hn hfsn hfnn hcfg hpre hj,
    ?_⟩
  have ht := update_target_target f j
  have hti := update_target_ident f j
  have hmi := update_mode_ident self (update_target f j).2 j
  have hpi := update_priority_ident (update_mode self (update_target f j).2 j).2 j
  have hp := update_priority_priority (update_mode self (update_target f j).2 j).2 j
  have e1 : (apply_record self f j).2.target = (update_target f j).2.target := by
    simp only [apply_record]
    rw [hpi.2.2.2.2.1, hmi.2.2.2.2.1]
  have e2 : (apply_record self f j).2.priority
      = (update_priority (update_mode self (update_target f j).2 j).2 j).2.priority := by
    simp only [apply_record]
  refine ⟨?_, ?_, ?_, ?_⟩
  · intro t h; rw [e1]; exact ht.1 t h
  · intro h; rw [e1]; exact ht.2 h
  · intro p h; rw [e2]; exact hp.1 p h
  · intro h; rw [e2, hp.2 h, hmi.2.2.2.2.2, hti.2.2.2.2.2]

theorem target_priority_application_witness :
    ∃ r, update_values_from_metadata chain_config_state fresh_A = some r ∧
      r.2.target = some "spk" ∧ r.2.priority = 0 := by
  obtain ⟨r, hr, ht, _, hp, _⟩ :=
    target_priority_application chain_config_state fresh_A chain_metadata
      (example_node 11 "sA" "Stream/Output/Audio" "A") (example_node 10 "nA" "Audio/Sink" "A")
      "sA" "nA" [] [chain_record_B] chain_record_A
      rfl rfl rfl (by decide) (by decide) rfl (by decide) (by decide)
  exact ⟨r, hr, ht "spk" (by decide), hp 0 (by decide)⟩
/-! ## No matching record -/

theorem update_values_loop_no_match (self : WpFiltersApi) (f : Filter) (fsn fnn : String)
    (items : List WpSpaJson) (h : ∀ x ∈ items, record_matches f fsn fnn x = false) :
    update_values_loop self f (some fsn) (some fnn) items = some (false, f) := by
  induction items with
  | nil => rfl
  | cons x rest ih =>
    rw [update_values_loop_skip self f fsn fnn x rest (h x (List.mem_cons_self _ _))]
    exact ih (fun y hy => h y (List.mem_cons_of_mem _ hy))

/-- C12. No-match frame: `update_values_from_metadata` returns false and
leaves the filter as it was (target, enabled and priority included) when the
filter is half bound, when there is no metadata object, when the value
"filters.configured.filters" is missing or is not an array, and when no record
of the array matches the stream node name, the device node name and the
direction of the filter. -/
theorem no_match_frame (self : WpFiltersApi) (f : Filter)
    (h : f.stream = none ∨ f.node = none ∨ self.metadata_om = none ∨
      (∃ m, self.metadata_om = some m ∧
        (m.configured_filters = none ∨
         (∃ v, m.configured_filters = some v ∧ wp_spa_json_is_array v = false) ∨
         (∃ items stream node fsn fnn,
            m.configured_filters = some (WpSpaJson.array items) ∧
            f.stream = some stream ∧ f.node = some node ∧
            wp_pipewire_object_get_property stream PW_KEY_NODE_NAME = some fsn ∧
            wp_pipewire_object_get_property node PW_KEY_NODE_NAME = some fnn ∧
            ∀ x ∈ items, record_matches f fsn fnn x = false)))) :
    update_values_from_metadata self f = some (false, f) := by
  unfold update_values_from_metadata
  rcases h with h | h | h | ⟨m, hm, h⟩
  · split
    · rfl
    · split
      · rename_i hs _
        rw [h] at hs
        cases hs
      · rfl
  · split
    · rfl
    · split
      · rename_i _ hn
        rw [h] at hn
        cases hn
      · rfl
  · simp only [h]
  · simp only [hm]
    rcases h with h | ⟨v, hv, harr⟩ | ⟨items, stream, node, fsn, fnn, hcfg, hs, hn, hfsn, hfnn, hno⟩
    · split
      · simp only [h]
      · rfl
    · split
      · rw [hv]
        cases v <;> first | rfl | (simp [wp_spa_json_is_array] at harr)
      · rfl
    · simp only [hs, hn, hcfg, hfsn, hfnn]
      exact update_values_loop_no_match self f fsn fnn items hno

theorem no_match_frame_witness :
    update_values_from_metadata chain_config_state half_bound_A = some (false, half_bound_A) ∧
    update_values_from_metadata wp_filters_api_enabled fresh_A = some (false, fresh_A) ∧
    update_values_from_metadata (config_state_with none) fresh_A = some (false, fresh_A) ∧
    update_values_from_metadata (config_state_with (some (WpSpaJson.object []))) fresh_A
      = some (false, fresh_A) ∧
    update_values_from_metadata
      (config_state_with (some (WpSpaJson.array [WpSpaJson.null, chain_record_B]))) fresh_A
      = some (false, fresh_A) :=
  ⟨no_match_frame chain_config_state half_bound_A (Or.inl rfl),
    no_match_frame wp_filters_api_enabled fresh_A (Or.inr (Or.inr (Or.inl rfl))),
    no_match_frame (config_state_with none) fresh_A
      (Or.inr (Or.inr (Or.inr ⟨_, rfl, Or.inl rfl⟩))),
    no_match_frame (config_state_with (some (WpSpaJson.object []))) fresh_A
      (Or.inr (Or.inr (Or.inr ⟨_, rfl, Or.inr (Or.inl ⟨_, rfl, rfl⟩)⟩))),
    no_match_frame
      (config_state_with (some (WpSpaJson.array [WpSpaJson.null, chain_record_B]))) fresh_A
      (Or.inr (Or.inr (Or.inr ⟨_, rfl, Or.inr (Or.inr
        ⟨[WpSpaJson.null, chain_record_B],
          example_node 11 "sA" "Stream/Output/Audio" "A", example_node 10 "nA" "Audio/Sink" "A",
          "sA", "nA", rfl, rfl, rfl, by decide, by decide, by decide⟩)⟩)))⟩

/-! ## The record that is applied -/

theorem record_matches_malformed (f : Filter) (fsn fnn : String) (x : WpSpaJson)
    (h : wp_spa_json_is_object x = false ∨
      wp_spa_json_object_get_string x "stream-name" = none ∨
      wp_spa_json_object_get_string x "node-name" = none ∨
      wp_spa_json_object_get_string x "direction" = none) :
    record_matches f fsn fnn x = false := by
  unfold record_matches
  rcases h with h | h | h | h
  · rw [h]; rfl
  · rw [h]; simp
  · rw [h]
    cases wp_spa_json_object_get_string x "stream-name" <;> simp
  · rw [h]
    cases wp_spa_json_object_get_string x "stream-name" <;>
      cases wp_spa_json_object_get_string x "node-name" <;> simp

theorem apply_record_counters (self other : WpFiltersApi) (f : Filter) (j : WpSpaJson)
    (hp : other.n_playback_stream_nodes = self.n_playback_stream_nodes)
    (hc : other.n_capture_stream_nodes = self.n_capture_stream_nodes) :
    apply_record other f j = apply_record self f j := by
  simp only [apply_record, update_mode, hp, hc]

/-- C13. Record selection: for a fully bound filter, `update_values_from_metadata`
applies the first element of the array that is an object, has the fields
stream-name, node-name and direction, and matches the filter. The elements
before it that are not objects, lack one of the three fields or do not match
are passed over, and the elements after it are not read: the result is that
of the array made of this record alone. -/
theorem record_selection (self : WpFiltersApi) (f : Filter) (m : WpMetadata)
    (stream node : WpNode) (fsn fnn : String) (pre post : List WpSpaJson) (j : WpSpaJson)
    (hm : self.metadata_om = some m) (hs : f.stream = some stream) (hn : f.node = some node)
    (hfsn : wp_pipewire_object_get_property stream PW_KEY_NODE_NAME = some fsn)
    (hfnn : wp_pipewire_object_get_property node PW_KEY_NODE_NAME = some fnn)
    (hcfg : m.configured_filters = some (WpSpaJson.array (pre ++ j :: post)))
    (hpre : ∀ x ∈ pre, wp_spa_json_is_object x = false ∨
      wp_spa_json_object_get_string x "stream-name" = none ∨
      wp_spa_json_object_get_string x "node-name" = none ∨
      wp_spa_json_object_get_string x "direction" = none ∨
      record_matches f fsn fnn x = false)
    (hj : record_matches f fsn fnn j = true) :
    update_values_from_metadata self f = some (apply_record self f j) ∧
    update_values_from_metadata
      { self with
        metadata_om := some { m with configured_filters := some (WpSpaJson.array [j]) } } f
      = update_values_from_metadata self f := by
  have hskip : ∀ x ∈ pre, record_matches f fsn fnn x = false := by
    intro x hx
    rcases hpre x hx with h | h | h | h | h
    · exact record_matches_malformed f fsn fnn x (Or.inl h)
    · exact record_matches_malformed f fsn fnn x (Or.inr (Or.inl h))
    · exact record_matches_malformed f fsn fnn x (Or.inr (Or.inr (Or.inl h)))
    · exact record_matches_malformed f fsn fnn x (Or.inr (Or.inr (Or.inr h)))
    · exact h
  have h1 := update_values_found self f m stream node fsn fnn pre post j
    hm hs hn hfsn hfnn hcfg hskip hj
  have h2 := update_values_found
    { self with
      metadata_om := some { m with configured_filters := some (WpSpaJson.array [j]) } } f
    { m with configured_filters := some (WpSpaJson.array [j]) } stream node fsn fnn [] [] j
    rfl hs hn hfsn hfnn rfl (fun x hx => absurd hx (List.not_mem_nil x)) hj
  refine ⟨h1, ?_⟩
  rw [h1, h2]
  exact congrArg some (apply_record_counters self _ f j rfl rfl)

theorem record_selection_witness :
    update_values_from_metadata
        (config_state_with (some (WpSpaJson.array
          [WpSpaJson.null, WpSpaJson.object [("stream-name", WpSpaJson.string "sA")],
            chain_record_B, chain_record_A, mode_record "sA" "nA" "input" "never"]))) fresh_A
      = some (apply_record (config_state_with (some (WpSpaJson.array
          [WpSpaJson.null, WpSpaJson.object [("stream-name", WpSpaJson.string "sA")],
            chain_record_B, chain_record_A, mode_record "sA" "nA" "input" "never"])))
          fresh_A chain_record_A) ∧
    (apply_record (config_state_with none) fresh_A chain_record_A).2
      = { fresh_A with target := some "spk", priority := 0 } :=
  ⟨(record_selection
      (config_state_with (some (WpSpaJson.array
        [WpSpaJson.null, WpSpaJson.object [("stream-name", WpSpaJson.string "sA")],
          chain_record_B, chain_record_A, mode_record "sA" "nA" "input" "never"]))) fresh_A
      { configured_targets := none
        configured_filters := some (WpSpaJson.array
          [WpSpaJson.null, WpSpaJson.object [("stream-name", WpSpaJson.string "sA")],
            chain_record_B, chain_record_A, mode_record "sA" "nA" "input" "never"]) }
      (example_node 11 "sA" "Stream/Output/Audio" "A") (example_node 10 "nA" "Audio/Sink" "A")
      "sA" "nA"
      [WpSpaJson.null, WpSpaJson.object [("stream-name", WpSpaJson.string "sA")], chain_record_B]
      [mode_record "sA" "nA" "input" "never"] chain_record_A
      rfl rfl rfl (by decide) (by decide) rfl (by decide) (by decide)).1,
    by decide⟩
/-! ## The default priority -/

/-- C15. Default priority heuristic: `get_filter_priority` is 300 for a link
group containing "loopback", otherwise 200 for one containing "filter-chain",
otherwise 0 for one containing "echo-cancel", and 100 for a link group
containing none of the three; so it is always one of 0, 100, 200 and 300. -/
theorem get_filter_priority_heuristic (link_group : String) :
    ("loopback".data <:+: link_group.data → get_filter_priority link_group = 300) ∧
    (¬ "loopback".data <:+: link_group.data → "filter-chain".data <:+: link_group.data →
      get_filter_priority link_group = 200) ∧
    (¬ "loopback".data <:+: link_group.data → ¬ "filter-chain".data <:+: link_group.data →
      "echo-cancel".data <:+: link_group.data → get_filter_priority link_group = 0) ∧
    (¬ "loopback".data <:+: link_group.data → ¬ "filter-chain".data <:+: link_group.data →
      ¬ "echo-cancel".data <:+: link_group.data → get_filter_priority link_group = 100) ∧
    (get_filter_priority link_group = 0 ∨ get_filter_priority link_group = 100 ∨
      get_filter_priority link_group = 200 ∨ get_filter_priority link_group = 300) := by
  unfold get_filter_priority strstr
  simp only [decide_eq_true_eq]
  refine ⟨?_, ?_, ?_, ?_, ?_⟩
  · intro h1
    rw [if_pos h1]
  · intro h1 h2
    rw [if_neg h1, if_pos h2]
  · intro h1 h2 h3
    rw [if_neg h1, if_neg h2, if_pos h3]
  · intro h1 h2 h3
    rw [if_neg h1, if_neg h2, if_neg h3]
  · split_ifs <;> simp

theorem get_filter_priority_heuristic_witness :
    get_filter_priority "echo-cancel-filter-chain-loopback-1" = 300 ∧
    get_filter_priority "echo-cancel-filter-chain-1" = 200 ∧
    get_filter_priority "echo-cancel-1" = 0 ∧
    get_filter_priority "my-filter" = 100 :=
  ⟨(get_filter_priority_heuristic "echo-cancel-filter-chain-loopback-1").1 (by decide),
    (get_filter_priority_heuristic "echo-cancel-filter-chain-1").2.1 (by decide) (by decide),
    (get_filter_priority_heuristic "echo-cancel-1").2.2.1 (by decide) (by decide) (by decide),
    (get_filter_priority_heuristic "my-filter").2.2.2.1 (by decide) (by decide) (by decide)⟩
/-! ## Removal of a filter -/

theorem is_filter_enabled_missing (self : WpFiltersApi) (direction key : String)
    (h : ∀ g ∈ filters self (query_direction direction), g.link_group ≠ key) :
    wp_filters_api_is_filter_enabled self direction key = false := by
  unfold wp_filters_api_is_filter_enabled
  rw [find_custom_none key _ h]

theorem filter_keys_ne_self {l : List Filter} {g : String}
    (h : ∀ f ∈ l, f.link_group ≠ g) :
    l.filter (fun f => decide (f.link_group ≠ g)) = l := by
  rw [List.filter_eq_self]
  intro f hf
  simpa using h f hf

/-- The effect of `on_filter_node_removed` on the list of the direction of
the node, when the link groups of the list are pairwise distinct: the filter
of the link group of the node is taken out, the others stay as they are. -/
theorem on_filter_node_removed_list (self : WpFiltersApi) (proxy : WpNode)
    (mc g : String) (dir : WpDirection)
    (hmc : wp_pipewire_object_get_property proxy PW_KEY_MEDIA_CLASS = some mc)
    (hdir : media_class_direction mc = some dir)
    (hg : wp_pipewire_object_get_property proxy PW_KEY_NODE_LINK_GROUP = some g)
    (hnd : ((filters self dir).map Filter.link_group).Nodup) :
    filters (on_filter_node_removed self proxy) dir
        = (filters self dir).filter (fun f => decide (f.link_group ≠ g)) ∧
    ∀ d2, d2 ≠ dir → filters (on_filter_node_removed self proxy) d2 = filters self d2 := by
  unfold on_filter_node_removed
  simp only [hmc, hdir, hg]
  cases hfind : g_list_find_custom (filters self dir) g with
  | none =>
    dsimp only
    exact ⟨(filter_keys_ne_self (find_custom_none_imp g _ hfind)).symm, fun _ _ => rfl⟩
  | some r =>
    obtain ⟨before, found, after⟩ := r
    dsimp only
    obtain ⟨hl, hkey, hbefore⟩ := find_custom_some g _ before after found hfind
    refine ⟨?_, fun d2 hd => filters_set_filters_other self dir d2 _ hd⟩
    rw [filters_set_filters_same]
    rw [hl] at hnd
    rw [List.map_append, List.map_cons, List.nodup_append] at hnd
    have hafter : ∀ f ∈ after, f.link_group ≠ g := by
      intro f hf he
      have h2 := (List.nodup_cons.1 hnd.2.1).1
      apply h2
      rw [hkey, ← he]
      exact List.mem_map.2 ⟨f, hf, rfl⟩
    have hrev : ∀ f ∈ before.reverse, f.link_group ≠ g :=
      fun f hf => hbefore f (List.mem_reverse.1 hf)
    rw [hl, List.filter_append, List.filter_cons, filter_keys_ne_self hrev,
      filter_keys_ne_self hafter]
    simp [hkey]

/-- C17. Remove is unconditional: in a state the module reaches, after
`on_filter_node_removed` for a node with a recognised media class and the link
group `g`, the list of the direction of the node has no filter of the link
group `g`, whatever the role of the node and the other node of the filter
are, so that `wp_filters_api_is_filter_enabled` is false and
`wp_filters_api_get_filter_target` is -1 for `g`; the other filters of the
direction stay as they are and in their order, and the list of the other
direction is the same. -/
theorem remove_unconditional (null_id : Nat) (self : WpFiltersApi) (hr : Reachable self)
    (proxy : WpNode) (mc g : String) (dir : WpDirection)
    (hmc : wp_pipewire_object_get_property proxy PW_KEY_MEDIA_CLASS = some mc)
    (hdir : media_class_direction mc = some dir)
    (hg : wp_pipewire_object_get_property proxy PW_KEY_NODE_LINK_GROUP = some g) :
    (∀ f ∈ filters (on_filter_node_removed self proxy) dir, f.link_group ≠ g) ∧
    (∀ direction, query_direction direction = dir →
      wp_filters_api_is_filter_enabled (on_filter_node_removed self proxy) direction g = false ∧
      wp_filters_api_get_filter_target null_id (on_filter_node_removed self proxy) direction g
        = -1) ∧
    filters (on_filter_node_removed self proxy) dir
      = (filters self dir).filter (fun f => decide (f.link_group ≠ g)) ∧
    (∀ d2, d2 ≠ dir → filters (on_filter_node_removed self proxy) d2 = filters self d2) := by
  obtain ⟨h1, h2⟩ := on_filter_node_removed_list self proxy mc g dir hmc hdir hg
    ((reachable_inv self hr) dir).1
  have hno : ∀ f ∈ filters (on_filter_node_removed self proxy) dir, f.link_group ≠ g := by
    intro f hf
    rw [h1] at hf
    simpa using (List.mem_filter.1 hf).2
  refine ⟨hno, ?_, h1, h2⟩
  intro direction hd
  subst hd
  exact ⟨is_filter_enabled_missing _ direction g hno,
    target_of_missing_key null_id _ direction g hno⟩

theorem remove_unconditional_witness :
    ∃ s, run wp_filters_api_enabled chain_events = some s ∧
      filters s WpDirection.INPUT = [chain_A, chain_B] ∧
      filters (on_filter_node_removed s (example_node 11 "sA" "Stream/Output/Audio" "A"))
        WpDirection.INPUT = [chain_B] ∧
      wp_filters_api_is_filter_enabled
        (on_filter_node_removed s (example_node 11 "sA" "Stream/Output/Audio" "A"))
        "input" "A" = false ∧
      wp_filters_api_get_filter_target 0
        (on_filter_node_removed s (example_node 11 "sA" "Stream/Output/Audio" "A"))
        "input" "A" = -1 := by
  have hrun : (run wp_filters_api_enabled chain_events).isSome = true := by decide
  obtain ⟨s, hs⟩ := Option.isSome_iff_exists.1 hrun
  have h1 : (run wp_filters_api_enabled chain_events).map
      (fun s => filters s WpDirection.INPUT) = some [chain_A, chain_B] := by decide
  rw [hs] at h1
  simp only [Option.map_some', Option.some.injEq] at h1
  obtain ⟨_, h3, h4, _⟩ := remove_unconditional 0 s
    (reachable_run _ _ s Reachable.enabled hs)
    (example_node 11 "sA" "Stream/Output/Audio" "A") "Stream/Output/Audio" "A"
    WpDirection.INPUT (by decide) (by decide) (by decide)
  refine ⟨s, hs, h1, ?_, (h3 "input" (by decide)).1, (h3 "input" (by decide)).2⟩
  rw [h4, h1]
  decide
/-! ## The table of targets -/

theorem lookup_cons (kv : String × WpNode) (rest : List (String × WpNode)) (name : String) :
    g_hash_table_lookup (kv :: rest) name
      = if kv.1 = name then some kv.2 else g_hash_table_lookup rest name := by
  unfold g_hash_table_lookup
  by_cases h : kv.1 = name
  · simp [List.find?_cons, h]
  · simp [List.find?_cons, h]

theorem lookup_insert (table : List (String × WpNode)) (key : String) (node : WpNode)
    (name : String) :
    g_hash_table_lookup (g_hash_table_insert table key node) name
      = if key = name then some node else g_hash_table_lookup table name := by
  induction table with
  | nil =>
    rw [g_hash_table_insert, lookup_cons]
  | cons kv rest ih =>
    rw [g_hash_table_insert]
    by_cases hk : kv.1 = key
    · rw [if_pos hk, lookup_cons, lookup_cons]
      by_cases hn : key = name
      · rw [if_pos hn, if_pos (hk.trans hn)]
      · have : ¬ kv.1 = name := fun e => hn (hk.symm.trans e)
        rw [if_neg hn, if_neg this, if_neg this]
    · rw [if_neg hk, lookup_cons, lookup_cons, ih]
      by_cases hn : kv.1 = name
      · have : ¬ key = name := fun e => hk (hn.trans e.symm)
        rw [if_pos hn, if_neg this, if_pos hn]
      · rw [if_neg hn, if_neg hn]

theorem find_target_node_congr (self other : WpFiltersApi)
    (hn : other.nodes_om = self.nodes_om) (props : WpSpaJson) :
    find_target_node other props = find_target_node self props := by
  unfold find_target_node
  rw [hn]

theorem targets_loop_congr (self other : WpFiltersApi) (hn : other.nodes_om = self.nodes_om)
    (fields : List (String × WpSpaJson)) (acc : Bool × List (String × WpNode)) :
    reevaluate_targets_loop other fields acc = reevaluate_targets_loop self fields acc := by
  induction fields generalizing acc with
  | nil => rfl
  | cons kv rest ih =>
    simp only [reevaluate_targets_loop, find_target_node_congr self other hn]
    split
    · exact ih _
    · exact ih _

theorem targets_loop_lookup (self : WpFiltersApi) (fields : List (String × WpSpaJson))
    (acc : Bool × List (String × WpNode)) (name : String) :
    g_hash_table_lookup (reevaluate_targets_loop self fields acc).2 name
      = match last_resolved self name fields with
        | some n => some n
        | none => g_hash_table_lookup acc.2 name := by
  induction fields generalizing acc with
  | nil => rfl
  | cons kv rest ih =>
    rw [reevaluate_targets_loop, last_resolved]
    cases hf : find_target_node self kv.2 with
    | some target =>
      simp only
      rw [ih]
      cases hl : last_resolved self name rest with
      | some n => rfl
      | none =>
        simp only
        rw [lookup_insert]
        by_cases hk : kv.1 = name
        · rw [if_pos hk, if_pos hk]
        · rw [if_neg hk, if_neg hk]
    | none =>
      simp only
      rw [ih]
      cases hl : last_resolved self name rest with
      | some n => rfl
      | none =>
        simp only
        by_cases hk : kv.1 = name
        · rw [if_pos hk]
        · rw [if_neg hk]

theorem targets_loop_flag (self : WpFiltersApi) (fields : List (String × WpSpaJson))
    (acc : Bool × List (String × WpNode)) (hnd : (fields.map Prod.fst).Nodup)
    (hfresh : ∀ kv ∈ fields, g_hash_table_lookup acc.2 kv.1 = none) :
    (reevaluate_targets_loop self fields acc).1 = acc.1 := by
  induction fields generalizing acc with
  | nil => rfl
  | cons kv rest ih =>
    rw [List.map_cons, List.nodup_cons] at hnd
    have hcurr := hfresh kv (List.mem_cons_self _ _)
    have hne : ∀ x ∈ rest, ¬ kv.1 = x.1 := by
      intro x hx he
      exact hnd.1 (he ▸ List.mem_map.2 ⟨x, hx, rfl⟩)
    rw [reevaluate_targets_loop]
    cases hf : find_target_node self kv.2 with
    | some target =>
      simp only [hcurr]
      rw [ih _ hnd.2]
      intro x hx
      rw [lookup_insert, if_neg (hne x hx)]
      exact hfresh x (List.mem_cons_of_mem _ hx)
    | none =>
      simp only [hcurr]
      rw [ih _ hnd.2]
      · rfl
      · intro x hx
        exact hfresh x (List.mem_cons_of_mem _ hx)

theorem last_resolved_mem (self : WpFiltersApi) (name : String)
    (fields : List (String × WpSpaJson)) (node : WpNode)
    (h : last_resolved self name fields = some node) :
    ∃ props, (name, props) ∈ fields ∧ find_target_node self props = some node := by
  induction fields with
  | nil => cases h
  | cons kv rest ih =>
    rw [last_resolved] at h
    cases hl : last_resolved self name rest with
    | some n =>
      rw [hl] at h
      cases h
      obtain ⟨props, hm, hf⟩ := ih hl
      exact ⟨props, List.mem_cons_of_mem _ hm, hf⟩
    | none =>
      rw [hl] at h
      simp only at h
      by_cases hk : kv.1 = name
      · rw [if_pos hk] at h
        refine ⟨kv.2, ?_, h⟩
        rw [← hk]
        exact List.mem_cons_self _ _
      · rw [if_neg hk] at h
        cases h

theorem last_resolved_some (self : WpFiltersApi) (name : String)
    (fields : List (String × WpSpaJson)) (props : WpSpaJson) (node : WpNode)
    (hm : (name, props) ∈ fields) (hf : find_target_node self props = some node) :
    last_resolved self name fields ≠ none := by
  induction fields with
  | nil => cases hm
  | cons kv rest ih =>
    rw [last_resolved]
    cases hl : last_resolved self name rest with
    | some n => simp
    | none =>
      simp only
      rcases List.mem_cons.1 hm with he | hm2
      · rw [← he]
        simp [hf]
      · exact absurd hl (ih hm2)

theorem last_resolved_distinct (self : WpFiltersApi) (name : String)
    (fields : List (String × WpSpaJson)) (props : WpSpaJson)
    (hnd : (fields.map Prod.fst).Nodup) (hm : (name, props) ∈ fields) :
    last_resolved self name fields = find_target_node self props := by
  induction fields with
  | nil => cases hm
  | cons kv rest ih =>
    rw [List.map_cons, List.nodup_cons] at hnd
    rw [last_resolved]
    rcases List.mem_cons.1 hm with he | hm2
    · have hrest : last_resolved self name rest = none := by
        cases hl : last_resolved self name rest with
        | none => rfl
        | some n =>
          obtain ⟨p2, hp2, _⟩ := last_resolved_mem self name rest n hl
          exact absurd (List.mem_map.2 ⟨(name, p2), hp2, rfl⟩) (by rw [← he] at hnd; exact hnd.1)
      rw [hrest, ← he]
      simp
    · have hk : ¬ kv.1 = name := by
        intro e
        exact hnd.1 (e ▸ List.mem_map.2 ⟨(name, props), hm2, rfl⟩)
      rw [ih hnd.2 hm2]
      cases find_target_node self props with
      | some n => rfl
      | none => simp [hk]
theorem reevaluate_targets_frame (self : WpFiltersApi) :
    (reevaluate_targets self).2
      = { self with targets := (reevaluate_targets self).2.targets } := by
  unfold reevaluate_targets
  dsimp only
  split
  · rfl
  · split <;> rfl

theorem reevaluate_targets_object (self : WpFiltersApi) (m : WpMetadata)
    (fields : List (String × WpSpaJson)) (hm : self.metadata_om = some m)
    (hf : m.configured_targets = some (WpSpaJson.object fields)) :
    (reevaluate_targets self).1 = (reevaluate_targets_loop self fields (false, [])).1 ∧
    (reevaluate_targets self).2.targets
      = (reevaluate_targets_loop self fields (false, [])).2 := by
  have k := targets_loop_congr self { self with targets := [] } rfl fields (false, [])
  unfold reevaluate_targets
  dsimp only
  split
  · rename_i h
    rw [hm] at h
    cases h
  · rename_i m2 h
    rw [hm] at h
    cases h
    split
    · rename_i h2
      rw [hf] at h2
      cases h2
    · rename_i f2 h2
      rw [hf] at h2
      cases h2
      exact ⟨congrArg Prod.fst k, congrArg Prod.snd k⟩
    · rename_i v hne h2
      rw [hf] at h2
      cases h2
      exact absurd rfl (hne fields)

theorem reevaluate_targets_empty (self : WpFiltersApi)
    (h : self.metadata_om = none ∨
      ∃ m, self.metadata_om = some m ∧
        ∀ fields, m.configured_targets ≠ some (WpSpaJson.object fields)) :
    (reevaluate_targets self).1 = false ∧ (reevaluate_targets self).2.targets = [] := by
  unfold reevaluate_targets
  dsimp only
  rcases h with h | ⟨m, hmm, hno⟩
  · split
    · exact ⟨rfl, rfl⟩
    · rename_i h2
      rw [h] at h2
      cases h2
  · split
    · exact ⟨rfl, rfl⟩
    · rename_i m2 h2
      rw [hmm] at h2
      cases h2
      split
      · exact ⟨rfl, rfl⟩
      · rename_i fields hf
        exact absurd hf (hno fields)
      · exact ⟨rfl, rfl⟩

theorem reevaluate_targets_congr (self other : WpFiltersApi)
    (hm : other.metadata_om = self.metadata_om) (hn : other.nodes_om = self.nodes_om) :
    (reevaluate_targets other).1 = (reevaluate_targets self).1 ∧
    (reevaluate_targets other).2.targets = (reevaluate_targets self).2.targets := by
  by_cases hobj : ∃ m fields, self.metadata_om = some m ∧
      m.configured_targets = some (WpSpaJson.object fields)
  · obtain ⟨m, fields, hmm, hf⟩ := hobj
    obtain ⟨a1, a2⟩ := reevaluate_targets_object self m fields hmm hf
    obtain ⟨b1, b2⟩ := reevaluate_targets_object other m fields (hm.trans hmm) hf
    rw [a1, a2, b1, b2, targets_loop_congr self other hn]
    exact ⟨rfl, rfl⟩
  · have hself : self.metadata_om = none ∨
        ∃ m, self.metadata_om = some m ∧
          ∀ fields, m.configured_targets ≠ some (WpSpaJson.object fields) := by
      cases hmd : self.metadata_om with
      | none => exact Or.inl rfl
      | some m =>
        right
        refine ⟨m, rfl, ?_⟩
        intro fields hf
        exact hobj ⟨m, fields, hmd, hf⟩
    have hother : other.metadata_om = none ∨
        ∃ m, other.metadata_om = some m ∧
          ∀ fields, m.configured_targets ≠ some (WpSpaJson.object fields) := by
      rw [hm]
      exact hself
    obtain ⟨a1, a2⟩ := reevaluate_targets_empty self hself
    obtain ⟨b1, b2⟩ := reevaluate_targets_empty other hother
    rw [a1, a2, b1, b2]
    exact ⟨rfl, rfl⟩

/-- C19. The table of targets is rebuilt wholesale: what `reevaluate_targets`
leaves in it depends on the metadata and the live nodes only, not on what it
held before. A name is in it exactly when a field of that name in the value
"filters.configured.targets" has a predicate that `find_target_node` resolves,
and is then mapped to the node of the last such field, which for pairwise
distinct names is the node of the one field of the name; a name whose
predicates resolve to no node and a name that is not configured have no
entry, and nothing is left when the value is missing or is not an object. -/
theorem target_cache_rebuilt (self other : WpFiltersApi)
    (hm : other.metadata_om = self.metadata_om) (hn : other.nodes_om = self.nodes_om) :
    (reevaluate_targets other).2.targets = (reevaluate_targets self).2.targets ∧
    (∀ m fields, self.metadata_om = some m →
      m.configured_targets = some (WpSpaJson.object fields) →
      (∀ name, g_hash_table_lookup (reevaluate_targets self).2.targets name
        = last_resolved self name fields) ∧
      (∀ name node, g_hash_table_lookup (reevaluate_targets self).2.targets name = some node →
        ∃ props, (name, props) ∈ fields ∧ find_target_node self props = some node) ∧
      (∀ name props node, (name, props) ∈ fields → find_target_node self props = some node →
        g_hash_table_lookup (reevaluate_targets self).2.targets name ≠ none) ∧
      ((fields.map Prod.fst).Nodup → ∀ name props, (name, props) ∈ fields →
        g_hash_table_lookup (reevaluate_targets self).2.targets name
          = find_target_node self props) ∧
      (∀ name, (∀ props, (name, props) ∈ fields → find_target_node self props = none) →
        g_hash_table_lookup (reevaluate_targets self).2.targets name = none)) ∧
    ((self.metadata_om = none ∨
        ∃ m, self.metadata_om = some m ∧
          ∀ fields, m.configured_targets ≠ some (WpSpaJson.object fields)) →
      (reevaluate_targets self).2.targets = []) := by
  refine ⟨(reevaluate_targets_congr self other hm hn).2, ?_, ?_⟩
  · intro m fields hmm hf
    have hlook : ∀ name, g_hash_table_lookup (reevaluate_targets self).2.targets name
        = last_resolved self name fields := by
      intro name
      rw [(reevaluate_targets_object self m fields hmm hf).2, targets_loop_lookup]
      cases last_resolved self name fields <;> rfl
    refine ⟨hlook, ?_, ?_, ?_, ?_⟩
    · intro name node h
      rw [hlook] at h
      exact last_resolved_mem self name fields node h
    · intro name props node hmem hfind
      rw [hlook]
      exact last_resolved_some self name fields props node hmem hfind
    · intro hnd name props hmem
      rw [hlook]
      exact last_resolved_distinct self name fields props hnd hmem
    · intro name hall
      rw [hlook]
      cases hl : last_resolved self name fields with
      | none => rfl
      | some node =>
        obtain ⟨props, hmem, hfind⟩ := last_resolved_mem self name fields node hl
        rw [hall props hmem] at hfind
        cases hfind
  · intro h
    exact (reevaluate_targets_empty self h).2

theorem target_cache_rebuilt_witness :
    (reevaluate_targets (spk_state
        [device_node 50 "speaker-a" "Audio/Sink", device_node 51 "speaker-b" "Audio/Sink"]
        [])).2.targets
      = (reevaluate_targets (spk_state
        [device_node 50 "speaker-a" "Audio/Sink", device_node 51 "speaker-b" "Audio/Sink"]
        [("spk", device_node 50 "speaker-a" "Audio/Sink"),
          ("old", device_node 50 "speaker-a" "Audio/Sink")])).2.targets ∧
    (reevaluate_targets (spk_state
        [device_node 50 "speaker-a" "Audio/Sink", device_node 51 "speaker-b" "Audio/Sink"]
        [("spk", device_node 50 "speaker-a" "Audio/Sink"),
          ("old", device_node 50 "speaker-a" "Audio/Sink")])).2.targets
      = [("spk", device_node 51 "speaker-b" "Audio/Sink")] :=
  ⟨(target_cache_rebuilt
      (spk_state
        [device_node 50 "speaker-a" "Audio/Sink", device_node 51 "speaker-b" "Audio/Sink"]
        [("spk", device_node 50 "speaker-a" "Audio/Sink"),
          ("old", device_node 50 "speaker-a" "Audio/Sink")])
      (spk_state
        [device_node 50 "speaker-a" "Audio/Sink", device_node 51 "speaker-b" "Audio/Sink"]
        [])
      rfl rfl).1,
    by decide⟩

/-- With pairwise distinct target names `reevaluate_targets` never reports a
change: the table is emptied before the loop, so no name has a current
target when its field is read. -/
theorem reevaluate_targets_flag_distinct (self : WpFiltersApi)
    (h : ∀ m fields, self.metadata_om = some m →
      m.configured_targets = some (WpSpaJson.object fields) → (fields.map Prod.fst).Nodup) :
    (reevaluate_targets self).1 = false := by
  by_cases hobj : ∃ m fields, self.metadata_om = some m ∧
      m.configured_targets = some (WpSpaJson.object fields)
  · obtain ⟨m, fields, hmm, hf⟩ := hobj
    rw [(reevaluate_targets_object self m fields hmm hf).1,
      targets_loop_flag self fields (false, []) (h m fields hmm hf) (fun _ _ => rfl)]
  · apply (reevaluate_targets_empty self _).1
    cases hmd : self.metadata_om with
    | none => exact Or.inl rfl
    | some m =>
      right
      refine ⟨m, rfl, ?_⟩
      intro fields hf
      exact hobj ⟨m, fields, hmd, hf⟩

/-- C20. Target change detection fails on the code: after the events
`target_change_events` the table maps "spk" to the node 50; when the metadata
changes so that "spk" is the node named "speaker-b", `reevaluate_targets`
resolves "spk" to the node 51, whose id differs from the cached one, and
returns false, so that `on_metadata_changed` schedules no notification. It also
returns false when the cached name resolves to no node any more. -/
theorem target_change_not_detected :
    ∃ s1 s2, run wp_filters_api_enabled target_change_events = some s1 ∧
      s1.targets = [("spk", device_node 50 "speaker-a" "Audio/Sink")] ∧
      handle s1 (Event.metadata_changed (spk_metadata "speaker-b")) = some s2 ∧
      s2.targets = [("spk", device_node 51 "speaker-b" "Audio/Sink")] ∧
      (reevaluate_targets { s1 with metadata_om := some (spk_metadata "speaker-b") }).1 = false ∧
      s2.pending_syncs = s1.pending_syncs ∧
      (reevaluate_targets
        (spk_state [] [("spk", device_node 51 "speaker-b" "Audio/Sink")])).1 = false ∧
      (reevaluate_targets
        (spk_state [] [("spk", device_node 51 "speaker-b" "Audio/Sink")])).2.targets = [] := by
  have hrun : (run wp_filters_api_enabled target_change_events).isSome = true := by decide
  obtain ⟨s1, hs1⟩ := Option.isSome_iff_exists.1 hrun
  have hrun2 : ((run wp_filters_api_enabled target_change_events).bind
      (fun s => handle s (Event.metadata_changed (spk_metadata "speaker-b")))).isSome
      = true := by decide
  rw [hs1, Option.some_bind] at hrun2
  obtain ⟨s2, hs2⟩ := Option.isSome_iff_exists.1 hrun2
  have h1 : (run wp_filters_api_enabled target_change_events).map (fun s => s.targets)
      = some [("spk", device_node 50 "speaker-a" "Audio/Sink")] := by decide
  have h2 : ((run wp_filters_api_enabled target_change_events).bind
      (fun s => handle s (Event.metadata_changed (spk_metadata "speaker-b")))).map
      (fun s => s.targets) = some [("spk", device_node 51 "speaker-b" "Audio/Sink")] := by
    decide
  have h3 : (run wp_filters_api_enabled target_change_events).map
      (fun s => (reevaluate_targets
        { s with metadata_om := some (spk_metadata "speaker-b") }).1) = some false := by
    decide
  have h4 : ((run wp_filters_api_enabled target_change_events).bind
      (fun s => (handle s (Event.metadata_changed (spk_metadata "speaker-b"))).map
        (fun s2 => decide (s2.pending_syncs = s.pending_syncs)))) = some true := by
    decide
  rw [hs1] at h1 h2 h3 h4
  rw [Option.some_bind, hs2] at h2 h4
  simp only [Option.map_some', Option.some.injEq, decide_eq_true_eq] at h1 h2 h3 h4
  exact ⟨s1, s2, hs1, h1, hs2, h2, h3, h4, by decide, by decide⟩
/-! ## Creation of a filter -/

theorem update_values_half_bound (self : WpFiltersApi) (f : Filter)
    (h : f.stream = none ∨ f.node = none) :
    update_values_from_metadata self f = some (false, f) := by
  unfold update_values_from_metadata
  split
  · rfl
  · split
    · rename_i hs hn
      rcases h with h | h
      · rw [h] at hs; cases hs
      · rw [h] at hn; cases hn
    · rfl

theorem insert_sorted_split {α : Type} (cmp : α → α → Int) (l : List α) (x : α) :
    ∃ l1 l2, l = l1 ++ l2 ∧ g_list_insert_sorted cmp l x = l1 ++ x :: l2 ∧
      (∀ y ∈ l1, cmp x y > 0) ∧ (∀ y, l2.head? = some y → cmp x y ≤ 0) := by
  induction l with
  | nil => exact ⟨[], [], rfl, rfl, by simp, by simp⟩
  | cons a l ih =>
    by_cases hc : cmp x a > 0
    · obtain ⟨l1, l2, hl, hins, h1, h2⟩ := ih
      refine ⟨a :: l1, l2, by rw [hl]; rfl, ?_, ?_, h2⟩
      · rw [g_list_insert_sorted, if_pos hc, hins]
        rfl
      · intro y hy
        rcases List.mem_cons.1 hy with rfl | hy2
        · exact hc
        · exact h1 y hy2
    · refine ⟨[], a :: l, rfl, ?_, by simp, ?_⟩
      · rw [g_list_insert_sorted, if_neg hc]
        rfl
      · intro y hy
        simp only [List.head?_cons, Option.some.injEq] at hy
        rw [← hy]
        omega

/-- The creation case of `on_filter_node_added`: for a node of a recognised
media class whose link group has no filter in the direction of the node, the
call returns, the new filter is `filter_new` of the node (the node in its
role, the other role absent, enabled, no target, the default priority)
whatever the configuration is, and it goes between two parts of the list,
which stay as they are: after the filters that `filter_compare_func` puts
before it and before the first one it does not. When the list was sorted and
the priorities are bounded, the new list is sorted. -/
theorem filter_node_added_creates (self : WpFiltersApi) (proxy : WpNode)
    (mc key : String) (dir : WpDirection)
    (hmc : wp_pipewire_object_get_property proxy PW_KEY_MEDIA_CLASS = some mc)
    (hdir : media_class_direction mc = some dir)
    (hkey : wp_pipewire_object_get_property proxy PW_KEY_NODE_LINK_GROUP = some key)
    (hno : ∀ f ∈ filters self dir, f.link_group ≠ key) :
    ∃ l1 l2, filters self dir = l1 ++ l2 ∧
      on_filter_node_added self proxy
        = some (set_filters self dir
            (l1 ++ filter_new key dir
              (decide (mc = "Stream/Output/Audio" ∨ mc = "Stream/Input/Audio")) proxy :: l2)) ∧
      (∀ y ∈ l1, filter_compare_func (filter_new key dir
        (decide (mc = "Stream/Output/Audio" ∨ mc = "Stream/Input/Audio")) proxy) y > 0) ∧
      (∀ y, l2.head? = some y → filter_compare_func (filter_new key dir
        (decide (mc = "Stream/Output/Audio" ∨ mc = "Stream/Input/Audio")) proxy) y ≤ 0) ∧
      (registry_sorted (filters self dir) →
        (∀ f ∈ filters self dir, bounded_priority f.priority) →
        registry_sorted (l1 ++ filter_new key dir
          (decide (mc = "Stream/Output/Audio" ∨ mc = "Stream/Input/Audio")) proxy :: l2)) := by
  obtain ⟨l1, l2, hl, hins, h1, h2⟩ := insert_sorted_split filter_compare_func
    (filters self dir)
    (filter_new key dir (decide (mc = "Stream/Output/Audio" ∨ mc = "Stream/Input/Audio")) proxy)
  have hu := update_values_half_bound self
    (filter_new key dir (decide (mc = "Stream/Output/Audio" ∨ mc = "Stream/Input/Audio")) proxy)
    (by
      unfold filter_new
      by_cases hst : (decide (mc = "Stream/Output/Audio" ∨ mc = "Stream/Input/Audio")) = true
      · right; simp [hst]
      · left; simp [hst])
  refine ⟨l1, l2, hl, ?_, h1, h2, ?_⟩
  · unfold on_filter_node_added
    simp only [hmc, hdir, hkey]
    rw [find_custom_none key _ hno]
    simp only [hu, hins]
  · intro hs hb
    rw [← hins]
    exact insert_sorted_sorted filter_compare_func filter_le
      (fun f => bounded_priority f.priority) compare_le_iff filter_le_total filter_le_trans
      _ _ hb (get_filter_priority_bounded key) hs

/-- C16. The creation case of `on_filter_node_added` does not always keep the
list sorted: after the events `lowest_events` the list of the input direction
is the sorted list of X alone (priority -2147483648); the device node of a new
link group Y then gets a filter of priority 100 that `g_list_insert_sorted`
puts before X, because `filter_compare_func` computes 100 - (-2147483648) in
`gint` and the difference wraps around to a negative number. -/
theorem creation_position_overflow :
    ∃ s0 s1, run wp_filters_api_enabled lowest_events = some s0 ∧
      (filters s0 WpDirection.INPUT).map (fun f => (f.link_group, f.priority))
        = [("X", -2147483648)] ∧
      registry_sorted (filters s0 WpDirection.INPUT) ∧
      handle s0 (Event.filter_node_added (example_node 40 "nY" "Audio/Sink" "Y")) = some s1 ∧
      (filters s1 WpDirection.INPUT).map (fun f => (f.link_group, f.priority))
        = [("Y", 100), ("X", -2147483648)] ∧
      ¬ registry_sorted (filters s1 WpDirection.INPUT) := by
  have hrun : (run wp_filters_api_enabled lowest_events).isSome = true := by decide
  obtain ⟨s0, hs0⟩ := Option.isSome_iff_exists.1 hrun
  have hrun2 : ((run wp_filters_api_enabled lowest_events).bind
      (fun s => handle s (Event.filter_node_added (example_node 40 "nY" "Audio/Sink" "Y")))).isSome
      = true := by decide
  rw [hs0, Option.some_bind] at hrun2
  obtain ⟨s1, hs1⟩ := Option.isSome_iff_exists.1 hrun2
  have h1 : (run wp_filters_api_enabled lowest_events).map
      (fun s => (filters s WpDirection.INPUT).map (fun f => (f.link_group, f.priority)))
      = some [("X", -2147483648)] := by decide
  have h2 : (run wp_filters_api_enabled lowest_events).map
      (fun s => decide (registry_sorted (filters s WpDirection.INPUT))) = some true := by
    decide
  have h3 : ((run wp_filters_api_enabled lowest_events).bind
      (fun s => handle s (Event.filter_node_added (example_node 40 "nY" "Audio/Sink" "Y")))).map
      (fun s => (filters s WpDirection.INPUT).map (fun f => (f.link_group, f.priority)))
      = some [("Y", 100), ("X", -2147483648)] := by decide
  have h4 : ((run wp_filters_api_enabled lowest_events).bind
      (fun s => handle s (Event.filter_node_added (example_node 40 "nY" "Audio/Sink" "Y")))).map
      (fun s => decide (registry_sorted (filters s WpDirection.INPUT))) = some false := by
    decide
  rw [hs0] at h1 h2 h3 h4
  rw [Option.some_bind, hs1] at h3 h4
  simp only [Option.map_some', Option.some.injEq, decide_eq_true_eq,
    decide_eq_false_iff_not] at h1 h2 h3 h4
  exact ⟨s0, s1, hs0, h1, h2, hs1, h3, h4⟩
/-! ## Existence of a filter -/

/-- C18, the claim as stated fails: after the device node and the stream node
of A have appeared and the stream node has been removed, the registry has no
filter for A although the device node, a member of the group, has appeared and
has not been removed. -/
theorem existence_counterexample :
    ∃ s, run wp_filters_api_enabled half_removed_events = some s ∧
      ¬ (has_filter s WpDirection.INPUT "A" ↔
        ∃ n, filter_member n WpDirection.INPUT "A" = true ∧
          last_node_event n half_removed_events = some true) := by
  have hrun : (run wp_filters_api_enabled half_removed_events).isSome = true := by decide
  obtain ⟨s, hs⟩ := Option.isSome_iff_exists.1 hrun
  have h1 : (run wp_filters_api_enabled half_removed_events).map
      (fun s => filters s WpDirection.INPUT) = some [] := by decide
  rw [hs] at h1
  simp only [Option.map_some', Option.some.injEq] at h1
  refine ⟨s, hs, ?_⟩
  intro hiff
  have hbound : ∃ n, filter_member n WpDirection.INPUT "A" = true ∧
      last_node_event n half_removed_events = some true :=
    ⟨example_node 10 "nA" "Audio/Sink" "A", by decide, by decide⟩
  have := hiff.2 hbound
  unfold has_filter at this
  rw [h1] at this
  simp at this
theorem keys_perm_of_idents (l l2 : List Filter)
    (hp : (l2.map (fun f => (f.link_group, f.direction))).Perm
      (l.map (fun f => (f.link_group, f.direction)))) :
    (l2.map Filter.link_group).Perm (l.map Filter.link_group) := by
  have h1 : (l2.map Filter.link_group)
      = (l2.map (fun f => (f.link_group, f.direction))).map Prod.fst := by
    simp [List.map_map, Function.comp]
  have h2 : (l.map Filter.link_group)
      = (l.map (fun f => (f.link_group, f.direction))).map Prod.fst := by
    simp [List.map_map, Function.comp]
  rw [h1, h2]
  exact hp.map Prod.fst

theorem reevaluate_filters_keys (self : WpFiltersApi) (d : WpDirection)
    (r : Bool × WpFiltersApi) (h : reevaluate_filters self d = some r) (dir : WpDirection) :
    ((filters r.2 dir).map Filter.link_group).Perm ((filters self dir).map Filter.link_group) := by
  unfold reevaluate_filters at h
  cases hl : reevaluate_filters_loop self (filters self d) with
  | none => simp only [hl] at h; cases h
  | some rl =>
    simp only [hl] at h
    have hmap := reevaluate_filters_loop_map self _ rl hl
    by_cases hd : dir = d
    · subst hd
      split at h
      · cases h
        rw [filters_set_filters_same]
        apply keys_perm_of_idents
        rw [← hmap]
        exact (sort_perm filter_compare_func rl.2).map _
      · cases h
        rw [filters_set_filters_same]
        apply keys_perm_of_idents
        rw [hmap]
    · split at h
      · cases h
        rw [filters_set_filters_other _ _ _ _ hd]
      · cases h
        rw [filters_set_filters_other _ _ _ _ hd]

theorem reevaluate_both_keys (self : WpFiltersApi) (r : Bool × WpFiltersApi)
    (h : reevaluate_both self = some r) (dir : WpDirection) :
    ((filters r.2 dir).map Filter.link_group).Perm ((filters self dir).map Filter.link_group) := by
  unfold reevaluate_both at h
  cases h0 : reevaluate_filters self WpDirection.INPUT with
  | none => simp only [h0] at h; cases h
  | some r0 =>
    simp only [h0] at h
    cases h1 : reevaluate_filters r0.2 WpDirection.OUTPUT with
    | none => simp only [h1] at h; cases h
    | some r1 =>
      simp only [h1] at h
      cases h
      exact (reevaluate_filters_keys r0.2 _ r1 h1 dir).trans
        (reevaluate_filters_keys self _ r0 h0 dir)

theorem on_metadata_changed_keys (self next : WpFiltersApi)
    (h : on_metadata_changed self = some next) (dir : WpDirection) :
    ((filters next dir).map Filter.link_group).Perm ((filters self dir).map Filter.link_group) := by
  unfold on_metadata_changed at h
  simp only at h
  cases hb : reevaluate_both (reevaluate_targets self).2 with
  | none => simp only [hb] at h; cases h
  | some r =>
    simp only [hb] at h
    have hr := reevaluate_both_keys _ r hb dir
    rw [filters_reevaluate_targets] at hr
    split at h
    · cases h
      have e : filters (schedule_changed r.2) dir = filters r.2 dir := by cases dir <;> rfl
      rw [e]
      exact hr
    · cases h
      exact hr

theorem on_stream_nodes_changed_keys (self next : WpFiltersApi)
    (h : on_stream_nodes_changed self = some next) (dir : WpDirection) :
    ((filters next dir).map Filter.link_group).Perm ((filters self dir).map Filter.link_group) := by
  unfold on_stream_nodes_changed at h
  cases hb : reevaluate_both self with
  | none => simp only [hb] at h; cases h
  | some r =>
    simp only [hb] at h
    have hr := reevaluate_both_keys _ r hb dir
    split at h
    · cases h
      have e : filters (schedule_changed r.2) dir = filters r.2 dir := by cases dir <;> rfl
      rw [e]
      exact hr
    · cases h
      exact hr

/-- An event that is neither the appearance nor the removal of a filter node
leaves the link groups of both lists as they are. -/
theorem handle_keys_other (self next : WpFiltersApi) (e : Event)
    (h : handle self e = some next)
    (hadd : ∀ p, e ≠ Event.filter_node_added p) (hrem : ∀ p, e ≠ Event.filter_node_removed p)
    (dir : WpDirection) :
    ((filters next dir).map Filter.link_group).Perm ((filters self dir).map Filter.link_group) := by
  have hcongr : ∀ s2 : WpFiltersApi, filters s2 dir = filters self dir →
      ((filters s2 dir).map Filter.link_group).Perm ((filters self dir).map Filter.link_group) := by
    intro s2 he
    rw [he]
  cases e with
  | metadata_added m =>
    have := on_metadata_changed_keys _ next h dir
    have e2 : filters { self with metadata_om := some m } dir = filters self dir := by
      cases dir <;> rfl
    rw [e2] at this
    exact this
  | metadata_changed m =>
    have := on_metadata_changed_keys _ next h dir
    have e2 : filters { self with metadata_om := some m } dir = filters self dir := by
      cases dir <;> rfl
    rw [e2] at this
    exact this
  | stream_node_added proxy =>
    simp only [handle, on_stream_node_added] at h
    split at h
    · cases h
    · split at h
      · cases h; exact hcongr _ (by cases dir <;> rfl)
      · split at h
        · cases h; exact hcongr _ (by cases dir <;> rfl)
        · cases h; exact List.Perm.refl _
  | stream_node_removed proxy =>
    simp only [handle, on_stream_node_removed] at h
    split at h
    · cases h
    · split at h
      · cases h; exact hcongr _ (by cases dir <;> rfl)
      · split at h
        · cases h; exact hcongr _ (by cases dir <;> rfl)
        · cases h; exact List.Perm.refl _
  | stream_nodes_changed => exact on_stream_nodes_changed_keys self next h dir
  | node_added proxy =>
    simp only [handle, on_node_added] at h
    cases h
    exact hcongr _ ((filters_reevaluate_targets _ dir).trans (by cases dir <;> rfl))
  | node_removed proxy =>
    simp only [handle, on_node_removed] at h
    cases h
    exact hcongr _ ((filters_reevaluate_targets _ dir).trans (by cases dir <;> rfl))
  | nodes_changed =>
    simp only [handle] at h
    cases h
    exact hcongr _ (by cases dir <;> rfl)
  | filter_node_added proxy => exact absurd rfl (hadd proxy)
  | filter_node_removed proxy => exact absurd rfl (hrem proxy)
  | filter_nodes_changed =>
    simp only [handle] at h
    cases h
    exact hcongr _ (by cases dir <;> rfl)
  | sync_done finished =>
    simp only [handle] at h
    split at h
    · cases h; exact List.Perm.refl _
    · cases h
      unfold sync_changed
      split <;> exact hcongr _ (by cases dir <;> rfl)
theorem filter_member_iff (p : WpNode) (mc k : String) (d : WpDirection)
    (hmc : wp_pipewire_object_get_property p PW_KEY_MEDIA_CLASS = some mc)
    (hdir : media_class_direction mc = some d)
    (hk : wp_pipewire_object_get_property p PW_KEY_NODE_LINK_GROUP = some k)
    (dir : WpDirection) (g : String) :
    filter_member p dir g = true ↔ (d = dir ∧ k = g) := by
  unfold filter_member
  simp only [hmc, hdir, hk, Bool.and_eq_true, decide_eq_true_eq, Option.some.injEq]

theorem on_filter_node_added_keys (self next : WpFiltersApi) (p : WpNode)
    (h : on_filter_node_added self p = some next) (dir : WpDirection) (g : String) :
    g ∈ (filters next dir).map Filter.link_group ↔
      (filter_member p dir g = true ∨ g ∈ (filters self dir).map Filter.link_group) := by
  unfold on_filter_node_added at h
  split at h
  · rename_i hmc
    cases h
    simp [filter_member, hmc]
  · rename_i mc hmc
    split at h
    · rename_i hd
      cases h
      simp [filter_member, hmc, hd]
    · rename_i d hd
      simp only at h
      split at h
      · rename_i hk
        cases h
        simp [filter_member, hmc, hd, hk]
      · rename_i key hk
        rw [filter_member_iff p mc key d hmc hd hk dir g]
        split at h
        · split at h
          · cases h
          · rename_i r hu
            cases h
            have hi := update_values_ident self _ r hu
            have hkey : r.2.link_group = key := by rw [hi.1]; rfl
            by_cases hdd : dir = d
            · subst hdd
              rw [filters_set_filters_same,
                ((insert_sorted_perm filter_compare_func _ r.2).map
                  Filter.link_group).mem_iff,
                List.map_cons, List.mem_cons, hkey]
              constructor
              · rintro (h1 | h1)
                · exact Or.inl ⟨rfl, h1.symm⟩
                · exact Or.inr h1
              · rintro (h1 | h1)
                · exact Or.inl h1.2.symm
                · exact Or.inr h1
            · rw [filters_set_filters_other _ _ _ _ hdd]
              constructor
              · intro h1; exact Or.inr h1
              · rintro (h1 | h1)
                · exact absurd h1.1.symm hdd
                · exact h1
        · rename_i before found after hfind
          obtain ⟨hl, hfk, _⟩ := find_custom_some key _ before after found hfind
          split at h
          · cases h
          · rename_i r hu
            cases h
            have hi := update_values_ident self _ r hu
            have hkey : r.2.link_group = key := by
              rw [hi.1, ← hfk]
              split <;> rfl
            have hmemkey : key ∈ (filters self d).map Filter.link_group := by
              rw [hl]
              simp [hfk]
            have hsame : (before.reverse ++ r.2 :: after).map Filter.link_group
                = (filters self d).map Filter.link_group := by
              rw [hl]
              simp [hkey, hfk]
            by_cases hdd : dir = d
            · subst hdd
              rw [filters_set_filters_same,
                ((sort_perm filter_compare_func _).map Filter.link_group).mem_iff, hsame]
              constructor
              · intro h1; exact Or.inr h1
              · rintro (h1 | h1)
                · rw [← h1.2]; exact hmemkey
                · exact h1
            · rw [filters_set_filters_other _ _ _ _ hdd]
              constructor
              · intro h1; exact Or.inr h1
              · rintro (h1 | h1)
                · exact absurd h1.1.symm hdd
                · exact h1

theorem on_filter_node_removed_keys (self : WpFiltersApi) (p : WpNode)
    (hinv : registry_inv self) (dir : WpDirection) (g : String) :
    g ∈ (filters (on_filter_node_removed self p) dir).map Filter.link_group ↔
      (filter_member p dir g = false ∧ g ∈ (filters self dir).map Filter.link_group) := by
  cases hmc : wp_pipewire_object_get_property p PW_KEY_MEDIA_CLASS with
  | none => simp [on_filter_node_removed, filter_member, hmc]
  | some mc =>
    cases hd : media_class_direction mc with
    | none => simp [on_filter_node_removed, filter_member, hmc, hd]
    | some d =>
      cases hk : wp_pipewire_object_get_property p PW_KEY_NODE_LINK_GROUP with
      | none => simp [on_filter_node_removed, filter_member, hmc, hd, hk]
      | some k =>
        obtain ⟨h1, h2⟩ := on_filter_node_removed_list self p mc k d hmc hd hk (hinv d).1
        have hm := filter_member_iff p mc k d hmc hd hk dir g
        have hmf : filter_member p dir g = false ↔ ¬ (d = dir ∧ k = g) := by
          rw [← hm]
          simp
        rw [hmf]
        by_cases hdd : dir = d
        · subst hdd
          rw [h1]
          simp only [List.mem_map, List.mem_filter, decide_eq_true_eq, true_and]
          constructor
          · rintro ⟨f, ⟨hf, hne⟩, hfg⟩
            exact ⟨fun e => hne (hfg.trans e.symm), f, hf, hfg⟩
          · rintro ⟨hne, f, hf, hfg⟩
            exact ⟨f, ⟨hf, fun e => hne (e.symm.trans hfg)⟩, hfg⟩
        · rw [h2 dir hdd]
          constructor
          · intro h3
            exact ⟨fun e => hdd e.1.symm, h3⟩
          · intro h3
            exact h3.2

/-- The effect of one event on the existence of the filter of a group. -/
theorem handle_has_filter (self next : WpFiltersApi) (e : Event)
    (h : handle self e = some next) (hinv : registry_inv self)
    (dir : WpDirection) (g : String) :
    has_filter next dir g ↔
      match group_event dir g e with
      | some b => b = true
      | none => has_filter self dir g := by
  unfold has_filter
  cases e with
  | filter_node_added p =>
    have hk := on_filter_node_added_keys self next p h dir g
    rw [hk]
    simp only [group_event]
    by_cases hm : filter_member p dir g = true
    · simp [hm]
    · simp [hm]
  | filter_node_removed p =>
    simp only [handle, Option.some.injEq] at h
    subst h
    have hk := on_filter_node_removed_keys self p hinv dir g
    rw [hk]
    simp only [group_event]
    by_cases hm : filter_member p dir g = true
    · simp [hm]
    · simp [hm]
  | metadata_added m =>
    exact (handle_keys_other self next _ h (fun _ => Event.noConfusion)
      (fun _ => Event.noConfusion) dir).mem_iff
  | metadata_changed m =>
    exact (handle_keys_other self next _ h (fun _ => Event.noConfusion)
      (fun _ => Event.noConfusion) dir).mem_iff
  | stream_node_added proxy =>
    exact (handle_keys_other self next _ h (fun _ => Event.noConfusion)
      (fun _ => Event.noConfusion) dir).mem_iff
  | stream_node_removed proxy =>
    exact (handle_keys_other self next _ h (fun _ => Event.noConfusion)
      (fun _ => Event.noConfusion) dir).mem_iff
  | stream_nodes_changed =>
    exact (handle_keys_other self next _ h (fun _ => Event.noConfusion)
      (fun _ => Event.noConfusion) dir).mem_iff
  | node_added proxy =>
    exact (handle_keys_other self next _ h (fun _ => Event.noConfusion)
      (fun _ => Event.noConfusion) dir).mem_iff
  | node_removed proxy =>
    exact (handle_keys_other self next _ h (fun _ => Event.noConfusion)
      (fun _ => Event.noConfusion) dir).mem_iff
  | nodes_changed =>
    exact (handle_keys_other self next _ h (fun _ => Event.noConfusion)
      (fun _ => Event.noConfusion) dir).mem_iff
  | filter_nodes_changed =>
    exact (handle_keys_other self next _ h (fun _ => Event.noConfusion)
      (fun _ => Event.noConfusion) dir).mem_iff
  | sync_done finished =>
    exact (handle_keys_other self next _ h (fun _ => Event.noConfusion)
      (fun _ => Event.noConfusion) dir).mem_iff
theorem run_has_filter (events : List Event) (self next : WpFiltersApi)
    (h : run self events = some next) (hinv : registry_inv self)
    (dir : WpDirection) (g : String) :
    has_filter next dir g ↔
      match last_group_event dir g events with
      | some b => b = true
      | none => has_filter self dir g := by
  induction events generalizing self with
  | nil =>
    simp only [run, Option.some.injEq] at h
    subst h
    rfl
  | cons e rest ih =>
    simp only [run] at h
    cases hh : handle self e with
    | none => simp only [hh] at h; cases h
    | some mid =>
      simp only [hh] at h
      have h1 := ih mid h (handle_inv self mid e hh hinv)
      have h2 := handle_has_filter self mid e hh hinv dir g
      rw [last_group_event]
      cases hl : last_group_event dir g rest with
      | some b =>
        rw [hl] at h1
        exact h1
      | none =>
        rw [hl] at h1
        exact h1.trans h2

theorem last_node_event_none (p : WpNode) (dir : WpDirection) (g : String)
    (hm : filter_member p dir g = true) (events : List Event)
    (h : last_group_event dir g events = none) : last_node_event p events = none := by
  induction events with
  | nil => rfl
  | cons e rest ih =>
    rw [last_group_event] at h
    cases hl : last_group_event dir g rest with
    | some b => rw [hl] at h; cases h
    | none =>
      rw [hl] at h
      simp only at h
      rw [last_node_event, ih hl]
      simp only
      cases e with
      | filter_node_added q =>
        simp only [node_event]
        by_cases hq : q = p
        · subst hq
          simp [group_event, hm] at h
        · rw [if_neg hq]
      | filter_node_removed q =>
        simp only [node_event]
        by_cases hq : q = p
        · subst hq
          simp [group_event, hm] at h
        · rw [if_neg hq]
      | _ => rfl

theorem bound_member_of_last (dir : WpDirection) (g : String) (events : List Event)
    (h : last_group_event dir g events = some true) :
    ∃ n, filter_member n dir g = true ∧ last_node_event n events = some true := by
  induction events with
  | nil => cases h
  | cons e rest ih =>
    rw [last_group_event] at h
    cases hl : last_group_event dir g rest with
    | some b =>
      rw [hl] at h
      simp only [Option.some.injEq] at h
      subst h
      obtain ⟨n, hn, hb⟩ := ih hl
      refine ⟨n, hn, ?_⟩
      rw [last_node_event, hb]
    | none =>
      rw [hl] at h
      simp only at h
      cases e with
      | filter_node_added p =>
        simp only [group_event] at h
        by_cases hm : filter_member p dir g = true
        · refine ⟨p, hm, ?_⟩
          rw [last_node_event, last_node_event_none p dir g hm rest hl]
          simp [node_event]
        · rw [if_neg hm] at h
          cases h
      | filter_node_removed p =>
        simp only [group_event] at h
        by_cases hm : filter_member p dir g = true
        · rw [if_pos hm] at h
          cases h
        · rw [if_neg hm] at h
          cases h
      | _ => cases h

/-- C18, amended. After any sequence of events, the registry has a filter for
a direction and a link group exactly when the last appearance or removal of a
member node of the group was an appearance; a filter that exists has a member
node that has appeared and has not been removed since. -/
theorem filter_existence (events : List Event) (s : WpFiltersApi)
    (h : run wp_filters_api_enabled events = some s) (dir : WpDirection) (g : String) :
    (has_filter s dir g ↔ last_group_event dir g events = some true) ∧
    (has_filter s dir g →
      ∃ n, filter_member n dir g = true ∧ last_node_event n events = some true) := by
  have h1 := run_has_filter events wp_filters_api_enabled s h
    (reachable_inv _ Reachable.enabled) dir g
  have hiff : has_filter s dir g ↔ last_group_event dir g events = some true := by
    rw [h1]
    cases hl : last_group_event dir g events with
    | some b => simp
    | none =>
      simp only
      constructor
      · intro h2
        unfold has_filter at h2
        cases dir <;> simp [filters, wp_filters_api_enabled] at h2
      · intro h2
        cases h2
  exact ⟨hiff, fun hf => bound_member_of_last dir g events (hiff.1 hf)⟩

theorem filter_existence_witness :
    ∃ s, run wp_filters_api_enabled chain_events = some s ∧
      has_filter s WpDirection.INPUT "A" ∧
      (∃ n, filter_member n WpDirection.INPUT "A" = true ∧
        last_node_event n chain_events = some true) ∧
      ¬ has_filter s WpDirection.OUTPUT "A" := by
  have hrun : (run wp_filters_api_enabled chain_events).isSome = true := by decide
  obtain ⟨s, hs⟩ := Option.isSome_iff_exists.1 hrun
  have hA := (filter_existence chain_events s hs WpDirection.INPUT "A").1.2 (by decide)
  exact ⟨s, hs, hA, (filter_existence chain_events s hs WpDirection.INPUT "A").2 hA,
    fun hO => absurd ((filter_existence chain_events s hs WpDirection.OUTPUT "A").1.1 hO)
      (by decide)⟩
/-! ## Applying the same configuration again -/

theorem update_values_loop_cases (self : WpFiltersApi) (f : Filter)
    (fsn fnn : Option String) (items : List WpSpaJson) (r : Bool × Filter)
    (h : update_values_loop self f fsn fnn items = some r) :
    (r = (false, f) ∧ ∀ s2 f2, f2.direction = f.direction →
      update_values_loop s2 f2 fsn fnn items = some (false, f2)) ∨
    (∃ j, r = apply_record self f j ∧ ∀ s2 f2, f2.direction = f.direction →
      update_values_loop s2 f2 fsn fnn items = some (apply_record s2 f2 j)) := by
  induction items with
  | nil =>
    simp only [update_values_loop, Option.some.injEq] at h
    left
    exact ⟨h.symm, fun _ _ _ => rfl⟩
  | cons x rest ih =>
    rw [update_values_loop] at h
    by_cases hobj : wp_spa_json_is_object x = false
    · rw [if_pos hobj] at h
      rcases ih h with ⟨h1, h2⟩ | ⟨j, h1, h2⟩
      · left
        refine ⟨h1, fun s2 f2 hd => ?_⟩
        rw [update_values_loop, if_pos hobj]
        exact h2 s2 f2 hd
      · right
        refine ⟨j, h1, fun s2 f2 hd => ?_⟩
        rw [update_values_loop, if_pos hobj]
        exact h2 s2 f2 hd
    · rw [if_neg hobj] at h
      cases hsn : wp_spa_json_object_get_string x "stream-name" with
      | none =>
        simp only [hsn] at h
        rcases ih h with ⟨h1, h2⟩ | ⟨j, h1, h2⟩
        · left
          refine ⟨h1, fun s2 f2 hd => ?_⟩
          rw [update_values_loop, if_neg hobj]
          simp only [hsn]
          exact h2 s2 f2 hd
        · right
          refine ⟨j, h1, fun s2 f2 hd => ?_⟩
          rw [update_values_loop, if_neg hobj]
          simp only [hsn]
          exact h2 s2 f2 hd
      | some sn =>
        cases hnn : wp_spa_json_object_get_string x "node-name" with
        | none =>
          simp only [hsn, hnn] at h
          rcases ih h with ⟨h1, h2⟩ | ⟨j, h1, h2⟩
          · left
            refine ⟨h1, fun s2 f2 hd => ?_⟩
            rw [update_values_loop, if_neg hobj]
            simp only [hsn, hnn]
            exact h2 s2 f2 hd
          · right
            refine ⟨j, h1, fun s2 f2 hd => ?_⟩
            rw [update_values_loop, if_neg hobj]
            simp only [hsn, hnn]
            exact h2 s2 f2 hd
        | some nn =>
          cases hdn : wp_spa_json_object_get_string x "direction" with
          | none =>
            simp only [hsn, hnn, hdn] at h
            rcases ih h with ⟨h1, h2⟩ | ⟨j, h1, h2⟩
            · left
              refine ⟨h1, fun s2 f2 hd => ?_⟩
              rw [update_values_loop, if_neg hobj]
              simp only [hsn, hnn, hdn]
              exact h2 s2 f2 hd
            · right
              refine ⟨j, h1, fun s2 f2 hd => ?_⟩
              rw [update_values_loop, if_neg hobj]
              simp only [hsn, hnn, hdn]
              exact h2 s2 f2 hd
          | some d =>
            simp only [hsn, hnn, hdn] at h
            cases fsn with
            | none => cases h
            | some s =>
              simp only at h
              by_cases hs : s = sn
              · rw [if_pos hs] at h
                cases fnn with
                | none => cases h
                | some n =>
                  simp only at h
                  by_cases hn : n = nn ∧ f.direction = record_direction d
                  · rw [if_pos hn] at h
                    right
                    refine ⟨x, (Option.some.inj h).symm, fun s2 f2 hd => ?_⟩
                    rw [update_values_loop, if_neg hobj]
                    simp only [hsn, hnn, hdn]
                    rw [if_pos hs, if_pos ⟨hn.1, hd.trans hn.2⟩]
                  · rw [if_neg hn] at h
                    have hn2 : ∀ f2 : Filter, f2.direction = f.direction →
                        ¬ (n = nn ∧ f2.direction = record_direction d) :=
                      fun f2 hd hc => hn ⟨hc.1, hd.symm.trans hc.2⟩
                    rcases ih h with ⟨h1, h2⟩ | ⟨j, h1, h2⟩
                    · left
                      refine ⟨h1, fun s2 f2 hd => ?_⟩
                      rw [update_values_loop, if_neg hobj]
                      simp only [hsn, hnn, hdn]
                      rw [if_pos hs, if_neg (hn2 f2 hd)]
                      exact h2 s2 f2 hd
                    · right
                      refine ⟨j, h1, fun s2 f2 hd => ?_⟩
                      rw [update_values_loop, if_neg hobj]
                      simp only [hsn, hnn, hdn]
                      rw [if_pos hs, if_neg (hn2 f2 hd)]
                      exact h2 s2 f2 hd
              · rw [if_neg hs] at h
                rcases ih h with ⟨h1, h2⟩ | ⟨j, h1, h2⟩
                · left
                  refine ⟨h1, fun s2 f2 hd => ?_⟩
                  rw [update_values_loop, if_neg hobj]
                  simp only [hsn, hnn, hdn]
                  rw [if_neg hs]
                  exact h2 s2 f2 hd
                · right
                  refine ⟨j, h1, fun s2 f2 hd => ?_⟩
                  rw [update_values_loop, if_neg hobj]
                  simp only [hsn, hnn, hdn]
                  rw [if_neg hs]
                  exact h2 s2 f2 hd
theorem update_target_fix (x : Filter) (j : WpSpaJson)
    (h1 : ∀ t, wp_spa_json_object_get_string j "target" = some t → x.target = some t)
    (h2 : wp_spa_json_object_get_string j "target" = none → x.target = none) :
    update_target x j = (false, x) := by
  unfold update_target
  cases ht : wp_spa_json_object_get_string j "target" with
  | some t =>
    simp only
    rw [if_neg]
    rw [h1 t ht]
    simp
  | none =>
    simp only
    rw [if_neg]
    rw [h2 ht]
    simp

theorem update_mode_fix (self : WpFiltersApi) (x : Filter) (j : WpSpaJson)
    (h1 : wp_spa_json_object_get_string j "mode" = some "always" → x.enabled = true)
    (h2 : wp_spa_json_object_get_string j "mode" = some "never" → x.enabled = false)
    (h3 : wp_spa_json_object_get_string j "mode" = some "playback-only" →
      x.enabled = decide (self.n_playback_stream_nodes > 0))
    (h4 : wp_spa_json_object_get_string j "mode" = some "capture-only" →
      x.enabled = decide (self.n_capture_stream_nodes > 0)) :
    update_mode self x j = (false, x) := by
  unfold update_mode
  cases hm : wp_spa_json_object_get_string j "mode" with
  | none => rfl
  | some mode =>
    simp only
    by_cases c1 : mode = "always"
    · subst c1
      rw [if_pos rfl, if_neg]
      rw [h1 hm]
      simp
    · rw [if_neg c1]
      by_cases c2 : mode = "never"
      · subst c2
        rw [if_pos rfl, if_neg]
        rw [h2 hm]
        simp
      · rw [if_neg c2]
        by_cases c3 : mode = "playback-only"
        · subst c3
          rw [if_pos rfl, if_neg]
          rw [h3 hm]
          simp
        · rw [if_neg c3]
          by_cases c4 : mode = "capture-only"
          · subst c4
            rw [if_pos rfl, if_neg]
            rw [h4 hm]
            simp
          · rw [if_neg c4]

theorem update_priority_fix (x : Filter) (j : WpSpaJson)
    (h : ∀ p, wp_spa_json_object_get_int j "priority" = some p → x.priority = p) :
    update_priority x j = (false, x) := by
  unfold update_priority
  cases hp : wp_spa_json_object_get_int j "priority" with
  | none => rfl
  | some p =>
    simp only
    rw [if_neg]
    rw [h p hp]
    simp

/-- Applying a record to the filter it has been applied to changes nothing. -/
theorem apply_record_again (self : WpFiltersApi) (f : Filter) (j : WpSpaJson) :
    apply_record self (apply_record self f j).2 j = (false, (apply_record self f j).2) := by
  have ht := update_target_target f j
  have hmi := update_mode_ident self (update_target f j).2 j
  have hme := update_mode_enabled self (update_target f j).2 j
  have hpi := update_priority_ident (update_mode self (update_target f j).2 j).2 j
  have hpp := update_priority_priority (update_mode self (update_target f j).2 j).2 j
  have e1 : (apply_record self f j).2.target = (update_target f j).2.target := by
    simp only [apply_record]
    rw [hpi.2.2.2.2.1, hmi.2.2.2.2.1]
  have e2 : (apply_record self f j).2.enabled
      = (update_mode self (update_target f j).2 j).2.enabled := by
    simp only [apply_record]
    exact hpi.2.2.2.2.2
  have e3 : (apply_record self f j).2.priority
      = (update_priority (update_mode self (update_target f j).2 j).2 j).2.priority := by
    simp only [apply_record]
  have f1 := update_target_fix (apply_record self f j).2 j
    (fun t h => by rw [e1]; exact ht.1 t h) (fun h => by rw [e1]; exact ht.2 h)
  have f2 := update_mode_fix self (apply_record self f j).2 j
    (fun h => by rw [e2]; exact hme.1 h) (fun h => by rw [e2]; exact hme.2.1 h)
    (fun h => by rw [e2]; exact hme.2.2.1 h) (fun h => by rw [e2]; exact hme.2.2.2.1 h)
  have f3 := update_priority_fix (apply_record self f j).2 j
    (fun p h => by rw [e3]; exact hpp.1 p h)
  generalize (apply_record self f j).2 = y at f1 f2 f3
  simp only [apply_record, f1, f2, f3, Bool.or_self]

theorem update_values_loop_congr (self other : WpFiltersApi)
    (hp : other.n_playback_stream_nodes = self.n_playback_stream_nodes)
    (hc : other.n_capture_stream_nodes = self.n_capture_stream_nodes)
    (f : Filter) (fsn fnn : Option String) (items : List WpSpaJson) :
    update_values_loop other f fsn fnn items = update_values_loop self f fsn fnn items := by
  induction items with
  | nil => rfl
  | cons x rest ih =>
    rw [update_values_loop, update_values_loop, ih, apply_record_counters self other f x hp hc]

/-- The result of `update_values_from_metadata` depends on the state through
the metadata and the two stream counters only. -/
theorem update_values_congr (self other : WpFiltersApi)
    (hm : other.metadata_om = self.metadata_om)
    (hp : other.n_playback_stream_nodes = self.n_playback_stream_nodes)
    (hc : other.n_capture_stream_nodes = self.n_capture_stream_nodes) (f : Filter) :
    update_values_from_metadata other f = update_values_from_metadata self f := by
  unfold update_values_from_metadata
  rw [hm]
  split
  · rfl
  · split
    · split
      · rfl
      · exact update_values_loop_congr self other hp hc f _ _ _
      · rfl
    · rfl

/-- A filter that `update_values_from_metadata` has returned is left unchanged
by a second call. -/
theorem update_values_again (self : WpFiltersApi) (f : Filter) (r : Bool × Filter)
    (h : update_values_from_metadata self f = some r) :
    update_values_from_metadata self r.2 = some (false, r.2) := by
  have hi := update_values_ident self f r h
  unfold update_values_from_metadata at h ⊢
  rw [hi.2.2.1, hi.2.2.2]
  split at h
  · rfl
  · split at h
    · split at h
      · rfl
      · rcases update_values_loop_cases self f _ _ _ r h with ⟨_, h2⟩ | ⟨j, h1, h2⟩
        · exact h2 self r.2 hi.2.1
        · rw [h2 self r.2 hi.2.1, h1]
          exact congrArg some (apply_record_again self f j)
      · rfl
    · rfl
theorem reevaluate_filters_loop_settled (self : WpFiltersApi) (l : List Filter)
    (rl : Bool × List Filter) (h : reevaluate_filters_loop self l = some rl) :
    ∀ f ∈ rl.2, update_values_from_metadata self f = some (false, f) := by
  induction l generalizing rl with
  | nil =>
    simp only [reevaluate_filters_loop, Option.some.injEq] at h
    subst h
    intro f hf
    cases hf
  | cons x rest ih =>
    simp only [reevaluate_filters_loop] at h
    cases hu : update_values_from_metadata self x with
    | none => simp only [hu] at h; cases h
    | some u =>
      simp only [hu] at h
      cases hr : reevaluate_filters_loop self rest with
      | none => simp only [hr] at h; cases h
      | some rs =>
        simp only [hr] at h
        cases h
        intro f hf
        rcases List.mem_cons.1 hf with rfl | hf2
        · exact update_values_again self x u hu
        · exact ih rs hr f hf2

theorem reevaluate_filters_loop_fixed (self : WpFiltersApi) (l : List Filter)
    (h : ∀ f ∈ l, update_values_from_metadata self f = some (false, f)) :
    reevaluate_filters_loop self l = some (false, l) := by
  induction l with
  | nil => rfl
  | cons x rest ih =>
    rw [reevaluate_filters_loop, h x (List.mem_cons_self _ _),
      ih (fun f hf => h f (List.mem_cons_of_mem _ hf))]
    rfl

theorem set_filters_self (self : WpFiltersApi) (dir : WpDirection) :
    set_filters self dir (filters self dir) = self := by
  cases dir <;> rfl

theorem same_env_set_filters (self : WpFiltersApi) (dir : WpDirection) (l : List Filter) :
    same_env (set_filters self dir l) self := by
  cases dir <;> exact ⟨rfl, rfl, rfl, rfl, rfl⟩

theorem same_env_trans {a b c : WpFiltersApi} (h1 : same_env a b) (h2 : same_env b c) :
    same_env a c :=
  ⟨h1.1.trans h2.1, h1.2.1.trans h2.2.1, h1.2.2.1.trans h2.2.2.1,
    h1.2.2.2.1.trans h2.2.2.2.1, h1.2.2.2.2.trans h2.2.2.2.2⟩

theorem settled_congr {a b s : WpFiltersApi} (h : same_env a b) (hs : settled b s) :
    settled a s := by
  intro dir f hf
  rw [update_values_congr b a h.1 h.2.2.1 h.2.2.2.1 f]
  exact hs dir f hf

theorem reevaluate_filters_settles (self : WpFiltersApi) (d : WpDirection)
    (r : Bool × WpFiltersApi) (h : reevaluate_filters self d = some r) :
    same_env r.2 self ∧
    (∀ f ∈ filters r.2 d, update_values_from_metadata self f = some (false, f)) ∧
    (∀ d2, d2 ≠ d → filters r.2 d2 = filters self d2) := by
  unfold reevaluate_filters at h
  cases hl : reevaluate_filters_loop self (filters self d) with
  | none => simp only [hl] at h; cases h
  | some rl =>
    simp only [hl] at h
    have hs := reevaluate_filters_loop_settled self _ rl hl
    split at h
    · cases h
      refine ⟨same_env_set_filters _ _ _, ?_, fun d2 hd => filters_set_filters_other _ _ _ _ hd⟩
      intro f hf
      rw [filters_set_filters_same] at hf
      exact hs f ((sort_perm filter_compare_func rl.2).subset hf)
    · cases h
      refine ⟨same_env_set_filters _ _ _, ?_, fun d2 hd => filters_set_filters_other _ _ _ _ hd⟩
      intro f hf
      rw [filters_set_filters_same] at hf
      exact hs f hf

theorem reevaluate_filters_fixed (self : WpFiltersApi) (d : WpDirection)
    (h : ∀ f ∈ filters self d, update_values_from_metadata self f = some (false, f)) :
    reevaluate_filters self d = some (false, self) := by
  unfold reevaluate_filters
  rw [reevaluate_filters_loop_fixed self _ h]
  simp only [Bool.false_eq_true, if_false, set_filters_self]

theorem reevaluate_both_settles (self : WpFiltersApi) (r : Bool × WpFiltersApi)
    (h : reevaluate_both self = some r) : same_env r.2 self ∧ settled self r.2 := by
  unfold reevaluate_both at h
  cases h0 : reevaluate_filters self WpDirection.INPUT with
  | none => simp only [h0] at h; cases h
  | some r0 =>
    simp only [h0] at h
    cases h1 : reevaluate_filters r0.2 WpDirection.OUTPUT with
    | none => simp only [h1] at h; cases h
    | some r1 =>
      simp only [h1] at h
      cases h
      obtain ⟨e0, s0, o0⟩ := reevaluate_filters_settles self _ r0 h0
      obtain ⟨e1, s1, o1⟩ := reevaluate_filters_settles r0.2 _ r1 h1
      refine ⟨same_env_trans e1 e0, ?_⟩
      intro dir f hf
      cases dir with
      | INPUT =>
        rw [o1 WpDirection.INPUT (by decide)] at hf
        exact s0 f hf
      | OUTPUT =>
        have := s1 f hf
        rw [update_values_congr self r0.2 e0.1 e0.2.2.1 e0.2.2.2.1 f] at this
        exact this

theorem reevaluate_both_fixed (self : WpFiltersApi) (h : settled self self) :
    reevaluate_both self = some (false, self) := by
  unfold reevaluate_both
  rw [reevaluate_filters_fixed self _ (h WpDirection.INPUT)]
  simp only
  rw [reevaluate_filters_fixed self _ (h WpDirection.OUTPUT)]
  rfl

theorem reevaluate_targets_fixed (self : WpFiltersApi) (hd : distinct_target_names self)
    (ht : (reevaluate_targets self).2.targets = self.targets) :
    reevaluate_targets self = (false, self) := by
  have h1 := reevaluate_targets_flag_distinct self hd
  have h2 := reevaluate_targets_frame self
  rw [ht] at h2
  exact Prod.ext h1 h2
theorem nodes_reevaluate_targets (self : WpFiltersApi) :
    (reevaluate_targets self).2.nodes_om = self.nodes_om := by
  rw [reevaluate_targets_frame]

theorem counters_reevaluate_targets (self : WpFiltersApi) :
    (reevaluate_targets self).2.n_playback_stream_nodes = self.n_playback_stream_nodes ∧
    (reevaluate_targets self).2.n_capture_stream_nodes = self.n_capture_stream_nodes := by
  rw [reevaluate_targets_frame]
  exact ⟨rfl, rfl⟩

/-- C14, the claim as stated fails: when the value "filters.configured.targets"
names a target twice with predicates that resolve to different nodes, every run
of the handler reports a change. After `repeated_name_events` the same metadata
is applied a second time: `reevaluate_targets` returns true and one more
notification is scheduled. -/
theorem idempotence_counterexample :
    ∃ s1 s2, run wp_filters_api_enabled repeated_name_events = some s1 ∧
      handle s1 (Event.metadata_changed repeated_name_metadata) = some s2 ∧
      (reevaluate_targets { s1 with metadata_om := some repeated_name_metadata }).1 = true ∧
      s2.pending_syncs = s1.pending_syncs + 1 := by
  have hrun : (run wp_filters_api_enabled repeated_name_events).isSome = true := by decide
  obtain ⟨s1, hs1⟩ := Option.isSome_iff_exists.1 hrun
  have hrun2 : ((run wp_filters_api_enabled repeated_name_events).bind
      (fun s => handle s (Event.metadata_changed repeated_name_metadata))).isSome
      = true := by decide
  rw [hs1, Option.some_bind] at hrun2
  obtain ⟨s2, hs2⟩ := Option.isSome_iff_exists.1 hrun2
  have h3 : (run wp_filters_api_enabled repeated_name_events).map
      (fun s => (reevaluate_targets
        { s with metadata_om := some repeated_name_metadata }).1) = some true := by
    decide
  have h4 : ((run wp_filters_api_enabled repeated_name_events).bind
      (fun s => (handle s (Event.metadata_changed repeated_name_metadata)).map
        (fun s2 => decide (s2.pending_syncs = s.pending_syncs + 1)))) = some true := by
    decide
  rw [hs1] at h3 h4
  rw [Option.some_bind, hs2] at h4
  simp only [Option.map_some', Option.some.injEq, decide_eq_true_eq] at h3 h4
  exact ⟨s1, s2, hs1, hs2, h3, h4⟩

/-- C14, amended. Idempotence of the configuration handler when the target
names of the value "filters.configured.targets" are pairwise distinct: if a
run of `on_metadata_changed` returns the state `s1`, a second run in `s1`, with
the same metadata, nodes and stream counters, finds no change in
`reevaluate_targets` nor in `reevaluate_filters` of either direction, schedules
no notification and leaves the state, registry and table of targets included,
as the first run left it. -/
theorem config_idempotent (self s1 : WpFiltersApi) (hd : distinct_target_names self)
    (h1 : on_metadata_changed self = some s1) :
    reevaluate_targets s1 = (false, s1) ∧ reevaluate_both s1 = some (false, s1) ∧
    on_metadata_changed s1 = some s1 := by
  unfold on_metadata_changed at h1
  simp only at h1
  cases hb : reevaluate_both (reevaluate_targets self).2 with
  | none => simp only [hb] at h1; cases h1
  | some r =>
    simp only [hb] at h1
    obtain ⟨e, st⟩ := reevaluate_both_settles _ r hb
    have hs1 : same_env s1 (reevaluate_targets self).2 ∧
        settled (reevaluate_targets self).2 s1 := by
      split at h1
      · cases h1
        refine ⟨same_env_trans ⟨rfl, rfl, rfl, rfl, rfl⟩ e, ?_⟩
        intro dir f hf
        have e2 : filters (schedule_changed r.2) dir = filters r.2 dir := by cases dir <;> rfl
        rw [e2] at hf
        exact st dir f hf
      · cases h1
        exact ⟨e, st⟩
    obtain ⟨env, hst⟩ := hs1
    have hsettled : settled s1 s1 := settled_congr env hst
    have hmeta : s1.metadata_om = self.metadata_om :=
      env.1.trans (metadata_reevaluate_targets self)
    have hnodes : s1.nodes_om = self.nodes_om :=
      env.2.1.trans (nodes_reevaluate_targets self)
    have hdist : distinct_target_names s1 := by
      intro m fields hm hf
      exact hd m fields (hmeta ▸ hm) hf
    have htargets : (reevaluate_targets s1).2.targets = s1.targets :=
      ((reevaluate_targets_congr self s1 hmeta hnodes).2).trans env.2.2.2.2.symm
    have ht := reevaluate_targets_fixed s1 hdist htargets
    have hboth := reevaluate_both_fixed s1 hsettled
    refine ⟨ht, hboth, ?_⟩
    unfold on_metadata_changed
    simp only [ht, hboth]
    rfl

theorem config_idempotent_witness :
    ∃ s1, on_metadata_changed
        { chain_state true with
          metadata_om := some { chain_metadata with
            configured_targets := some (spk_targets "speaker-b") }
          nodes_om := [device_node 51 "speaker-b" "Audio/Sink"]
          filters_input := [fresh_A, chain_B] } = some s1 ∧
      on_metadata_changed s1 = some s1 ∧
      filters s1 WpDirection.INPUT = [chain_A, chain_B] ∧
      s1.targets = [("spk", device_node 51 "speaker-b" "Audio/Sink")] ∧
      s1.pending_syncs = 1 := by
  have hrun : (on_metadata_changed
      { chain_state true with
        metadata_om := some { chain_metadata with
          configured_targets := some (spk_targets "speaker-b") }
        nodes_om := [device_node 51 "speaker-b" "Audio/Sink"]
        filters_input := [fresh_A, chain_B] }).isSome = true := by decide
  obtain ⟨s1, hs1⟩ := Option.isSome_iff_exists.1 hrun
  have h2 : (on_metadata_changed
      { chain_state true with
        metadata_om := some { chain_metadata with
          configured_targets := some (spk_targets "speaker-b") }
        nodes_om := [device_node 51 "speaker-b" "Audio/Sink"]
        filters_input := [fresh_A, chain_B] }).map
      (fun s => (filters s WpDirection.INPUT, s.targets, s.pending_syncs))
      = some ([chain_A, chain_B], [("spk", device_node 51 "speaker-b" "Audio/Sink")], 1) := by
    decide
  rw [hs1] at h2
  simp only [Option.map_some', Option.some.injEq, Prod.mk.injEq] at h2
  refine ⟨s1, hs1, (config_idempotent _ s1 ?_ hs1).2.2, h2.1, h2.2.1, h2.2.2⟩
  intro m fields hm hf
  simp only [Option.some.injEq] at hm
  subst hm
  simp only [spk_targets, Option.some.injEq, WpSpaJson.object.injEq] at hf
  subst hf
  decide

/-! ## A value of the targets that is not an object -/

/-- C21, as stated, fails: after the events `target_change_events` the table
maps "spk" to the node 50; when the value "filters.configured.targets" becomes
a JSON array, `reevaluate_targets` returns false but the table is not what it
was before the call: `g_hash_table_remove_all` has emptied it. -/
theorem wrong_shape_counterexample :
    ∃ s1 s2, run wp_filters_api_enabled target_change_events = some s1 ∧
      s1.targets = [("spk", device_node 50 "speaker-a" "Audio/Sink")] ∧
      handle s1 (Event.metadata_changed wrong_shape_metadata) = some s2 ∧
      s2.targets = [] ∧
      ¬ ((reevaluate_targets { s1 with metadata_om := some wrong_shape_metadata }).1 = false ∧
        (reevaluate_targets { s1 with metadata_om := some wrong_shape_metadata }).2.targets
          = s1.targets) := by
  have hrun : (run wp_filters_api_enabled target_change_events).isSome = true := by decide
  obtain ⟨s1, hs1⟩ := Option.isSome_iff_exists.1 hrun
  have hrun2 : ((run wp_filters_api_enabled target_change_events).bind
      (fun s => handle s (Event.metadata_changed wrong_shape_metadata))).isSome = true := by
    decide
  rw [hs1, Option.some_bind] at hrun2
  obtain ⟨s2, hs2⟩ := Option.isSome_iff_exists.1 hrun2
  have h1 : (run wp_filters_api_enabled target_change_events).map (fun s => s.targets)
      = some [("spk", device_node 50 "speaker-a" "Audio/Sink")] := by decide
  have h2 : ((run wp_filters_api_enabled target_change_events).bind
      (fun s => handle s (Event.metadata_changed wrong_shape_metadata))).map
      (fun s => s.targets) = some [] := by decide
  have h3 : (run wp_filters_api_enabled target_change_events).map
      (fun s => (reevaluate_targets { s with metadata_om := some wrong_shape_metadata }).2.targets)
      = some [] := by decide
  rw [hs1, Option.map_some'] at h1 h3
  rw [hs1, Option.some_bind, hs2, Option.map_some'] at h2
  have h1 := Option.some.inj h1
  have h2 := Option.some.inj h2
  have h3 := Option.some.inj h3
  refine ⟨s1, s2, hs1, h1, hs2, h2, ?_⟩
  rintro ⟨_, h⟩
  rw [h3, h1] at h
  cases h

/-- C21, amended. When the value "filters.configured.targets" is present but
is not a JSON object, `reevaluate_targets` reports no change and leaves the
table of targets empty, whatever it held before the call; nothing else of the
state changes. -/
theorem wrong_shape_targets (self : WpFiltersApi) (m : WpMetadata) (v : WpSpaJson)
    (hm : self.metadata_om = some m) (hv : m.configured_targets = some v)
    (hobj : wp_spa_json_is_object v = false) :
    reevaluate_targets self = (false, { self with targets := [] }) := by
  unfold reevaluate_targets
  simp only [hm, hv]
  cases v with
  | object fields => simp [wp_spa_json_is_object] at hobj
  | _ => rfl

theorem wrong_shape_targets_witness :
    wp_spa_json_is_object (WpSpaJson.array [WpSpaJson.string "spk"]) = false ∧
    reevaluate_targets
        { (spk_state [] [("spk", device_node 51 "speaker-b" "Audio/Sink")]) with
          metadata_om := some wrong_shape_metadata }
      = (false,
        { ({ (spk_state [] [("spk", device_node 51 "speaker-b" "Audio/Sink")]) with
            metadata_om := some wrong_shape_metadata } : WpFiltersApi) with targets := [] }) :=
  ⟨rfl, wrong_shape_targets _ wrong_shape_metadata _ rfl rfl rfl⟩

/-! ## Notifications are not coalesced -/

/-- C25, as stated, fails: after `chain_events` no closure is pending; each of
the three changes of the configuration makes `on_metadata_changed` call
`schedule_changed`, so three closures are pending, and when the three syncs
have finished the signal "changed" has been emitted three times, not once. -/
theorem coalescing_counterexample :
    ∃ s0 s3 s6, run wp_filters_api_enabled chain_events = some s0 ∧
      s0.pending_syncs = 0 ∧ s0.changed_emitted = 0 ∧
      run s0 [Event.metadata_changed overflow_metadata, Event.metadata_changed chain_metadata,
        Event.metadata_changed overflow_metadata] = some s3 ∧
      s3.pending_syncs = 3 ∧ s3.changed_emitted = 0 ∧
      run s3 [Event.sync_done true, Event.sync_done true, Event.sync_done true] = some s6 ∧
      s6.pending_syncs = 0 ∧ s6.changed_emitted = 3 ∧ s6.changed_emitted ≠ 1 := by
  have hrun : (run wp_filters_api_enabled chain_events).isSome = true := by decide
  obtain ⟨s0, hs0⟩ := Option.isSome_iff_exists.1 hrun
  have hrun2 : ((run wp_filters_api_enabled chain_events).bind
      (fun s => run s [Event.metadata_changed overflow_metadata,
        Event.metadata_changed chain_metadata,
        Event.metadata_changed overflow_metadata])).isSome = true := by decide
  have h2 : ((run wp_filters_api_enabled chain_events).bind
      (fun s => run s [Event.metadata_changed overflow_metadata,
        Event.metadata_changed chain_metadata,
        Event.metadata_changed overflow_metadata])).map
      (fun s => (s.pending_syncs, s.changed_emitted)) = some (3, 0) := by decide
  have hrun3 : (((run wp_filters_api_enabled chain_events).bind
      (fun s => run s [Event.metadata_changed overflow_metadata,
        Event.metadata_changed chain_metadata,
        Event.metadata_changed overflow_metadata])).bind
      (fun s => run s [Event.sync_done true, Event.sync_done true,
        Event.sync_done true])).isSome = true := by decide
  have h3 : (((run wp_filters_api_enabled chain_events).bind
      (fun s => run s [Event.metadata_changed overflow_metadata,
        Event.metadata_changed chain_metadata,
        Event.metadata_changed overflow_metadata])).bind
      (fun s => run s [Event.sync_done true, Event.sync_done true,
        Event.sync_done true])).map
      (fun s => (s.pending_syncs, s.changed_emitted)) = some (0, 3) := by decide
  have h1 : (run wp_filters_api_enabled chain_events).map
      (fun s => (s.pending_syncs, s.changed_emitted)) = some (0, 0) := by decide
  rw [hs0, Option.some_bind] at hrun2 h2 hrun3 h3
  obtain ⟨s3, hs3⟩ := Option.isSome_iff_exists.1 hrun2
  rw [hs3, Option.some_bind] at hrun3 h3
  obtain ⟨s6, hs6⟩ := Option.isSome_iff_exists.1 hrun3
  rw [hs0, Option.map_some'] at h1
  rw [hs3, Option.map_some'] at h2
  rw [hs6, Option.map_some'] at h3
  have h1 := Option.some.inj h1
  have h2 := Option.some.inj h2
  have h3 := Option.some.inj h3
  have e1 := congrArg Prod.fst h1
  have e2 := congrArg Prod.snd h1
  have e3 := congrArg Prod.fst h2
  have e4 := congrArg Prod.snd h2
  have e5 := congrArg Prod.fst h3
  have e6 := congrArg Prod.snd h3
  dsimp only at e1 e2 e3 e4 e5 e6
  refine ⟨s0, s3, s6, hs0, e1, e2, hs3, e3, e4, hs6, e5, e6, ?_⟩
  rw [e6]
  decide

/-- C25, amended. Nothing is coalesced: `schedule_changed` hands one more
closure to the core each time it is called, whatever is pending already, so
after three calls three more closures are pending, and each closure whose sync
finishes emits the signal "changed" once: three emissions follow the three
calls. -/
theorem no_coalescing (self : WpFiltersApi) :
    (schedule_changed (schedule_changed (schedule_changed self))).pending_syncs
      = self.pending_syncs + 3 ∧
    (sync_changed (sync_changed (sync_changed
        (schedule_changed (schedule_changed (schedule_changed self))) true) true) true)
      = { self with changed_emitted := self.changed_emitted + 3 } ∧
    run self [Event.nodes_changed, Event.filter_nodes_changed, Event.nodes_changed,
        Event.sync_done true, Event.sync_done true, Event.sync_done true]
      = some { self with changed_emitted := self.changed_emitted + 3 } := by
  refine ⟨rfl, ?_, ?_⟩
  · simp [sync_changed, schedule_changed]
  · simp [run, handle, sync_changed, schedule_changed]

/-! ## A predicate with a value that is not a string -/

/-- Within the bounds where the difference of the priorities does not
overflow, the sign of `filter_compare_func` is the sign of the comparison of the
pairs (priority, link group). -/
theorem compare_sign_bounded (a b : Filter) (ha : bounded_priority a.priority)
    (hb : bounded_priority b.priority) :
    Int.sign (filter_compare_func a b) = lex_sign a b := by
  unfold bounded_priority at ha hb
  have hd : to_gint (a.priority - b.priority) = a.priority - b.priority :=
    to_gint_of_range _ (by omega) (by omega)
  unfold filter_compare_func lex_sign
  simp only [hd]
  by_cases h1 : a.priority < b.priority
  · rw [if_pos (by omega), if_pos h1]
    exact Int.sign_eq_neg_one_of_neg (by omega)
  · by_cases h2 : b.priority < a.priority
    · rw [if_pos (by omega), if_neg h1, if_pos h2]
      exact Int.sign_eq_one_of_pos (by omega)
    · rw [if_neg (by omega), if_neg h1, if_neg h2]
      by_cases h3 : a.link_group < b.link_group
      · rw [if_pos h3]
        have : strcmp a.link_group.data b.link_group.data < 0 :=
          (strcmp_neg_iff _ _).2 (by simpa [String.lt_iff] using h3)
        exact Int.sign_eq_neg_one_of_neg this
      · rw [if_neg h3]
        by_cases h4 : b.link_group < a.link_group
        · rw [if_pos h4]
          have : 0 < strcmp a.link_group.data b.link_group.data :=
            (strcmp_pos_iff _ _).2 (by simpa [String.lt_iff] using h4)
          exact Int.sign_eq_one_of_pos this
        · rw [if_neg h4]
          have hn : ¬ strcmp a.link_group.data b.link_group.data < 0 := fun h =>
            h3 (by simpa [String.lt_iff] using (strcmp_neg_iff _ _).1 h)
          have hp : ¬ 0 < strcmp a.link_group.data b.link_group.data := fun h =>
            h4 (by simpa [String.lt_iff] using (strcmp_pos_iff _ _).1 h)
          have : g_strcmp0 a.link_group b.link_group = 0 := by
            unfold g_strcmp0
            omega
          rw [this]
          rfl

/-- C28. Over all of `gint` the comparison `filter_compare_func` is not the
order of the pairs (priority, link group): the difference 2000000000 -
(-2000000000) wraps around to -294967296, so the filter of priority 2000000000
compares as smaller than the filter of priority -2000000000; the comparison is
not transitive (C before B, B before A, and A before C); and it is not
antisymmetric, the difference of -2147483648 and 0 being -2147483648 both
ways. -/
theorem compare_func_overflow :
    filter_compare_func (priority_filter "A" 2000000000) (priority_filter "C" (-2000000000))
      = -294967296 ∧
    lex_sign (priority_filter "A" 2000000000) (priority_filter "C" (-2000000000)) = 1 ∧
    filter_compare_func (priority_filter "C" (-2000000000)) (priority_filter "B" 0) < 0 ∧
    filter_compare_func (priority_filter "B" 0) (priority_filter "A" 2000000000) < 0 ∧
    ¬ filter_compare_func (priority_filter "C" (-2000000000)) (priority_filter "A" 2000000000)
      < 0 ∧
    filter_compare_func (priority_filter "X" (-2147483648)) (priority_filter "B" 0) < 0 ∧
    filter_compare_func (priority_filter "B" 0) (priority_filter "X" (-2147483648)) < 0 := by
  decide

/-! ## The inverse query with the target id -1 -/

/-- A list with an element that has a property splits at its first such
element. -/
theorem split_at_first {α : Type} (p : α → Prop) (l : List α) (h : ∃ x ∈ l, p x) :
    ∃ pre f post, l = pre ++ f :: post ∧ p f ∧ ∀ x ∈ pre, ¬ p x := by
  induction l with
  | nil =>
    obtain ⟨x, hx, _⟩ := h
    cases hx
  | cons a rest ih =>
    by_cases ha : p a
    · exact ⟨[], a, rest, rfl, ha, fun x hx => by cases hx⟩
    · obtain ⟨x, hx, hp⟩ := h
      rcases List.mem_cons.1 hx with rfl | hx
      · exact absurd hp ha
      · obtain ⟨pre, f, post, hl, hf, hpre⟩ := ih ⟨x, hx, hp⟩
        refine ⟨a :: pre, f, post, by rw [hl]; rfl, hf, ?_⟩
        intro y hy
        rcases List.mem_cons.1 hy with rfl | hy
        · exact ha
        · exact hpre y hy

/-- C30. The inverse query with the target id -1 does not always return -1:
in the chain example with an empty table of targets it returns 20, the id of
the device node of B. Whenever an enabled filter of the direction has the
target id -1, the list splits at the first such filter `f`, and the call
returns the id of the device node of the last enabled filter whose target is
the target of `f`. -/
theorem sentinel_inverse_query :
    wp_filters_api_get_filter_target 0 unresolved_chain_state "input" "A" = -1 ∧
    wp_filters_api_get_filter_from_target 0 unresolved_chain_state "input" (-1) = 20 ∧
    ∀ (null_id : Nat) (self : WpFiltersApi) (direction : String),
      (∃ f ∈ filters self (query_direction direction), f.enabled = true ∧
        wp_filters_api_get_filter_target null_id self direction f.link_group = -1) →
      ∃ pre f post pre2 g post2,
        filters self (query_direction direction) = pre ++ f :: post ∧
        (f.enabled = true ∧
          wp_filters_api_get_filter_target null_id self direction f.link_group = -1) ∧
        (∀ x ∈ pre, ¬ (x.enabled = true ∧
          wp_filters_api_get_filter_target null_id self direction x.link_group = -1)) ∧
        filters self (query_direction direction) = pre2 ++ g :: post2 ∧
        (g.enabled = true ∧ g.target = f.target) ∧
        (∀ x ∈ post2, ¬ (x.enabled = true ∧ x.target = f.target)) ∧
        wp_filters_api_get_filter_from_target null_id self direction (-1)
          = to_gint (wp_proxy_get_bound_id null_id g.node) := by
  refine ⟨by decide, by decide, ?_⟩
  intro null_id self direction h
  obtain ⟨pre, f, post, hl, hf, hfirst⟩ :=
    split_at_first (fun x : Filter => x.enabled = true ∧
      wp_filters_api_get_filter_target null_id self direction x.link_group = -1) _ h
  have hfind : (filters self (query_direction direction)).find? (fun f =>
      decide (wp_filters_api_get_filter_target null_id self direction f.link_group = -1)
        && f.enabled) = some f := by
    rw [hl]
    apply find_first_split
    · simp [hf.1, hf.2]
    · intro g hg
      have := hfirst g hg
      simp only [Bool.and_eq_true, decide_eq_true_eq]
      tauto
  have hex : ∃ x ∈ filters self (query_direction direction),
      (x.enabled = true ∧ x.target = f.target) :=
    ⟨f, by rw [hl]; simp, hf.1, rfl⟩
  obtain ⟨pre2, g, post2, hs, hg, hlast⟩ :=
    split_at_last (fun x : Filter => x.enabled = true ∧ x.target = f.target) _ hex
  refine ⟨pre, f, post, pre2, g, post2, hl, hf, hfirst, hs, hg, hlast, ?_⟩
  rw [get_filter_from_target_found null_id self direction (-1) f hfind, hs]
  exact last_of_target_split null_id f.target pre2 post2 g (-1) hg hlast

theorem sentinel_inverse_query_witness :
    ∃ pre f post pre2 g post2,
      filters unresolved_chain_state (query_direction "input") = pre ++ f :: post ∧
      (f.enabled = true ∧
        wp_filters_api_get_filter_target 0 unresolved_chain_state "input" f.link_group = -1) ∧
      (∀ x ∈ pre, ¬ (x.enabled = true ∧
        wp_filters_api_get_filter_target 0 unresolved_chain_state "input" x.link_group = -1)) ∧
      filters unresolved_chain_state (query_direction "input") = pre2 ++ g :: post2 ∧
      (g.enabled = true ∧ g.target = f.target) ∧
      (∀ x ∈ post2, ¬ (x.enabled = true ∧ x.target = f.target)) ∧
      wp_filters_api_get_filter_from_target 0 unresolved_chain_state "input" (-1)
        = to_gint (wp_proxy_get_bound_id 0 g.node) :=
  sentinel_inverse_query.2.2 0 unresolved_chain_state "input"
    ⟨chain_A, by decide, by decide, by decide⟩

/-! ## A record with a direction that is neither "input" nor "output" -/

/-- C29. A record whose direction is neither "input" nor "output" is read as
a record of the direction input. For a filter of the input direction with both
nodes bound whose node names are the stream name and the node name of the
record, the record matches, so that when no record before it matches,
`update_values_from_metadata` applies it: target, mode and priority of the
filter become those of the record. A filter of the output direction is never
matched by it: the scan goes on with the records after it. -/
theorem invalid_direction_is_input (self : WpFiltersApi) (f : Filter) (m : WpMetadata)
    (stream node : WpNode) (fsn fnn direction : String) (pre post : List WpSpaJson)
    (j : WpSpaJson)
    (hm : self.metadata_om = some m) (hs : f.stream = some stream) (hn : f.node = some node)
    (hfsn : wp_pipewire_object_get_property stream PW_KEY_NODE_NAME = some fsn)
    (hfnn : wp_pipewire_object_get_property node PW_KEY_NODE_NAME = some fnn)
    (hcfg : m.configured_filters = some (WpSpaJson.array (pre ++ j :: post)))
    (hpre : ∀ x ∈ pre, record_matches f fsn fnn x = false)
    (hobj : wp_spa_json_is_object j = true)
    (hjs : wp_spa_json_object_get_string j "stream-name" = some fsn)
    (hjn : wp_spa_json_object_get_string j "node-name" = some fnn)
    (hjd : wp_spa_json_object_get_string j "direction" = some direction)
    (hd1 : direction ≠ "input") (hd2 : direction ≠ "output") :
    record_direction direction = WpDirection.INPUT ∧
    (f.direction = WpDirection.INPUT →
      record_matches f fsn fnn j = true ∧
      update_values_from_metadata self f = some (apply_record self f j) ∧
      (∀ t, wp_spa_json_object_get_string j "target" = some t →
        (apply_record self f j).2.target = some t) ∧
      (wp_spa_json_object_get_string j "target" = none →
        (apply_record self f j).2.target = none) ∧
      (wp_spa_json_object_get_string j "mode" = some "always" →
        (apply_record self f j).2.enabled = true) ∧
      (wp_spa_json_object_get_string j "mode" = some "never" →
        (apply_record self f j).2.enabled = false) ∧
      (wp_spa_json_object_get_string j "mode" = some "playback-only" →
        (apply_record self f j).2.enabled = decide (self.n_playback_stream_nodes > 0)) ∧
      (wp_spa_json_object_get_string j "mode" = some "capture-only" →
        (apply_record self f j).2.enabled = decide (self.n_capture_stream_nodes > 0)) ∧
      (∀ p, wp_spa_json_object_get_int j "priority" = some p →
        (apply_record self f j).2.priority = p)) ∧
    (f.direction = WpDirection.OUTPUT →
      record_matches f fsn fnn j = false ∧
      update_values_loop self f (some fsn) (some fnn) (pre ++ j :: post)
        = update_values_loop self f (some fsn) (some fnn) post) := by
  have hdir : record_direction direction = WpDirection.INPUT := by
    unfold record_direction
    rw [if_neg hd1, if_neg hd2]
  refine ⟨hdir, ?_, ?_⟩
  · intro hf
    have hmatch : record_matches f fsn fnn j = true := by
      unfold record_matches
      simp [hobj, hjs, hjn, hjd, hdir, hf]
    refine ⟨hmatch, update_values_found self f m stream node fsn fnn pre post j hm hs hn hfsn
      hfnn hcfg hpre hmatch, ?_, ?_, ?_, ?_, ?_, ?_, ?_⟩
    · intro t ht
      unfold apply_record
      dsimp only
      rw [(update_priority_ident _ j).2.2.2.2.1, (update_mode_ident self _ j).2.2.2.2.1]
      exact (update_target_target f j).1 t ht
    · intro ht
      unfold apply_record
      dsimp only
      rw [(update_priority_ident _ j).2.2.2.2.1, (update_mode_ident self _ j).2.2.2.2.1]
      exact (update_target_target f j).2 ht
    · intro hmode
      unfold apply_record
      dsimp only
      rw [(update_priority_ident _ j).2.2.2.2.2]
      exact (update_mode_enabled self _ j).1 hmode
    · intro hmode
      unfold apply_record
      dsimp only
      rw [(update_priority_ident _ j).2.2.2.2.2]
      exact (update_mode_enabled self _ j).2.1 hmode
    · intro hmode
      unfold apply_record
      dsimp only
      rw [(update_priority_ident _ j).2.2.2.2.2]
      exact (update_mode_enabled self _ j).2.2.1 hmode
    · intro hmode
      unfold apply_record
      dsimp only
      rw [(update_priority_ident _ j).2.2.2.2.2]
      exact (update_mode_enabled self _ j).2.2.2.1 hmode
    · intro p hp
      unfold apply_record
      dsimp only
      exact (update_priority_priority _ j).1 p hp
  · intro hf
    have hmatch : record_matches f fsn fnn j = false := by
      unfold record_matches
      simp [hobj, hjs, hjn, hjd, hdir, hf]
    refine ⟨hmatch, ?_⟩
    clear hcfg
    induction pre with
    | nil => exact update_values_loop_skip self f fsn fnn j post hmatch
    | cons x rest ih =>
      rw [List.cons_append, update_values_loop_skip self f fsn fnn x _
        (hpre x (List.mem_cons_self _ _))]
      exact ih (fun y hy => hpre y (List.mem_cons_of_mem _ hy))

theorem invalid_direction_is_input_witness :
    record_direction "sideways" = WpDirection.INPUT ∧
    (chain_A.direction = WpDirection.INPUT →
      record_matches chain_A "sA" "nA" sideways_record = true ∧
      update_values_from_metadata
          (config_state_with (some (WpSpaJson.array [chain_record_B, sideways_record])))
          chain_A
        = some (apply_record
          (config_state_with (some (WpSpaJson.array [chain_record_B, sideways_record])))
          chain_A sideways_record) ∧
      (apply_record
        (config_state_with (some (WpSpaJson.array [chain_record_B, sideways_record])))
        chain_A sideways_record).2
        = { chain_A with target := some "hp", enabled := false, priority := 7 }) :=
  have h := invalid_direction_is_input
    (config_state_with (some (WpSpaJson.array [chain_record_B, sideways_record]))) chain_A
    { configured_targets := none
      configured_filters := some (WpSpaJson.array [chain_record_B, sideways_record]) }
    (example_node 11 "sA" "Stream/Output/Audio" "A") (example_node 10 "nA" "Audio/Sink" "A")
    "sA" "nA" "sideways" [chain_record_B] [] sideways_record rfl rfl rfl (by decide) (by decide)
    rfl (by decide) rfl (by decide) (by decide) (by decide) (by decide) (by decide)
  ⟨h.1, fun hd => ⟨(h.2.1 hd).1, (h.2.1 hd).2.1, by decide⟩⟩

/-! ## The stream counters -/

/-- The removal of a stream: a counter that is 0 stays 0 and the state is the
same, a positive counter of the media class of the stream goes down by 1, the
other counter and the rest of the state stay. -/
theorem on_stream_node_removed_counters (self : WpFiltersApi) (proxy : WpNode) (mc : String)
    (hmc : wp_pipewire_object_get_property proxy PW_KEY_MEDIA_CLASS = some mc) :
    (mc = "Stream/Output/Audio" → self.n_playback_stream_nodes = 0 →
      on_stream_node_removed self proxy = some self) ∧
    (mc = "Stream/Input/Audio" → self.n_capture_stream_nodes = 0 →
      on_stream_node_removed self proxy = some self) ∧
    (mc = "Stream/Output/Audio" → 0 < self.n_playback_stream_nodes →
      on_stream_node_removed self proxy
        = some { self with n_playback_stream_nodes := self.n_playback_stream_nodes - 1 }) ∧
    (mc = "Stream/Input/Audio" → 0 < self.n_capture_stream_nodes →
      on_stream_node_removed self proxy
        = some { self with n_capture_stream_nodes := self.n_capture_stream_nodes - 1 }) ∧
    (mc ≠ "Stream/Output/Audio" → mc ≠ "Stream/Input/Audio" →
      on_stream_node_removed self proxy = some self) := by
  unfold on_stream_node_removed
  simp only [hmc]
  refine ⟨?_, ?_, ?_, ?_, ?_⟩
  · intro h1 h0
    subst h1
    rw [if_neg (by omega), if_neg (fun h => absurd h.1 (by decide))]
  · intro h1 h0
    subst h1
    rw [if_neg (fun h => absurd h.1 (by decide)), if_neg (by omega)]
  · intro h1 h0
    subst h1
    rw [if_pos ⟨rfl, h0⟩]
  · intro h1 h0
    subst h1
    rw [if_neg (fun h => absurd h.1 (by decide)), if_pos ⟨rfl, h0⟩]
  · intro h1 h2
    rw [if_neg (fun h => h1 h.1), if_neg (fun h => h2 h.1)]

/-- The appearance of a stream: the counter of its media class goes up by 1 in
`guint`, the other counter and the rest of the state stay. -/
theorem on_stream_node_added_counters (self : WpFiltersApi) (proxy : WpNode) (mc : String)
    (hmc : wp_pipewire_object_get_property proxy PW_KEY_MEDIA_CLASS = some mc) :
    (mc = "Stream/Output/Audio" →
      on_stream_node_added self proxy = some { self with
        n_playback_stream_nodes := (self.n_playback_stream_nodes + 1) % 4294967296 }) ∧
    (mc = "Stream/Input/Audio" →
      on_stream_node_added self proxy = some { self with
        n_capture_stream_nodes := (self.n_capture_stream_nodes + 1) % 4294967296 }) ∧
    (mc ≠ "Stream/Output/Audio" → mc ≠ "Stream/Input/Audio" →
      on_stream_node_added self proxy = some self) := by
  unfold on_stream_node_added
  simp only [hmc]
  refine ⟨?_, ?_, ?_⟩
  · intro h1
    subst h1
    rw [if_pos rfl]
  · intro h1
    subst h1
    rw [if_neg (by decide), if_pos rfl]
  · intro h1 h2
    rw [if_neg h1, if_neg h2]

/-- The count of the spec goes event by event. -/
theorem counted_streams_cons (mc : String) (n : Nat) (e : Event) (rest : List Event) :
    counted_streams mc n (e :: rest) = counted_streams mc (counted_streams mc n [e]) rest := by
  cases e <;> simp only [counted_streams] <;> split <;> rfl

/-- One event on a generic stream: the handler returns, touches nothing but
the two counters, and while the counters are below the largest `guint` each of
them becomes what the spec counts. -/
theorem handle_stream_event (self : WpFiltersApi) (e : Event) (he : stream_event e = true) :
    ∃ s, handle self e = some s ∧
      s = { self with
        n_playback_stream_nodes := s.n_playback_stream_nodes
        n_capture_stream_nodes := s.n_capture_stream_nodes } ∧
      (self.n_playback_stream_nodes + 1 < 4294967296 →
        s.n_playback_stream_nodes
          = counted_streams "Stream/Output/Audio" self.n_playback_stream_nodes [e]) ∧
      (self.n_capture_stream_nodes + 1 < 4294967296 →
        s.n_capture_stream_nodes
          = counted_streams "Stream/Input/Audio" self.n_capture_stream_nodes [e]) ∧
      s.n_playback_stream_nodes ≤ self.n_playback_stream_nodes + 1 ∧
      s.n_capture_stream_nodes ≤ self.n_capture_stream_nodes + 1 := by
  cases e with
  | stream_node_added p =>
    unfold stream_event at he
    obtain ⟨mc, hmc⟩ := Option.isSome_iff_exists.1 he
    obtain ⟨h1, h2, h3⟩ := on_stream_node_added_counters self p mc hmc
    by_cases hp : mc = "Stream/Output/Audio"
    · refine ⟨_, h1 hp, rfl, ?_, ?_, ?_, ?_⟩
      · intro hb
        subst hp
        simp only [counted_streams, hmc, if_true]
        exact Nat.mod_eq_of_lt hb
      · intro _
        subst hp
        simp only [counted_streams, hmc]
        rw [if_neg (by decide)]
      · exact Nat.mod_le _ _
      · exact Nat.le_succ _
    · by_cases hc : mc = "Stream/Input/Audio"
      · refine ⟨_, h2 hc, rfl, ?_, ?_, ?_, ?_⟩
        · intro _
          subst hc
          simp only [counted_streams, hmc]
          rw [if_neg (by decide)]
        · intro hb
          subst hc
          simp only [counted_streams, hmc, if_true]
          exact Nat.mod_eq_of_lt hb
        · exact Nat.le_succ _
        · exact Nat.mod_le _ _
      · refine ⟨_, h3 hp hc, rfl, ?_, ?_, Nat.le_succ _, Nat.le_succ _⟩
        · intro _
          simp only [counted_streams, hmc]
          rw [if_neg (fun h => hp (Option.some.inj h))]
        · intro _
          simp only [counted_streams, hmc]
          rw [if_neg (fun h => hc (Option.some.inj h))]
  | stream_node_removed p =>
    unfold stream_event at he
    obtain ⟨mc, hmc⟩ := Option.isSome_iff_exists.1 he
    obtain ⟨h1, h2, h3, h4, h5⟩ := on_stream_node_removed_counters self p mc hmc
    by_cases hp : mc = "Stream/Output/Audio"
    · by_cases h0 : self.n_playback_stream_nodes = 0
      · refine ⟨_, h1 hp h0, rfl, ?_, ?_, Nat.le_succ _, Nat.le_succ _⟩
        · intro _
          subst hp
          simp only [counted_streams, hmc, if_true, h0]
        · intro _
          subst hp
          simp only [counted_streams, hmc]
          rw [if_neg (by decide)]
      · refine ⟨_, h3 hp (Nat.pos_of_ne_zero h0), rfl, ?_, ?_, ?_, Nat.le_succ _⟩
        · intro _
          subst hp
          simp only [counted_streams, hmc, if_true, if_neg h0]
        · intro _
          subst hp
          simp only [counted_streams, hmc]
          rw [if_neg (by decide)]
        · show self.n_playback_stream_nodes - 1 ≤ self.n_playback_stream_nodes + 1
          omega
    · by_cases hc : mc = "Stream/Input/Audio"
      · by_cases h0 : self.n_capture_stream_nodes = 0
        · refine ⟨_, h2 hc h0, rfl, ?_, ?_, Nat.le_succ _, Nat.le_succ _⟩
          · intro _
            subst hc
            simp only [counted_streams, hmc]
            rw [if_neg (by decide)]
          · intro _
            subst hc
            simp only [counted_streams, hmc, if_true, h0]
        · refine ⟨_, h4 hc (Nat.pos_of_ne_zero h0), rfl, ?_, ?_, Nat.le_succ _, ?_⟩
          · intro _
            subst hc
            simp only [counted_streams, hmc]
            rw [if_neg (by decide)]
          · intro _
            subst hc
            simp only [counted_streams, hmc, if_true, if_neg h0]
          · show self.n_capture_stream_nodes - 1 ≤ self.n_capture_stream_nodes + 1
            omega
      · refine ⟨_, h5 hp hc, rfl, ?_, ?_, Nat.le_succ _, Nat.le_succ _⟩
        · intro _
          simp only [counted_streams, hmc]
          rw [if_neg (fun h => hp (Option.some.inj h))]
        · intro _
          simp only [counted_streams, hmc]
          rw [if_neg (fun h => hc (Option.some.inj h))]
  | _ => exact absurd he (by simp [stream_event])

/-- A sequence of events on generic streams: the run returns, touches nothing
but the two counters, neither counter grows by more than the number of events,
and while the counters stay below the largest `guint` they are what the spec
counts. -/
theorem run_stream_events (events : List Event) (self : WpFiltersApi)
    (hev : ∀ e ∈ events, stream_event e = true) :
    ∃ s, run self events = some s ∧
      s = { self with
        n_playback_stream_nodes := s.n_playback_stream_nodes
        n_capture_stream_nodes := s.n_capture_stream_nodes } ∧
      (self.n_playback_stream_nodes + events.length < 4294967296 →
        s.n_playback_stream_nodes
          = counted_streams "Stream/Output/Audio" self.n_playback_stream_nodes events) ∧
      (self.n_capture_stream_nodes + events.length < 4294967296 →
        s.n_capture_stream_nodes
          = counted_streams "Stream/Input/Audio" self.n_capture_stream_nodes events) ∧
      s.n_playback_stream_nodes ≤ self.n_playback_stream_nodes + events.length ∧
      s.n_capture_stream_nodes ≤ self.n_capture_stream_nodes + events.length := by
  induction events generalizing self with
  | nil => exact ⟨self, rfl, rfl, fun _ => rfl, fun _ => rfl, Nat.le_refl _, Nat.le_refl _⟩
  | cons e rest ih =>
    obtain ⟨s1, h1, hf1, hp1, hc1, hlp1, hlc1⟩ :=
      handle_stream_event self e (hev e (List.mem_cons_self _ _))
    obtain ⟨s, h2, hf2, hp2, hc2, hlp2, hlc2⟩ :=
      ih s1 (fun x hx => hev x (List.mem_cons_of_mem _ hx))
    have hlen : (e :: rest).length = rest.length + 1 := rfl
    refine ⟨s, ?_, ?_, ?_, ?_, ?_, ?_⟩
    · unfold run
      rw [h1]
      exact h2
    · rw [hf1] at hf2
      exact hf2
    · intro hb
      rw [hlen] at hb
      rw [counted_streams_cons, ← hp1 (by omega)]
      exact hp2 (by omega)
    · intro hb
      rw [hlen] at hb
      rw [counted_streams_cons, ← hc1 (by omega)]
      exact hc2 (by omega)
    · rw [hlen]
      omega
    · rw [hlen]
      omega

/-- C23. Counter floor. Every sequence of appearances and removals of generic
streams is handled to the end and touches nothing but the two counters; while
the counters stay below the largest `guint` (as they do from 0 for fewer than
2^32 events) each is the number the spec counts, going up by 1 for a stream of
its media class that appears, down by 1 for one that is removed and staying at
0 when it is 0, and no counter grows by more than the number of events. A
removal of a stream of the class Stream/Output/Audio (Stream/Input/Audio) while
the playback (capture) counter is 0 leaves the whole state as it is; a removal
with a positive counter takes exactly 1 from the one counter of the media
class; an appearance adds 1 to it in `guint`; a stream of another media class
changes nothing. -/
theorem counter_floor (self : WpFiltersApi) (events : List Event)
    (hev : ∀ e ∈ events, stream_event e = true) :
    (∃ s, run self events = some s ∧
      s = { self with
        n_playback_stream_nodes := s.n_playback_stream_nodes
        n_capture_stream_nodes := s.n_capture_stream_nodes } ∧
      (self.n_playback_stream_nodes + events.length < 4294967296 →
        s.n_playback_stream_nodes
          = counted_streams "Stream/Output/Audio" self.n_playback_stream_nodes events) ∧
      (self.n_capture_stream_nodes + events.length < 4294967296 →
        s.n_capture_stream_nodes
          = counted_streams "Stream/Input/Audio" self.n_capture_stream_nodes events) ∧
      s.n_playback_stream_nodes ≤ self.n_playback_stream_nodes + events.length ∧
      s.n_capture_stream_nodes ≤ self.n_capture_stream_nodes + events.length) ∧
    (∀ proxy mc, wp_pipewire_object_get_property proxy PW_KEY_MEDIA_CLASS = some mc →
      (mc = "Stream/Output/Audio" → self.n_playback_stream_nodes = 0 →
        on_stream_node_removed self proxy = some self) ∧
      (mc = "Stream/Input/Audio" → self.n_capture_stream_nodes = 0 →
        on_stream_node_removed self proxy = some self) ∧
      (mc = "Stream/Output/Audio" → 0 < self.n_playback_stream_nodes →
        on_stream_node_removed self proxy
          = some { self with n_playback_stream_nodes := self.n_playback_stream_nodes - 1 }) ∧
      (mc = "Stream/Input/Audio" → 0 < self.n_capture_stream_nodes →
        on_stream_node_removed self proxy
          = some { self with n_capture_stream_nodes := self.n_capture_stream_nodes - 1 }) ∧
      (mc ≠ "Stream/Output/Audio" → mc ≠ "Stream/Input/Audio" →
        on_stream_node_removed self proxy = some self) ∧
      (mc = "Stream/Output/Audio" →
        on_stream_node_added self proxy = some { self with
          n_playback_stream_nodes := (self.n_playback_stream_nodes + 1) % 4294967296 }) ∧
      (mc = "Stream/Input/Audio" →
        on_stream_node_added self proxy = some { self with
          n_capture_stream_nodes := (self.n_capture_stream_nodes + 1) % 4294967296 }) ∧
      (mc ≠ "Stream/Output/Audio" → mc ≠ "Stream/Input/Audio" →
        on_stream_node_added self proxy = some self)) := by
  refine ⟨run_stream_events events self hev, ?_⟩
  intro proxy mc hmc
  obtain ⟨h1, h2, h3, h4, h5⟩ := on_stream_node_removed_counters self proxy mc hmc
  obtain ⟨h6, h7, h8⟩ := on_stream_node_added_counters self proxy mc hmc
  exact ⟨h1, h2, h3, h4, h5, h6, h7, h8⟩

theorem counter_floor_witness :
    (∀ e ∈ counter_events, stream_event e = true) ∧
    (∃ s, run wp_filters_api_enabled counter_events = some s ∧
      s.n_playback_stream_nodes = 0 ∧ s.n_capture_stream_nodes = 1 ∧
      counted_streams "Stream/Output/Audio" 0 counter_events = 0 ∧
      counted_streams "Stream/Input/Audio" 0 counter_events = 1) ∧
    on_stream_node_removed wp_filters_api_enabled (stream_node 60 "Stream/Input/Audio")
      = some wp_filters_api_enabled := by
  have h := counter_floor wp_filters_api_enabled counter_events (by decide)
  obtain ⟨⟨s, hs, _, hp, hc, _, _⟩, hev⟩ := h
  refine ⟨by decide, ⟨s, hs, ?_, ?_, by decide, by decide⟩, ?_⟩
  · rw [hp (by decide)]
    decide
  · rw [hc (by decide)]
    decide
  · exact (hev (stream_node 60 "Stream/Input/Audio") "Stream/Input/Audio" rfl).2.1 rfl rfl

/-! ## The change flag -/

/-- The flag of the "Update target" block is set exactly when the target is
not what it was. -/
theorem update_target_flag (f : Filter) (j : WpSpaJson) :
    (update_target f j).1 = true ↔ (update_target f j).2.target ≠ f.target := by
  unfold update_target
  cases wp_spa_json_object_get_string j "target" with
  | none =>
    dsimp only
    by_cases h : f.target ≠ none
    · rw [if_pos h]
      exact ⟨fun _ => fun e => h e.symm, fun _ => rfl⟩
    · rw [if_neg h]
      exact ⟨fun e => Bool.noConfusion e, fun e => absurd rfl e⟩
  | some t =>
    dsimp only
    by_cases h : f.target = none ∨ ¬ f.target = some t
    · rw [if_pos h]
      refine ⟨fun _ => ?_, fun _ => rfl⟩
      intro e
      rcases h with h | h
      · rw [h] at e
        cases e
      · exact h e.symm
    · rw [if_neg h]
      exact ⟨fun e => Bool.noConfusion e, fun e => absurd rfl e⟩

/-- The flag of the "Update mode" block is set exactly when the filter is
enabled or disabled by it. -/
theorem update_mode_flag (self : WpFiltersApi) (f : Filter) (j : WpSpaJson) :
    (update_mode self f j).1 = true ↔ (update_mode self f j).2.enabled ≠ f.enabled := by
  unfold update_mode
  split
  · split
    · split
      · rename_i h
        simp [h]
      · simp
    · split
      · split
        · rename_i h
          simp [h]
        · simp
      · split
        · split
          · rename_i h
            exact ⟨fun _ => fun e => h e.symm, fun _ => rfl⟩
          · simp
        · split
          · split
            · rename_i h
              exact ⟨fun _ => fun e => h e.symm, fun _ => rfl⟩
            · simp
          · simp
  · simp

/-- The flag of the "Update priority" block is set exactly when the priority
is not what it was. -/
theorem update_priority_flag (f : Filter) (j : WpSpaJson) :
    (update_priority f j).1 = true ↔ (update_priority f j).2.priority ≠ f.priority := by
  unfold update_priority
  split
  · split
    · rename_i h
      exact ⟨fun _ => fun e => h e.symm, fun _ => rfl⟩
    · simp
  · simp

/-- The flag of a record that is applied is set exactly when target, enabled
or priority of the filter is not what it was. -/
theorem apply_record_flag (self : WpFiltersApi) (f : Filter) (j : WpSpaJson) :
    (apply_record self f j).1 = true ↔ fields_changed f (apply_record self f j).2 := by
  unfold fields_changed apply_record
  dsimp only
  have ht := update_target_flag f j
  have hm := update_mode_flag self (update_target f j).2 j
  have hp := update_priority_flag (update_mode self (update_target f j).2 j).2 j
  have i1 := update_target_ident f j
  have i2 := update_mode_ident self (update_target f j).2 j
  have i3 := update_priority_ident (update_mode self (update_target f j).2 j).2 j
  rw [i3.2.2.2.2.1, i2.2.2.2.2.1, i3.2.2.2.2.2]
  rw [i1.2.2.2.2.1] at hm
  rw [i2.2.2.2.2.2, i1.2.2.2.2.2] at hp
  simp only [Bool.or_eq_true]
  rw [ht, hm, hp]
  tauto

/-- What `update_values_from_metadata` returns: the filter as it was, with
the flag false, or a record applied to it. -/
theorem update_values_cases (self : WpFiltersApi) (f : Filter) (r : Bool × Filter)
    (h : update_values_from_metadata self f = some r) :
    r = (false, f) ∨ ∃ j, r = apply_record self f j := by
  unfold update_values_from_metadata at h
  split at h
  · left
    cases h
    rfl
  · split at h
    · split at h
      · left
        cases h
        rfl
      · rcases update_values_loop_cases _ _ _ _ _ _ h with ⟨h1, _⟩ | ⟨j, h1, _⟩
        · exact Or.inl h1
        · exact Or.inr ⟨j, h1⟩
      · left
        cases h
        rfl
    · left
      cases h
      rfl

/-- The flag `update_values_from_metadata` returns is true exactly when
target, enabled or priority of the filter is not what it was. -/
theorem update_values_flag (self : WpFiltersApi) (f : Filter) (r : Bool × Filter)
    (h : update_values_from_metadata self f = some r) :
    r.1 = true ↔ fields_changed f r.2 := by
  rcases update_values_cases self f r h with rfl | ⟨j, rfl⟩
  · simp [fields_changed]
  · exact apply_record_flag self f j

/-- With both node names at hand the loop over the records returns. -/
theorem update_values_loop_returns (self : WpFiltersApi) (f : Filter) (fsn fnn : String)
    (items : List WpSpaJson) :
    ∃ r, update_values_loop self f (some fsn) (some fnn) items = some r := by
  induction items with
  | nil => exact ⟨_, rfl⟩
  | cons x rest ih =>
    cases hx : record_matches f fsn fnn x with
    | true => exact ⟨_, update_values_loop_hit self f fsn fnn x rest hx⟩
    | false =>
      rw [update_values_loop_skip self f fsn fnn x rest hx]
      exact ih

/-- For a filter whose nodes have a node name `update_values_from_metadata`
returns. -/
theorem update_values_returns (self : WpFiltersApi) (f : Filter) (h : filter_named f = true) :
    ∃ r, update_values_from_metadata self f = some r := by
  unfold update_values_from_metadata
  unfold filter_named at h
  split
  · exact ⟨_, rfl⟩
  · split
    · rename_i stream node hs hn
      simp only [hs, hn, Bool.and_eq_true] at h
      obtain ⟨fsn, hfsn⟩ := Option.isSome_iff_exists.1 h.1
      obtain ⟨fnn, hfnn⟩ := Option.isSome_iff_exists.1 h.2
      split
      · exact ⟨_, rfl⟩
      · rw [hfsn, hfnn]
        exact update_values_loop_returns self f fsn fnn _
      · exact ⟨_, rfl⟩
    · exact ⟨_, rfl⟩

/-- The loop of `reevaluate_filters`: each filter of the result is what
`update_values_from_metadata` makes of the filter at its place, and the flag is
true exactly when one of them has another target, enabled or priority. -/
theorem reevaluate_filters_loop_flag (self : WpFiltersApi) (l : List Filter)
    (r : Bool × List Filter) (h : reevaluate_filters_loop self l = some r) :
    List.Forall₂ (fun f g => ∃ b, update_values_from_metadata self f = some (b, g)) l r.2 ∧
    (r.1 = true ↔ ∃ p ∈ l.zip r.2, fields_changed p.1 p.2) := by
  induction l generalizing r with
  | nil =>
    unfold reevaluate_filters_loop at h
    cases h
    exact ⟨List.Forall₂.nil, by simp⟩
  | cons f rest ih =>
    unfold reevaluate_filters_loop at h
    split at h
    · cases h
    · rename_i u hu
      split at h
      · cases h
      · rename_i rs hrs
        cases h
        obtain ⟨ih1, ih2⟩ := ih rs hrs
        refine ⟨List.Forall₂.cons ⟨u.1, hu⟩ ih1, ?_⟩
        have hflag := update_values_flag self f u hu
        simp only [Bool.or_eq_true, List.zip_cons_cons, List.exists_mem_cons_iff]
        rw [hflag, ih2]

/-- The loop of `reevaluate_filters` returns when the nodes of every filter
have a node name. -/
theorem reevaluate_filters_loop_returns (self : WpFiltersApi) (l : List Filter)
    (h : ∀ f ∈ l, filter_named f = true) :
    ∃ r, reevaluate_filters_loop self l = some r := by
  induction l with
  | nil => exact ⟨_, rfl⟩
  | cons f rest ih =>
    obtain ⟨u, hu⟩ := update_values_returns self f (h f (List.mem_cons_self _ _))
    obtain ⟨rs, hrs⟩ := ih (fun x hx => h x (List.mem_cons_of_mem _ hx))
    unfold reevaluate_filters_loop
    rw [hu, hrs]
    exact ⟨_, rfl⟩

/-- C26. Change flag exactness. `update_values_from_metadata` returns for
every filter whose nodes have a node name, and the flag it returns is true if
and only if target, enabled or priority of the filter after the call is not
what it was before. `reevaluate_filters` returns when every filter of the
direction has named nodes; each filter it leaves is what
`update_values_from_metadata` makes of the filter at its place, and it
returns true, with the list sorted again, if and only if one of the filters has
another target, enabled or priority; when it returns false the state is the
same. -/
theorem change_flag_exact (self : WpFiltersApi) :
    (∀ f, filter_named f = true → ∃ r, update_values_from_metadata self f = some r) ∧
    (∀ f r, update_values_from_metadata self f = some r →
      (r.1 = true ↔ fields_changed f r.2)) ∧
    (∀ dir, (∀ f ∈ filters self dir, filter_named f = true) →
      ∃ r, reevaluate_filters self dir = some r) ∧
    (∀ dir r, reevaluate_filters self dir = some r →
      ∃ l, List.Forall₂ (fun f g => ∃ b, update_values_from_metadata self f = some (b, g))
          (filters self dir) l ∧
        (r.1 = true ↔ ∃ p ∈ (filters self dir).zip l, fields_changed p.1 p.2) ∧
        (r.1 = true → r.2 = set_filters self dir (g_list_sort filter_compare_func l)) ∧
        (r.1 = false → l = filters self dir ∧ r.2 = self)) := by
  refine ⟨update_values_returns self, update_values_flag self, ?_, ?_⟩
  · intro dir h
    obtain ⟨rl, hrl⟩ := reevaluate_filters_loop_returns self _ h
    unfold reevaluate_filters
    rw [hrl]
    dsimp only
    split
    · exact ⟨_, rfl⟩
    · exact ⟨_, rfl⟩
  · intro dir r h
    unfold reevaluate_filters at h
    split at h
    · cases h
    · rename_i rl hrl
      obtain ⟨h1, h2⟩ := reevaluate_filters_loop_flag self _ rl hrl
      have h3 := (reevaluate_filters_loop_props self _ rl hrl).1
      split at h
      · rename_i ht
        cases h
        refine ⟨rl.2, h1, ?_, fun _ => rfl, fun hf => Bool.noConfusion hf⟩
        rw [← h2]
        exact ⟨fun _ => ht, fun _ => rfl⟩
      · rename_i ht
        cases h
        have hfalse : rl.1 = false := by simpa using ht
        refine ⟨rl.2, h1, ?_, fun hf => Bool.noConfusion hf, fun _ => ?_⟩
        · rw [← h2]
          exact ⟨fun hf => Bool.noConfusion hf, fun hf => absurd hf ht⟩
        · refine ⟨h3 hfalse, ?_⟩
          rw [h3 hfalse]
          exact set_filters_self self dir

theorem change_flag_exact_witness :
    (filter_named fresh_A = true ∧
      ∃ r, update_values_from_metadata chain_config_state fresh_A = some r) ∧
    (update_values_from_metadata chain_config_state fresh_A = some (true, chain_A) ∧
      ((true, chain_A).1 = true ↔ fields_changed fresh_A (true, chain_A).2)) ∧
    (update_values_from_metadata chain_config_state chain_A = some (false, chain_A) ∧
      ((false, chain_A).1 = true ↔ fields_changed chain_A (false, chain_A).2)) ∧
    ((∀ f ∈ filters { chain_config_state with filters_input := [chain_B, fresh_A] }
        WpDirection.INPUT, filter_named f = true) ∧
      ∃ r, reevaluate_filters { chain_config_state with filters_input := [chain_B, fresh_A] }
        WpDirection.INPUT = some r) :=
  ⟨⟨by decide, (change_flag_exact chain_config_state).1 fresh_A (by decide)⟩,
    ⟨by decide, (change_flag_exact chain_config_state).2.1 fresh_A (true, chain_A) (by decide)⟩,
    ⟨by decide, (change_flag_exact chain_config_state).2.1 chain_A (false, chain_A) (by decide)⟩,
    ⟨by decide,
      (change_flag_exact { chain_config_state with filters_input := [chain_B, fresh_A] }).2.2.1
        WpDirection.INPUT (by decide)⟩⟩

/-! ## The mode of a filter when the number of streams changes -/

/-- The filters the loop of `reevaluate_filters` leaves and its flag: a filter
is in the result exactly when `update_values_from_metadata` makes it of a
filter of the list, and the flag is true exactly when one of the calls returns
true. -/
theorem reevaluate_filters_loop_mem (self : WpFiltersApi) (l : List Filter)
    (r : Bool × List Filter) (h : reevaluate_filters_loop self l = some r) :
    (∀ g, g ∈ r.2 ↔ ∃ f ∈ l, ∃ b, update_values_from_metadata self f = some (b, g)) ∧
    (r.1 = true ↔ ∃ f ∈ l, ∃ g, update_values_from_metadata self f = some (true, g)) := by
  induction l generalizing r with
  | nil =>
    unfold reevaluate_filters_loop at h
    cases h
    simp
  | cons f rest ih =>
    unfold reevaluate_filters_loop at h
    split at h
    · cases h
    · rename_i u hu
      split at h
      · cases h
      · rename_i rs hrs
        cases h
        obtain ⟨ih1, ih2⟩ := ih rs hrs
        constructor
        · intro g
          simp only [List.mem_cons, ih1 g]
          constructor
          · rintro (rfl | ⟨f2, hf2, b, hb⟩)
            · exact ⟨f, Or.inl rfl, u.1, hu⟩
            · exact ⟨f2, Or.inr hf2, b, hb⟩
          · rintro ⟨f2, rfl | hf2, b, hb⟩
            · rw [hu] at hb
              left
              exact (congrArg Prod.snd (Option.some.inj hb)).symm
            · exact Or.inr ⟨f2, hf2, b, hb⟩
        · simp only [Bool.or_eq_true, ih2]
          constructor
          · rintro (h1 | ⟨f2, hf2, g, hg⟩)
            · refine ⟨f, List.mem_cons_self _ _, u.2, ?_⟩
              rw [hu, ← h1]
            · exact ⟨f2, List.mem_cons_of_mem _ hf2, g, hg⟩
          · rintro ⟨f2, hf2, g, hg⟩
            rcases List.mem_cons.1 hf2 with rfl | hf2
            · rw [hu] at hg
              left
              exact congrArg Prod.fst (Option.some.inj hg)
            · exact Or.inr ⟨f2, hf2, g, hg⟩

/-- The filters `reevaluate_filters` leaves in its direction, and its flag. -/
theorem reevaluate_filters_mem (self : WpFiltersApi) (d : WpDirection)
    (r : Bool × WpFiltersApi) (h : reevaluate_filters self d = some r) :
    (∀ g, g ∈ filters r.2 d ↔
      ∃ f ∈ filters self d, ∃ b, update_values_from_metadata self f = some (b, g)) ∧
    (r.1 = true ↔
      ∃ f ∈ filters self d, ∃ g, update_values_from_metadata self f = some (true, g)) := by
  unfold reevaluate_filters at h
  split at h
  · cases h
  · rename_i rl hrl
    obtain ⟨h1, h2⟩ := reevaluate_filters_loop_mem self _ rl hrl
    split at h
    · rename_i ht
      cases h
      refine ⟨fun g => ?_, ?_⟩
      · rw [filters_set_filters_same, (sort_perm filter_compare_func rl.2).mem_iff]
        exact h1 g
      · rw [← h2]
        exact ⟨fun _ => ht, fun _ => rfl⟩
    · rename_i ht
      cases h
      refine ⟨fun g => ?_, ?_⟩
      · rw [filters_set_filters_same]
        exact h1 g
      · rw [← h2]
        exact ⟨fun hf => Bool.noConfusion hf, fun hf => absurd hf ht⟩

/-- The filters the loop over both directions leaves, and its flag. -/
theorem reevaluate_both_mem (self : WpFiltersApi) (r : Bool × WpFiltersApi)
    (h : reevaluate_both self = some r) :
    (∀ dir g, g ∈ filters r.2 dir ↔
      ∃ f ∈ filters self dir, ∃ b, update_values_from_metadata self f = some (b, g)) ∧
    (r.1 = true ↔
      ∃ dir, ∃ f ∈ filters self dir, ∃ g,
        update_values_from_metadata self f = some (true, g)) := by
  unfold reevaluate_both at h
  split at h
  · cases h
  · rename_i r0 h0
    split at h
    · cases h
    · rename_i r1 h1
      cases h
      obtain ⟨m0, f0⟩ := reevaluate_filters_mem self WpDirection.INPUT r0 h0
      obtain ⟨m1, f1⟩ := reevaluate_filters_mem r0.2 WpDirection.OUTPUT r1 h1
      obtain ⟨e0, _, o0⟩ := reevaluate_filters_settles self WpDirection.INPUT r0 h0
      obtain ⟨_, _, o1⟩ := reevaluate_filters_settles r0.2 WpDirection.OUTPUT r1 h1
      have hc : ∀ f, update_values_from_metadata r0.2 f = update_values_from_metadata self f :=
        update_values_congr self r0.2 e0.1 e0.2.2.1 e0.2.2.2.1
      have hout : filters r0.2 WpDirection.OUTPUT = filters self WpDirection.OUTPUT :=
        o0 WpDirection.OUTPUT (by decide)
      have hin : filters r1.2 WpDirection.INPUT = filters r0.2 WpDirection.INPUT :=
        o1 WpDirection.INPUT (by decide)
      simp only [hc, hout] at m1 f1
      constructor
      · intro dir g
        cases dir with
        | INPUT =>
          show g ∈ filters r1.2 WpDirection.INPUT ↔ _
          rw [hin]
          exact m0 g
        | OUTPUT => exact m1 g
      · show (r0.1 || r1.1) = true ↔ _
        simp only [Bool.or_eq_true, f0, f1]
        constructor
        · rintro (h | h)
          · exact ⟨WpDirection.INPUT, h⟩
          · exact ⟨WpDirection.OUTPUT, h⟩
        · rintro ⟨dir, h⟩
          cases dir with
          | INPUT => exact Or.inl h
          | OUTPUT => exact Or.inr h

/-- The loop over both directions returns when the nodes of every filter have
a node name. -/
theorem reevaluate_both_returns (self : WpFiltersApi)
    (h : ∀ dir, ∀ f ∈ filters self dir, filter_named f = true) :
    ∃ r, reevaluate_both self = some r := by
  have hret : ∀ (s : WpFiltersApi) (d : WpDirection),
      (∀ f ∈ filters s d, filter_named f = true) → ∃ r, reevaluate_filters s d = some r := by
    intro s d hs
    obtain ⟨rl, hrl⟩ := reevaluate_filters_loop_returns s _ hs
    unfold reevaluate_filters
    rw [hrl]
    dsimp only
    split
    · exact ⟨_, rfl⟩
    · exact ⟨_, rfl⟩
  obtain ⟨r0, h0⟩ := hret self WpDirection.INPUT (h WpDirection.INPUT)
  obtain ⟨_, _, o0⟩ := reevaluate_filters_settles self WpDirection.INPUT r0 h0
  obtain ⟨r1, h1⟩ := hret r0.2 WpDirection.OUTPUT (by
    rw [o0 WpDirection.OUTPUT (by decide)]
    exact h WpDirection.OUTPUT)
  unfold reevaluate_both
  rw [h0]
  dsimp only
  rw [h1]
  exact ⟨_, rfl⟩

/-- A record with the mode "capture-only" that is applied: the filter is
enabled exactly when there is a capture stream, and the flag is true when that
is a change. -/
theorem apply_record_capture_only (self : WpFiltersApi) (f : Filter) (j : WpSpaJson)
    (hmode : wp_spa_json_object_get_string j "mode" = some "capture-only") :
    (apply_record self f j).2.enabled = decide (self.n_capture_stream_nodes > 0) ∧
    (f.enabled ≠ decide (self.n_capture_stream_nodes > 0) → (apply_record self f j).1 = true) := by
  have he : (apply_record self f j).2.enabled = decide (self.n_capture_stream_nodes > 0) := by
    unfold apply_record
    dsimp only
    rw [(update_priority_ident _ j).2.2.2.2.2]
    exact (update_mode_enabled self _ j).2.2.2.1 hmode
  refine ⟨he, fun hne => ?_⟩
  rw [apply_record_flag]
  right
  left
  rw [he]
  exact fun e => hne e.symm

/-- In a list with pairwise distinct link groups a filter is known by its link
group. -/
theorem filter_of_key (l : List Filter) (hnd : (l.map Filter.link_group).Nodup) (a b : Filter)
    (ha : a ∈ l) (hb : b ∈ l) (h : a.link_group = b.link_group) : a = b :=
  List.inj_on_of_nodup_map hnd ha hb h

/-- The loop over both directions touches neither the pending closures nor the
count of the emissions. -/
theorem reevaluate_both_pending (self : WpFiltersApi) (r : Bool × WpFiltersApi)
    (h : reevaluate_both self = some r) :
    r.2.pending_syncs = self.pending_syncs ∧ r.2.changed_emitted = self.changed_emitted := by
  have hset : ∀ (s : WpFiltersApi) (d : WpDirection) (l : List Filter),
      (set_filters s d l).pending_syncs = s.pending_syncs ∧
      (set_filters s d l).changed_emitted = s.changed_emitted := by
    intro s d l
    cases d <;> exact ⟨rfl, rfl⟩
  have hone : ∀ (s : WpFiltersApi) (d : WpDirection) (q : Bool × WpFiltersApi),
      reevaluate_filters s d = some q →
      q.2.pending_syncs = s.pending_syncs ∧ q.2.changed_emitted = s.changed_emitted := by
    intro s d q hq
    unfold reevaluate_filters at hq
    split at hq
    · cases hq
    · split at hq
      · cases hq
        exact hset _ _ _
      · cases hq
        exact hset _ _ _
  unfold reevaluate_both at h
  split at h
  · cases h
  · rename_i r0 h0
    split at h
    · cases h
    · rename_i r1 h1
      cases h
      obtain ⟨a0, b0⟩ := hone _ _ _ h0
      obtain ⟨a1, b1⟩ := hone _ _ _ h1
      exact ⟨a1.trans a0, b1.trans b0⟩

/-- The loop over both directions on a registry that has a filter with both
nodes bound whose matching record has the mode "capture-only": it returns, its
flag is true when the filter has to be enabled or disabled, and afterwards the
filter of that link group is enabled exactly when there is a capture stream. -/
theorem reevaluate_both_capture_only (self : WpFiltersApi) (hinv : registry_inv self)
    (hnamed : ∀ dir, ∀ g ∈ filters self dir, filter_named g = true)
    (dir : WpDirection) (f : Filter) (hf : f ∈ filters self dir)
    (m : WpMetadata) (stream node : WpNode) (fsn fnn : String) (pre post : List WpSpaJson)
    (j : WpSpaJson)
    (hm : self.metadata_om = some m) (hs : f.stream = some stream) (hn : f.node = some node)
    (hfsn : wp_pipewire_object_get_property stream PW_KEY_NODE_NAME = some fsn)
    (hfnn : wp_pipewire_object_get_property node PW_KEY_NODE_NAME = some fnn)
    (hcfg : m.configured_filters = some (WpSpaJson.array (pre ++ j :: post)))
    (hpre : ∀ x ∈ pre, record_matches f fsn fnn x = false)
    (hj : record_matches f fsn fnn j = true)
    (hmode : wp_spa_json_object_get_string j "mode" = some "capture-only") :
    ∃ r, reevaluate_both self = some r ∧
      (f.enabled ≠ decide (self.n_capture_stream_nodes > 0) → r.1 = true) ∧
      (∃ g ∈ filters r.2 dir, g.link_group = f.link_group) ∧
      (∀ g ∈ filters r.2 dir, g.link_group = f.link_group →
        g.enabled = decide (self.n_capture_stream_nodes > 0) ∧
        g.node = f.node ∧ g.stream = f.stream) := by
  obtain ⟨r, hr⟩ := reevaluate_both_returns self hnamed
  obtain ⟨hmem, hflag⟩ := reevaluate_both_mem self r hr
  have hu : update_values_from_metadata self f = some (apply_record self f j) :=
    update_values_found self f m stream node fsn fnn pre post j hm hs hn hfsn hfnn hcfg hpre hj
  obtain ⟨he, hchg⟩ := apply_record_capture_only self f j hmode
  have hid := apply_record_ident self f j
  refine ⟨r, hr, ?_, ?_, ?_⟩
  · intro hne
    rw [hflag]
    refine ⟨dir, f, hf, (apply_record self f j).2, ?_⟩
    rw [hu, ← hchg hne]
  · exact ⟨(apply_record self f j).2, (hmem dir _).2 ⟨f, hf, (apply_record self f j).1, hu⟩,
      hid.1⟩
  · intro g hg hkey
    obtain ⟨f2, hf2, b, hb⟩ := (hmem dir g).1 hg
    have hk2 : f2.link_group = f.link_group := by
      rw [← (update_values_ident self f2 (b, g) hb).1]
      exact hkey
    have hsame : f2 = f := filter_of_key _ (hinv dir).1 f2 f hf2 hf hk2
    rw [hsame, hu] at hb
    have hg2 : g = (apply_record self f j).2 := (congrArg Prod.snd (Option.some.inj hb)).symm
    rw [hg2]
    exact ⟨he, hid.2.2.1, hid.2.2.2⟩

/-- C22. Mode transition. In a state whose registry has pairwise distinct
link groups per direction (as it has in every state the module reaches) and
whose filters have named nodes, let `f` be a filter with both nodes bound whose
matching record has the mode "capture-only". If `f` is disabled and there is no
capture stream, then after `on_stream_node_added` for a stream of the class
Stream/Input/Audio, with the configuration as it was, the capture counter is 1
and `on_stream_nodes_changed` computes changed = true, schedules a notification
and leaves the filter of that link group enabled. And whatever the counters
are, after `on_stream_nodes_changed` the filter of that link group is enabled
exactly when the capture counter is at least 1. -/
theorem mode_transition (self : WpFiltersApi) (hinv : registry_inv self)
    (hnamed : ∀ dir, ∀ g ∈ filters self dir, filter_named g = true)
    (dir : WpDirection) (f : Filter) (hf : f ∈ filters self dir)
    (m : WpMetadata) (stream node : WpNode) (fsn fnn : String) (pre post : List WpSpaJson)
    (j : WpSpaJson)
    (hm : self.metadata_om = some m) (hs : f.stream = some stream) (hn : f.node = some node)
    (hfsn : wp_pipewire_object_get_property stream PW_KEY_NODE_NAME = some fsn)
    (hfnn : wp_pipewire_object_get_property node PW_KEY_NODE_NAME = some fnn)
    (hcfg : m.configured_filters = some (WpSpaJson.array (pre ++ j :: post)))
    (hpre : ∀ x ∈ pre, record_matches f fsn fnn x = false)
    (hj : record_matches f fsn fnn j = true)
    (hmode : wp_spa_json_object_get_string j "mode" = some "capture-only")
    (proxy : WpNode)
    (hmc : wp_pipewire_object_get_property proxy PW_KEY_MEDIA_CLASS = some "Stream/Input/Audio") :
    (f.enabled = false → self.n_capture_stream_nodes = 0 →
      ∃ s1 r s2, on_stream_node_added self proxy = some s1 ∧
        s1.n_capture_stream_nodes = 1 ∧ s1.metadata_om = self.metadata_om ∧
        reevaluate_both s1 = some (true, r) ∧
        on_stream_nodes_changed s1 = some s2 ∧ s2 = schedule_changed r ∧
        s2.pending_syncs = self.pending_syncs + 1 ∧
        (∃ g ∈ filters s2 dir, g.link_group = f.link_group) ∧
        (∀ g ∈ filters s2 dir, g.link_group = f.link_group →
          g.enabled = true ∧ g.node = f.node ∧ g.stream = f.stream)) ∧
    (∃ s2, on_stream_nodes_changed self = some s2 ∧
      (∃ g ∈ filters s2 dir, g.link_group = f.link_group) ∧
      (∀ g ∈ filters s2 dir, g.link_group = f.link_group →
        (g.enabled = true ↔ 1 ≤ self.n_capture_stream_nodes))) := by
  have hsched : ∀ (s : WpFiltersApi) (d : WpDirection),
      filters (schedule_changed s) d = filters s d := by
    intro s d
    cases d <;> rfl
  constructor
  · intro hdis hzero
    have hadd := (on_stream_node_added_counters self proxy _ hmc).2.1 rfl
    rw [hzero] at hadd
    have hfs : ∀ d, filters
        ({ self with n_capture_stream_nodes := (0 + 1) % 4294967296 } : WpFiltersApi) d
        = filters self d := by
      intro d
      cases d <;> rfl
    obtain ⟨r, hr, hflag, hex, hall⟩ := reevaluate_both_capture_only
      ({ self with n_capture_stream_nodes := (0 + 1) % 4294967296 } : WpFiltersApi)
      (registry_inv_congr self _ hfs hinv)
      (fun d g hg => hnamed d g (by rw [hfs d] at hg; exact hg))
      dir f (by rw [hfs dir]; exact hf) m stream node fsn fnn pre post j hm hs hn hfsn hfnn hcfg
      hpre hj hmode
    have htrue : r.1 = true := hflag (by rw [hdis]; dsimp only; decide)
    have hr2 : reevaluate_both
        ({ self with n_capture_stream_nodes := (0 + 1) % 4294967296 } : WpFiltersApi)
        = some (true, r.2) := by
      rw [hr, ← htrue]
    refine ⟨_, r.2, schedule_changed r.2, hadd, rfl, rfl, hr2, ?_, rfl, ?_, ?_, ?_⟩
    · unfold on_stream_nodes_changed
      rw [hr2]
      rfl
    · show r.2.pending_syncs + 1 = self.pending_syncs + 1
      rw [(reevaluate_both_pending _ r hr).1]
    · obtain ⟨g, hg, hk⟩ := hex
      exact ⟨g, by rw [hsched]; exact hg, hk⟩
    · intro g hg hk
      rw [hsched] at hg
      obtain ⟨h1, h2, h3⟩ := hall g hg hk
      exact ⟨by rw [h1]; dsimp only; decide, h2, h3⟩
  · obtain ⟨r, hr, _, hex, hall⟩ := reevaluate_both_capture_only self hinv hnamed dir f hf m
      stream node fsn fnn pre post j hm hs hn hfsn hfnn hcfg hpre hj hmode
    have hiff : ∀ g ∈ filters r.2 dir, g.link_group = f.link_group →
        (g.enabled = true ↔ 1 ≤ self.n_capture_stream_nodes) := by
      intro g hg hk
      rw [(hall g hg hk).1]
      simp only [decide_eq_true_eq]
      exact Iff.rfl
    by_cases ht : r.1 = true
    · refine ⟨schedule_changed r.2, ?_, ?_, ?_⟩
      · unfold on_stream_nodes_changed
        rw [hr]
        dsimp only
        rw [if_pos ht]
      · obtain ⟨g, hg, hk⟩ := hex
        exact ⟨g, by rw [hsched]; exact hg, hk⟩
      · intro g hg hk
        rw [hsched] at hg
        exact hiff g hg hk
    · refine ⟨r.2, ?_, hex, hiff⟩
      unfold on_stream_nodes_changed
      rw [hr]
      dsimp only
      rw [if_neg ht]

theorem mode_transition_witness :
    ∃ s1 r s2,
      on_stream_node_added capture_only_state (stream_node 62 "Stream/Input/Audio") = some s1 ∧
      s1.n_capture_stream_nodes = 1 ∧ s1.metadata_om = capture_only_state.metadata_om ∧
      reevaluate_both s1 = some (true, r) ∧
      on_stream_nodes_changed s1 = some s2 ∧ s2 = schedule_changed r ∧
      s2.pending_syncs = capture_only_state.pending_syncs + 1 ∧
      (∃ g ∈ filters s2 WpDirection.INPUT, g.link_group = "A") ∧
      (∀ g ∈ filters s2 WpDirection.INPUT, g.link_group = "A" →
        g.enabled = true ∧ g.node = chain_A.node ∧ g.stream = chain_A.stream) :=
  (mode_transition capture_only_state
    (by intro dir; cases dir <;> (unfold list_inv; decide))
    (by intro dir; cases dir <;> decide)
    WpDirection.INPUT { chain_A with enabled := false } (by decide)
    { configured_targets := none
      configured_filters := some (WpSpaJson.array
        [WpSpaJson.string "not a record", mode_record "sB" "nB" "input" "never",
          mode_record "sA" "nA" "input" "capture-only",
          mode_record "sA" "nA" "input" "never"]) }
    (example_node 11 "sA" "Stream/Output/Audio" "A") (example_node 10 "nA" "Audio/Sink" "A")
    "sA" "nA"
    [WpSpaJson.string "not a record", mode_record "sB" "nB" "input" "never"]
    [mode_record "sA" "nA" "input" "never"]
    (mode_record "sA" "nA" "input" "capture-only")
    rfl rfl rfl (by decide) (by decide) rfl (by decide) (by decide) (by decide)
    (stream_node 62 "Stream/Input/Audio") (by decide)).1 rfl rfl

/-! ## The order in which the filter nodes appear -/

/-- C24. The final registry depends on the order in which the filter nodes
appear: with the priorities 2000000000, 0 and -2000000000 configured for the
filters A, B and C, the six nodes appearing in the order of `cycle_nodes` leave
the list B, A, C, and the same six nodes appearing in the order of
`cycle_nodes_reordered` leave the list C, B, A. Each media class and link group
occurs once among the nodes, the registry is empty at the start, configuration
and stream counters are the same. The comparison `filter_compare_func` wraps
around on the difference of the priorities of A and C, so that it puts C before
B, B before A and A before C. -/
theorem arrival_order_matters :
    cycle_nodes.Perm cycle_nodes_reordered ∧
    (cycle_nodes.map (fun p =>
      (wp_pipewire_object_get_property p PW_KEY_MEDIA_CLASS,
        wp_pipewire_object_get_property p PW_KEY_NODE_LINK_GROUP))).Nodup ∧
    filters cycle_state WpDirection.INPUT = [] ∧ filters cycle_state WpDirection.OUTPUT = [] ∧
    ∃ s1 s2, run cycle_state (cycle_nodes.map Event.filter_node_added) = some s1 ∧
      run cycle_state (cycle_nodes_reordered.map Event.filter_node_added) = some s2 ∧
      (filters s1 WpDirection.INPUT).map (fun f => (f.link_group, f.priority))
        = [("B", 0), ("A", 2000000000), ("C", -2000000000)] ∧
      (filters s2 WpDirection.INPUT).map (fun f => (f.link_group, f.priority))
        = [("C", -2000000000), ("B", 0), ("A", 2000000000)] ∧
      filters s1 WpDirection.INPUT ≠ filters s2 WpDirection.INPUT := by
  refine ⟨by decide, by decide, rfl, rfl, ?_⟩
  have hrun1 : (run cycle_state (cycle_nodes.map Event.filter_node_added)).isSome = true := by
    decide
  have hrun2 : (run cycle_state (cycle_nodes_reordered.map Event.filter_node_added)).isSome
      = true := by decide
  obtain ⟨s1, hs1⟩ := Option.isSome_iff_exists.1 hrun1
  obtain ⟨s2, hs2⟩ := Option.isSome_iff_exists.1 hrun2
  have h1 : (run cycle_state (cycle_nodes.map Event.filter_node_added)).map
      (fun s => (filters s WpDirection.INPUT).map (fun f => (f.link_group, f.priority)))
      = some [("B", 0), ("A", 2000000000), ("C", -2000000000)] := by decide
  have h2 : (run cycle_state (cycle_nodes_reordered.map Event.filter_node_added)).map
      (fun s => (filters s WpDirection.INPUT).map (fun f => (f.link_group, f.priority)))
      = some [("C", -2000000000), ("B", 0), ("A", 2000000000)] := by decide
  rw [hs1, Option.map_some'] at h1
  rw [hs2, Option.map_some'] at h2
  have h1 := Option.some.inj h1
  have h2 := Option.some.inj h2
  refine ⟨s1, s2, hs1, hs2, h1, h2, ?_⟩
  intro he
  rw [he, h2] at h1
  revert h1
  decide

/-! ## The registry as a function of the set of nodes that have appeared -/

/-- The function `on_filter_node_added` ignores a node without a role. -/
theorem on_filter_node_added_no_role (self : WpFiltersApi) (p : WpNode)
    (h : node_role p = none) : on_filter_node_added self p = some self := by
  unfold node_role at h
  unfold on_filter_node_added
  cases h1 : wp_pipewire_object_get_property p PW_KEY_MEDIA_CLASS with
  | none => rfl
  | some mc =>
    simp only [h1] at h ⊢
    cases h2 : media_class_direction mc with
    | none => rfl
    | some dir =>
      simp only [h2] at h ⊢
      cases h3 : wp_pipewire_object_get_property p PW_KEY_NODE_LINK_GROUP with
      | none => rfl
      | some key =>
        simp only [h3] at h
        cases h

/-- The function `on_filter_node_added` for a node with a role. -/
theorem on_filter_node_added_role (self : WpFiltersApi) (p : WpNode) (dir : WpDirection)
    (key : String) (st : Bool) (h : node_role p = some (dir, key, st)) :
    on_filter_node_added self p =
      match g_list_find_custom (filters self dir) key with
      | none =>
        match update_values_from_metadata self (filter_new key dir st p) with
        | none => none
        | some r =>
          some (set_filters self dir
            (g_list_insert_sorted filter_compare_func (filters self dir) r.2))
      | some (before, found, after) =>
        match update_values_from_metadata self (bind_node found st p) with
        | none => none
        | some r =>
          some (set_filters self dir
            (g_list_sort filter_compare_func (before.reverse ++ r.2 :: after))) := by
  unfold node_role at h
  unfold on_filter_node_added bind_node
  cases h1 : wp_pipewire_object_get_property p PW_KEY_MEDIA_CLASS with
  | none =>
    simp only [h1] at h
    cases h
  | some mc =>
    simp only [h1] at h ⊢
    cases h2 : media_class_direction mc with
    | none =>
      simp only [h2] at h
      cases h
    | some d =>
      simp only [h2] at h ⊢
      cases h3 : wp_pipewire_object_get_property p PW_KEY_NODE_LINK_GROUP with
      | none =>
        simp only [h3] at h
        cases h
      | some k =>
        simp only [h3] at h ⊢
        cases h
        rfl

/-- The nodes of a link group among `done` are determined by `done`. -/
theorem slots_unique (done : List WpNode) (dir : WpDirection) (key : String)
    (s1 s2 : Bool → Option WpNode) (h1 : slots_of done dir key s1)
    (h2 : slots_of done dir key s2) : s1 = s2 := by
  funext st
  apply Option.ext
  intro p
  exact (h1 st p).trans (h2 st p).symm

/-- A node that has no role in the link group `key` of the direction `dir`
does not change the nodes of that group. -/
theorem slots_extend_other (done : List WpNode) (p : WpNode) (dir : WpDirection) (key : String)
    (slot : Bool → Option WpNode) (hp : ∀ st, node_role p ≠ some (dir, key, st)) :
    slots_of (p :: done) dir key slot ↔ slots_of done dir key slot := by
  unfold slots_of
  constructor
  · intro h st q
    rw [h st q]
    constructor
    · rintro ⟨hq, hr⟩
      rcases List.mem_cons.1 hq with rfl | hq
      · exact absurd hr (hp st)
      · exact ⟨hq, hr⟩
    · rintro ⟨hq, hr⟩
      exact ⟨List.mem_cons_of_mem _ hq, hr⟩
  · intro h st q
    rw [h st q]
    constructor
    · rintro ⟨hq, hr⟩
      exact ⟨List.mem_cons_of_mem _ hq, hr⟩
    · rintro ⟨hq, hr⟩
      rcases List.mem_cons.1 hq with rfl | hq
      · exact absurd hr (hp st)
      · exact ⟨hq, hr⟩

/-- A node with a role that no node of `done` has takes its place among the
nodes of its link group. -/
theorem slots_extend_same (done : List WpNode) (p : WpNode) (dir : WpDirection) (key : String)
    (st : Bool) (slot0 : Bool → Option WpNode) (h0 : slots_of done dir key slot0)
    (hrole : node_role p = some (dir, key, st))
    (hfresh : ∀ q ∈ done, node_role q ≠ some (dir, key, st)) :
    slots_of (p :: done) dir key (fun x => if x = st then some p else slot0 x) := by
  intro x q
  by_cases hx : x = st
  · subst hx
    simp only [if_true]
    constructor
    · intro h
      cases h
      exact ⟨List.mem_cons_self _ _, hrole⟩
    · rintro ⟨hq, hr⟩
      rcases List.mem_cons.1 hq with rfl | hq
      · rfl
      · exact absurd hr (hfresh q hq)
  · simp only [if_neg hx]
    rw [h0 x q]
    constructor
    · rintro ⟨hq, hr⟩
      exact ⟨List.mem_cons_of_mem _ hq, hr⟩
    · rintro ⟨hq, hr⟩
      rcases List.mem_cons.1 hq with rfl | hq
      · rw [hrole] at hr
        cases hr
        exact absurd rfl hx
      · exact ⟨hq, hr⟩

/-- The filter `filter_new` makes is the filter bound to the one node. -/
theorem filter_new_bound (key : String) (dir : WpDirection) (st : Bool) (p : WpNode)
    (slot0 : Bool → Option WpNode) (h0 : ∀ x, slot0 x = none) :
    filter_new key dir st p
      = bound_filter key dir ((fun x => if x = st then some p else slot0 x) false)
          ((fun x => if x = st then some p else slot0 x) true) := by
  cases st <;> simp [filter_new, bound_filter, h0]

/-- Binding a node to the filter bound to some nodes gives the filter bound to
these and the new node. -/
theorem bind_node_bound (key : String) (dir : WpDirection) (st : Bool) (p : WpNode)
    (slot0 : Bool → Option WpNode) :
    bind_node (bound_filter key dir (slot0 false) (slot0 true)) st p
      = bound_filter key dir ((fun x => if x = st then some p else slot0 x) false)
          ((fun x => if x = st then some p else slot0 x) true) := by
  cases st <;> simp [bind_node, bound_filter]

/-- The filter bound to one node only is left as it is by
`update_values_from_metadata`. -/
theorem update_values_bound_half (env : WpFiltersApi) (key : String) (dir : WpDirection)
    (slot : Bool → Option WpNode) (st : Bool) (h : slot st = none) :
    update_values_from_metadata env (bound_filter key dir (slot false) (slot true))
      = some (false, bound_filter key dir (slot false) (slot true)) := by
  apply update_values_half_bound
  cases st
  · exact Or.inr h
  · exact Or.inl h

/-- The filter bound to named nodes has named nodes. -/
theorem filter_named_bound (key : String) (dir : WpDirection) (slot : Bool → Option WpNode)
    (h : ∀ x q, slot x = some q → node_named q = true) :
    filter_named (bound_filter key dir (slot false) (slot true)) = true := by
  unfold filter_named bound_filter
  dsimp only
  cases hs : slot true with
  | none => rfl
  | some s =>
    cases hn : slot false with
    | none => rfl
    | some n =>
      have h1 := h true s hs
      have h2 := h false n hn
      unfold node_named at h1 h2
      simp only [h1, h2, Bool.and_self]

/-- Setting a list of the registry changes nothing else. -/
theorem same_but_registry_set_filters (self : WpFiltersApi) (dir : WpDirection)
    (l : List Filter) : same_but_registry (set_filters self dir l) self := by
  cases dir <;> rfl

/-- One filter node with a role appears, in a state whose registry is the one
of the nodes `done` none of which has that role: the function returns, the
filter of the link group of the node is now the filter bound to the nodes of
the group among `done` and to the new node, with the configuration applied,
and the other filters are those of before. -/
theorem filter_node_added_step (env self : WpFiltersApi) (done : List WpNode) (p : WpNode)
    (dir : WpDirection) (key : String) (st : Bool)
    (hrole : node_role p = some (dir, key, st))
    (henv : ∀ f, update_values_from_metadata self f = update_values_from_metadata env f)
    (hinv : registry_inv self) (hJ : registry_of env done self) (hK : roles_present done self)
    (hfresh : ∀ q ∈ done, node_role q ≠ some (dir, key, st))
    (hp : node_named p = true) (hdone : ∀ q ∈ done, node_named q = true) :
    ∃ next slot0 b fnew, on_filter_node_added self p = some next ∧
      slots_of done dir key slot0 ∧
      update_values_from_metadata env
        (bound_filter key dir ((fun x => if x = st then some p else slot0 x) false)
          ((fun x => if x = st then some p else slot0 x) true)) = some (b, fnew) ∧
      (∀ g, g ∈ filters next dir ↔ (g = fnew ∨ (g ∈ filters self dir ∧ g.link_group ≠ key))) ∧
      (∀ d2, d2 ≠ dir → filters next d2 = filters self d2) ∧
      same_but_registry next self := by
  rw [on_filter_node_added_role self p dir key st hrole]
  cases hfind : g_list_find_custom (filters self dir) key with
  | none =>
    have hno := find_custom_none_imp key _ hfind
    have h0 : slots_of done dir key (fun _ => none) := by
      intro x q
      constructor
      · intro h
        cases h
      · rintro ⟨hq, hr⟩
        have hf := hK q hq dir key x hr
        unfold has_filter at hf
        obtain ⟨g, hg, hgk⟩ := List.mem_map.1 hf
        exact absurd hgk (hno g hg)
    have hnew := filter_new_bound key dir st p (fun _ => none) (fun _ => rfl)
    have hhalf : update_values_from_metadata self (filter_new key dir st p)
        = some (false, filter_new key dir st p) :=
      update_values_half_bound self _ (by cases st <;> simp [filter_new])
    dsimp only
    rw [hhalf]
    refine ⟨_, fun _ => none, false, filter_new key dir st p, rfl, h0, ?_, ?_, ?_, ?_⟩
    · rw [← hnew, ← henv]
      exact hhalf
    · intro g
      rw [filters_set_filters_same, (insert_sorted_perm _ _ _).mem_iff, List.mem_cons]
      constructor
      · rintro (h | h)
        · exact Or.inl h
        · exact Or.inr ⟨h, hno g h⟩
      · rintro (h | ⟨h, _⟩)
        · exact Or.inl h
        · exact Or.inr h
    · intro d2 hd
      exact filters_set_filters_other _ _ _ _ hd
    · exact same_but_registry_set_filters _ _ _
  | some t =>
    obtain ⟨before, found, after⟩ := t
    obtain ⟨hl, hkey, hbefore⟩ := find_custom_some key _ before after found hfind
    have hfound : found ∈ filters self dir := by
      rw [hl]
      simp
    obtain ⟨key0, slot0, b0, _, hs0, hu0⟩ := (hJ dir found).1 hfound
    have hk0 : key0 = key := by
      have h1 := (update_values_ident env _ (b0, found) hu0).1
      exact h1.symm.trans hkey
    subst hk0
    have hst : slot0 st = none := by
      cases h : slot0 st with
      | none => rfl
      | some q => exact absurd ((hs0 st q).1 h).2 (hfresh q ((hs0 st q).1 h).1)
    have hhalf := update_values_bound_half env key0 dir slot0 st hst
    rw [hhalf] at hu0
    have hfd : found = bound_filter key0 dir (slot0 false) (slot0 true) :=
      (congrArg Prod.snd (Option.some.inj hu0)).symm
    have hbind := bind_node_bound key0 dir st p slot0
    rw [← hfd] at hbind
    have hnamed : filter_named (bind_node found st p) = true := by
      rw [hbind]
      refine filter_named_bound key0 dir (fun x => if x = st then some p else slot0 x) ?_
      intro x q hq
      by_cases hx : x = st
      · simp only [hx, if_true] at hq
        cases hq
        exact hp
      · simp only [if_neg hx] at hq
        exact hdone q ((hs0 x q).1 hq).1
    obtain ⟨r, hr⟩ := update_values_returns self _ hnamed
    dsimp only
    rw [hr]
    have hafter : ∀ g ∈ after, g.link_group ≠ key0 := by
      have hnd := (hinv dir).1
      rw [hl, List.map_append, List.map_cons] at hnd
      have h3 := (List.nodup_cons.1 (List.nodup_append.1 hnd).2.1).1
      intro g hg e
      exact h3 (List.mem_map.2 ⟨g, hg, e.trans hkey.symm⟩)
    refine ⟨_, slot0, r.1, r.2, rfl, hs0, ?_, ?_, ?_, ?_⟩
    · rw [← hbind, ← henv]
      exact hr
    · intro g
      rw [filters_set_filters_same, (sort_perm _ _).mem_iff, hl]
      simp only [List.mem_append, List.mem_reverse, List.mem_cons]
      constructor
      · rintro (h | h | h)
        · exact Or.inr ⟨Or.inl h, hbefore g h⟩
        · exact Or.inl h
        · exact Or.inr ⟨Or.inr (Or.inr h), hafter g h⟩
      · rintro (h | ⟨h | h | h, hk⟩)
        · exact Or.inr (Or.inl h)
        · exact Or.inl h
        · rw [h] at hk
          exact absurd hkey hk
        · exact Or.inr (Or.inr h)
    · intro d2 hd
      exact filters_set_filters_other _ _ _ _ hd
    · exact same_but_registry_set_filters _ _ _

/-- One filter node appears, in a state whose registry is the one of the nodes
`done`, none of which has the role of the node: the function returns and the
registry is the one of the nodes `done` and the new node. -/
theorem registry_of_step (env self : WpFiltersApi) (done : List WpNode) (p : WpNode)
    (henv : ∀ f, update_values_from_metadata self f = update_values_from_metadata env f)
    (hinv : registry_inv self) (hJ : registry_of env done self) (hK : roles_present done self)
    (hfresh : ∀ q ∈ done, ∀ r, node_role p = some r → node_role q ≠ some r)
    (hp : node_named p = true) (hdone : ∀ q ∈ done, node_named q = true) :
    ∃ next, on_filter_node_added self p = some next ∧ registry_of env (p :: done) next ∧
      roles_present (p :: done) next ∧ same_but_registry next self := by
  cases hrole : node_role p with
  | none =>
    refine ⟨self, on_filter_node_added_no_role self p hrole, ?_, ?_, rfl⟩
    · intro dir f
      rw [hJ dir f]
      constructor
      · rintro ⟨key, slot, b, hne, hs, hu⟩
        exact ⟨key, slot, b, hne,
          (slots_extend_other done p dir key slot (by rw [hrole]; intro st h; cases h)).2 hs, hu⟩
      · rintro ⟨key, slot, b, hne, hs, hu⟩
        exact ⟨key, slot, b, hne,
          (slots_extend_other done p dir key slot (by rw [hrole]; intro st h; cases h)).1 hs, hu⟩
    · intro q hq dir key st hr
      rcases List.mem_cons.1 hq with rfl | hq
      · rw [hrole] at hr
        cases hr
      · exact hK q hq dir key st hr
  | some role =>
    obtain ⟨dir, key, st⟩ := role
    obtain ⟨next, slot0, b, fnew, hnext, hs0, hu, hmem, hother, hframe⟩ :=
      filter_node_added_step env self done p dir key st hrole henv hinv hJ hK
        (fun q hq => hfresh q hq _ hrole) hp hdone
    have hsame := slots_extend_same done p dir key st slot0 hs0 hrole
      (fun q hq => hfresh q hq _ hrole)
    have hkn : fnew.link_group = key := (update_values_ident env _ (b, fnew) hu).1
    have hnewmem : fnew ∈ filters next dir := (hmem fnew).2 (Or.inl rfl)
    refine ⟨next, hnext, ?_, ?_, hframe⟩
    · intro dir2 f
      by_cases hd : dir2 = dir
      · subst hd
        rw [hmem f]
        constructor
        · rintro (hf | ⟨hf, hk⟩)
          · subst hf
            exact ⟨key, _, b, ⟨st, by simp⟩, hsame, hu⟩
          · obtain ⟨key2, slot1, b1, hne, hs1, hu1⟩ := (hJ dir2 f).1 hf
            have hk2 : key2 ≠ key := by
              intro e
              apply hk
              rw [← e]
              exact (update_values_ident env _ (b1, f) hu1).1
            refine ⟨key2, slot1, b1, hne, (slots_extend_other done p dir2 key2 slot1 ?_).2 hs1,
              hu1⟩
            intro x hx
            rw [hrole] at hx
            cases hx
            exact hk2 rfl
        · rintro ⟨key2, slot1, b1, hne, hs1, hu1⟩
          by_cases hk : key2 = key
          · subst hk
            have he := slots_unique _ _ _ slot1 _ hs1 hsame
            subst he
            rw [hu] at hu1
            left
            exact (congrArg Prod.snd (Option.some.inj hu1)).symm
          · right
            have hs2 := (slots_extend_other done p dir2 key2 slot1 (by
              intro x hx
              rw [hrole] at hx
              cases hx
              exact hk rfl)).1 hs1
            refine ⟨(hJ dir2 f).2 ⟨key2, slot1, b1, hne, hs2, hu1⟩, ?_⟩
            rw [(update_values_ident env _ (b1, f) hu1).1]
            exact hk
      · rw [hother dir2 hd, hJ dir2 f]
        have hno : ∀ key2 x, node_role p ≠ some (dir2, key2, x) := by
          intro key2 x hx
          rw [hrole] at hx
          cases hx
          exact hd rfl
        constructor
        · rintro ⟨key2, slot1, b1, hne, hs1, hu1⟩
          exact ⟨key2, slot1, b1, hne,
            (slots_extend_other done p dir2 key2 slot1 (hno key2)).2 hs1, hu1⟩
        · rintro ⟨key2, slot1, b1, hne, hs1, hu1⟩
          exact ⟨key2, slot1, b1, hne,
            (slots_extend_other done p dir2 key2 slot1 (hno key2)).1 hs1, hu1⟩
    · intro q hq dir2 key2 x hr
      unfold has_filter
      rcases List.mem_cons.1 hq with rfl | hq
      · rw [hrole] at hr
        cases hr
        exact List.mem_map.2 ⟨fnew, hnewmem, hkn⟩
      · have hf := hK q hq dir2 key2 x hr
        unfold has_filter at hf
        obtain ⟨g, hg, hgk⟩ := List.mem_map.1 hf
        by_cases hd : dir2 = dir
        · subst hd
          by_cases hk : key2 = key
          · subst hk
            exact List.mem_map.2 ⟨fnew, hnewmem, hkn⟩
          · refine List.mem_map.2 ⟨g, (hmem g).2 (Or.inr ⟨hg, ?_⟩), hgk⟩
            rw [hgk]
            exact hk
        · rw [hother dir2 hd]
          exact hf

/-- The relation `same_but_registry` goes through a chain of states. -/
theorem same_but_registry_trans {a b c : WpFiltersApi} (h1 : same_but_registry a b)
    (h2 : same_but_registry b c) : same_but_registry a c := by
  unfold same_but_registry at h1 h2 ⊢
  rw [h2] at h1
  exact h1

/-- States that differ in the registry only give the same result of
`update_values_from_metadata`. -/
theorem update_values_same_but_registry {a b : WpFiltersApi} (h : same_but_registry a b)
    (f : Filter) : update_values_from_metadata a f = update_values_from_metadata b f := by
  unfold same_but_registry at h
  have hm : a.metadata_om = b.metadata_om := by
    rw [h]
  have hp : a.n_playback_stream_nodes = b.n_playback_stream_nodes := by
    rw [h]
  have hc : a.n_capture_stream_nodes = b.n_capture_stream_nodes := by
    rw [h]
  exact update_values_congr b a hm hp hc f

/-- The registry of a set of nodes depends on the nodes, not on their order. -/
theorem registry_of_congr (env s : WpFiltersApi) (d1 d2 : List WpNode)
    (h : ∀ q, q ∈ d1 ↔ q ∈ d2) (h1 : registry_of env d1 s) : registry_of env d2 s := by
  have hs : ∀ dir key slot, slots_of d1 dir key slot ↔ slots_of d2 dir key slot := by
    intro dir key slot
    unfold slots_of
    constructor
    · intro hh st p
      rw [hh st p, h p]
    · intro hh st p
      rw [hh st p, h p]
  intro dir f
  rw [h1 dir f]
  constructor
  · rintro ⟨key, slot, b, hne, hsl, hu⟩
    exact ⟨key, slot, b, hne, (hs dir key slot).1 hsl, hu⟩
  · rintro ⟨key, slot, b, hne, hsl, hu⟩
    exact ⟨key, slot, b, hne, (hs dir key slot).2 hsl, hu⟩

/-- A sequence of filter nodes appears, each role at most once among them and
the nodes `done` that have appeared before: the run returns and the registry is
the one of all these nodes. -/
theorem run_registry_of (env : WpFiltersApi) (l : List WpNode) :
    ∀ (done : List WpNode) (self : WpFiltersApi),
      same_but_registry self env → registry_inv self → registry_of env done self →
      roles_present done self →
      ((done ++ l).filterMap node_role).Nodup →
      (∀ q ∈ done ++ l, node_named q = true) →
      ∃ next, run self (l.map Event.filter_node_added) = some next ∧
        same_but_registry next env ∧ registry_inv next ∧
        ∃ all, (∀ q, q ∈ all ↔ (q ∈ done ∨ q ∈ l)) ∧ registry_of env all next := by
  induction l with
  | nil =>
    intro done self hframe hinv hJ _ _ _
    exact ⟨self, rfl, hframe, hinv, done, fun q => by simp, hJ⟩
  | cons p rest ih =>
    intro done self hframe hinv hJ hK hnd hnamed
    have hfresh : ∀ q ∈ done, ∀ r, node_role p = some r → node_role q ≠ some r := by
      intro q hq r hr hqr
      rw [List.filterMap_append] at hnd
      have hdis := (List.nodup_append.1 hnd).2.2
      exact hdis (List.mem_filterMap.2 ⟨q, hq, hqr⟩)
        (List.mem_filterMap.2 ⟨p, List.mem_cons_self _ _, hr⟩)
    obtain ⟨s1, h1, hJ1, hK1, hf1⟩ := registry_of_step env self done p
      (update_values_same_but_registry hframe) hinv hJ hK hfresh
      (hnamed p (by simp)) (fun q hq => hnamed q (by simp [hq]))
    have hh : handle self (Event.filter_node_added p) = some s1 := h1
    have hnd1 : (((p :: done) ++ rest).filterMap node_role).Nodup :=
      ((List.Perm.filterMap node_role List.perm_middle).nodup_iff).1 hnd
    obtain ⟨next, hrun, hfn, hin, all, hall, hJn⟩ := ih (p :: done) s1
      (same_but_registry_trans hf1 hframe) (handle_inv self s1 _ hh hinv) hJ1 hK1 hnd1
      (fun q hq => hnamed q (by
        simp only [List.cons_append, List.mem_cons, List.mem_append] at hq ⊢
        tauto))
    refine ⟨next, ?_, hfn, hin, all, ?_, hJn⟩
    · rw [List.map_cons]
      unfold run
      rw [hh]
      exact hrun
    · intro q
      rw [hall q]
      simp only [List.mem_cons]
      tauto

/-- Two sorted lists of filters with pairwise distinct link groups that have
the same filters are the same list. -/
theorem sorted_registry_unique (l1 l2 : List Filter) (hs1 : registry_sorted l1)
    (hs2 : registry_sorted l2) (hn1 : (l1.map Filter.link_group).Nodup)
    (hn2 : (l2.map Filter.link_group).Nodup) (hmem : ∀ f, f ∈ l1 ↔ f ∈ l2) : l1 = l2 := by
  have hp : l1.Perm l2 :=
    (List.perm_ext_iff_of_nodup (List.Nodup.of_map _ hn1) (List.Nodup.of_map _ hn2)).2 hmem
  have hr1 : l1.Pairwise (fun a b => filter_le a b ∧ a.link_group ≠ b.link_group) :=
    List.Pairwise.and hs1 (List.pairwise_map.1 hn1)
  have hr2 : l2.Pairwise (fun a b => filter_le a b ∧ a.link_group ≠ b.link_group) :=
    List.Pairwise.and hs2 (List.pairwise_map.1 hn2)
  haveI : IsAntisymm Filter (fun a b => filter_le a b ∧ a.link_group ≠ b.link_group) :=
    ⟨fun a b h1 h2 => by
      exfalso
      apply h1.2
      rcases h1.1 with h | ⟨_, h⟩
      · rcases h2.1 with h' | ⟨h', _⟩
        · omega
        · omega
      · rcases h2.1 with h' | ⟨_, h'⟩
        · omega
        · exact le_antisymm h h'⟩
  exact List.eq_of_perm_of_sorted hp hr1 hr2

/-- With the priorities of the configuration within bounds, and the nodes
named, the order in which filter nodes appear does not show in the result:
two orderings of the same nodes, each role occurring at most once among them,
applied to an empty registry, are both handled to the end and leave the same
state, the lists of the registry included. -/
theorem arrival_order_bounded (self : WpFiltersApi) (l1 l2 : List WpNode)
    (hempty : self.filters_input = [] ∧ self.filters_output = [])
    (hb : ∀ m, self.metadata_om = some m → metadata_bounded m)
    (hperm : l1.Perm l2) (hnd : (l1.filterMap node_role).Nodup)
    (hnamed : ∀ p ∈ l1, node_named p = true) :
    ∃ s, run self (l1.map Event.filter_node_added) = some s ∧
      run self (l2.map Event.filter_node_added) = some s := by
  have hfil : ∀ dir, filters self dir = [] := by
    intro dir
    cases dir
    · exact hempty.1
    · exact hempty.2
  have hinv : registry_inv self := by
    intro dir
    unfold list_inv
    rw [hfil dir]
    exact ⟨List.nodup_nil, fun f hf => by cases hf⟩
  have hsorted : sorted_inv self := by
    refine ⟨hb, fun dir => ?_⟩
    rw [hfil dir]
    exact ⟨List.Pairwise.nil, fun f hf => by cases hf⟩
  have hJ : registry_of self [] self := by
    intro dir f
    rw [hfil dir]
    constructor
    · intro h
      cases h
    · rintro ⟨key, slot, b, ⟨st, hne⟩, hs, _⟩
      obtain ⟨q, hq⟩ := Option.ne_none_iff_exists'.1 hne
      have := ((hs st q).1 hq).1
      cases this
  have hK : roles_present [] self := by
    intro q hq
    cases hq
  have hev : ∀ (l : List WpNode), ∀ e ∈ l.map Event.filter_node_added, event_bounded e := by
    intro l e he
    obtain ⟨p, _, rfl⟩ := List.mem_map.1 he
    trivial
  obtain ⟨s1, hr1, hf1, hi1, a1, ha1, hJ1⟩ := run_registry_of self l1 [] self rfl hinv hJ hK
    (by simpa using hnd) (by simpa using hnamed)
  obtain ⟨s2, hr2, hf2, hi2, a2, ha2, hJ2⟩ := run_registry_of self l2 [] self rfl hinv hJ hK
    (by simpa using ((hperm.filterMap node_role).nodup_iff).1 hnd)
    (by
      intro q hq
      rw [List.nil_append] at hq
      exact hnamed q (hperm.mem_iff.2 hq))
  have hs1 := run_sorted _ self s1 (hev l1) hsorted hr1
  have hs2 := run_sorted _ self s2 (hev l2) hsorted hr2
  have hJ2' : registry_of self a1 s2 := by
    refine registry_of_congr self s2 a2 a1 ?_ hJ2
    intro q
    rw [ha1 q, ha2 q]
    simp only [List.not_mem_nil, false_or]
    exact (hperm.mem_iff).symm
  have heq : ∀ dir, filters s1 dir = filters s2 dir := by
    intro dir
    apply sorted_registry_unique _ _ (hs1.2 dir).1 (hs2.2 dir).1 (hi1 dir).1 (hi2 dir).1
    intro f
    rw [hJ1 dir f, hJ2' dir f]
  have e1 : s1.filters_input = s2.filters_input := heq WpDirection.INPUT
  have e2 : s1.filters_output = s2.filters_output := heq WpDirection.OUTPUT
  refine ⟨s1, hr1, ?_⟩
  rw [hr2]
  unfold same_but_registry at hf1 hf2
  rw [hf1, hf2, e1, e2]

/-- The nodes of the chain example in two orders, with the configuration
`chain_metadata`, whose priorities are within bounds: both orders leave the
same state. -/
theorem arrival_order_chain_example :
    ∃ s,
      run chain_config_state
        ([example_node 21 "sB" "Stream/Output/Audio" "B", example_node 20 "nB" "Audio/Sink" "B",
          example_node 10 "nA" "Audio/Sink" "A",
          example_node 11 "sA" "Stream/Output/Audio" "A"].map Event.filter_node_added)
        = some s ∧
      run chain_config_state
        ([example_node 10 "nA" "Audio/Sink" "A", example_node 20 "nB" "Audio/Sink" "B",
          example_node 11 "sA" "Stream/Output/Audio" "A",
          example_node 21 "sB" "Stream/Output/Audio" "B"].map Event.filter_node_added)
        = some s :=
  arrival_order_bounded chain_config_state _ _ ⟨rfl, rfl⟩
    (fun m hm => by
      cases hm
      exact chain_metadata_bounded)
    (by decide) (by decide) (by decide)

end FiltersApi
